import Mathlib

/-!
# GeoIP2 core (`src/libgeoip2/GeoIP2_Core.c`): trie walkers and value-location decoders

Shallow embedding of the lookup core.

Integer model.  A C `int` / `off_t` value is an `Int`, an unsigned value a `Nat`.
A value that does not fit a C `int` arises from the bytes of a database in three
places: the assignment of a 32-bit word (`U32`, the result of `_get_uint32`) to an
`int` variable, the sum `p[8] * 16777216 + ...` of `_init` (both `toInt32`, two's
complement), and the product `gi->segments * gi->recbits * 2` of lines 109, 638
and 643, formed in `int` (`wrapInt32`).  The fields of the handle are declared in
the absent header; they are taken to be `int`, the type into which every function
of the file copies them.  All other arithmetic on offsets is exact.

Memory model.  A buffer is a `List U8`; an array read outside the buffer has
no defined behaviour in C and yields `Ret.UNDEFINED`.  A file read through
`pread` outside the file yields `GEOIP2_IOERROR`, as in the source.

The header `GeoIP2.h` is not part of the sources at hand; the type-tag
constants it defines are taken as parameters (`DTypes`).
-/

namespace GeoIP2

/-! ## Data model -/

/-- An octet (`U8`). -/
abbrev U8 := Fin 256

/-- Outcome of a call: the status code returned, with the out-parameter on
success.  `UNDEFINED` stands for a run that C leaves undefined (a read outside
the buffer), `NOFUEL` for a recursion cut off by the recursion budget of the
model. -/
inductive Ret (α : Type) where
  | SUCCESS (out : α)
  | OPENFILEERROR
  | CORRUPTDATABASE
  | INVALIDDATABASE
  | IOERROR
  | UNDEFINED
  | NOFUEL
  deriving DecidableEq, Repr

/-- The fields of `struct GeoIP2` read by the lookup core.  `dataptr` is the
position of the data section, counted from the start of the file image. -/
structure Handle where
  flags : Nat := 0
  fd : Int := -1
  file_format : Int := 0
  recbits : Int := 0
  depth : Int := 0
  database_type : Int := 0
  minor_database_type : Int := 0
  segments : Int := 0
  dataptr : Int := 0
  deriving DecidableEq, Repr

/-- The `struct GeoIP2_Lookup` out-parameter. -/
structure GeoIP2_Lookup where
  netmask : Int
  ptr : Int
  deriving DecidableEq, Repr

/-- A 128-bit address (`geoipv6_t`): sixteen octets, `s6_addr[0]` first. -/
structure geoipv6_t where
  s6_addr : Fin 16 → U8

/-- Conversion of a 32-bit unsigned word to a C `int`. -/
def toInt32 (x : Nat) : Int :=
  if x % 4294967296 < 2147483648 then ((x % 4294967296 : Nat) : Int)
  else ((x % 4294967296 : Nat) : Int) - 4294967296

/-- The value of an `int` expression whose exact value is `x`, as a two's-complement
machine computes it. -/
def wrapInt32 (x : Int) : Int :=
  (x + 2147483648) % 4294967296 - 2147483648

/-- The array read `mem[i]`. -/
def rd (mem : List U8) (i : Int) : Option Nat :=
  if 0 ≤ i then (mem[i.toNat]?).map (fun b => b.val) else none

/-! ## Byte decoder (lines 61-71) -/

/-- Big-endian 32-bit read at `p`. -/
def _get_uint32 (mem : List U8) (p : Int) : Option Nat := do
  let p0 ← rd mem p
  let p1 ← rd mem (p + 1)
  let p2 ← rd mem (p + 2)
  let p3 ← rd mem (p + 3)
  pure ((p0 * 16777216 + p1 * 65536 + p2 * 256 + p3) % 4294967296)

/-- Big-endian 24-bit read at `p`. -/
def _get_uint24 (mem : List U8) (p : Int) : Option Nat := do
  let p0 ← rd mem p
  let p1 ← rd mem (p + 1)
  let p2 ← rd mem (p + 2)
  pure ((p0 * 65536 + p1 * 256 + p2) % 4294967296)

/-- Big-endian 16-bit read at `p`. -/
def _get_uint16 (mem : List U8) (p : Int) : Option Nat := do
  let p0 ← rd mem p
  let p1 ← rd mem (p + 1)
  pure ((p0 * 256 + p1) % 4294967296)

/-! ## Positional reads (lines 90-104) -/

/-- The system call `pread` on a regular file with content `file`: the number
of bytes delivered (`-1` on a negative offset, `0` at or past the end of the
file) and the bytes themselves. -/
def pread (file : List U8) (count : Nat) (offset : Int) : Int × List U8 :=
  if offset < 0 then (-1, [])
  else (((file.drop offset.toNat).take count).length, (file.drop offset.toNat).take count)

/-- The retry loop of `_read`; `buf` is what has been stored so far. -/
def _read_loop (file : List U8) : Nat → Int → Int → List U8 → Ret (List U8)
  | 0, _, _, _ => .NOFUEL
  | fuel + 1, to_read, offset, buf =>
    if to_read > 0 then
      let r := pread file to_read.toNat offset
      if r.1 ≤ 0 then .IOERROR
      else if to_read - r.1 = 0 then .SUCCESS (buf ++ r.2)
      else _read_loop file fuel (to_read - r.1) (offset + r.1) (buf ++ r.2)
    else .SUCCESS buf

/-- The function `_read(fd, buffer, to_read, offset)`: the bytes stored on success.  Every
turn of the loop consumes at least one byte, so `to_read + 1` turns suffice. -/
def _read (file : List U8) (to_read : Nat) (offset : Int) : Ret (List U8) :=
  _read_loop file (to_read + 1) to_read offset []

/-! ## Trie walkers -/

/-- The record read of the 6-byte-node loops over a buffer (lines 361-364, 420-423):
`p = &mem[offset * rl]; if (bit) p += 3; offset = _get_uint24(p)`. -/
def rec6 (mem : List U8) (offset : Int) (bit : Bool) : Ret Int :=
  match _get_uint24 mem (offset * 6 + (if bit then 3 else 0)) with
  | some v => .SUCCESS (toInt32 v)
  | none => .UNDEFINED

/-- The record read of the 7-byte-node loops over a buffer (lines 374-383, 434-442).
`offset &= 0xfffffff` keeps the low 28 bits of the two's-complement `int`. -/
def rec7 (mem : List U8) (offset : Int) (bit : Bool) : Ret Int :=
  if bit then
    match _get_uint32 mem (offset * 7 + 3) with
    | some v => .SUCCESS (toInt32 v % 268435456)
    | none => .UNDEFINED
  else
    match rd mem (offset * 7), rd mem (offset * 7 + 1), rd mem (offset * 7 + 2),
        rd mem (offset * 7 + 3) with
    | some p0, some p1, some p2, some p3 =>
      .SUCCESS ((p0 * 65536 + p1 * 256 + p2 + ((p3 &&& 0xf0) <<< 20) : Nat) : Int)
    | _, _, _, _ => .UNDEFINED

/-- The record read of the 8-byte-node loops over a buffer (lines 393-396, 453-456);
the 32-bit word is stored in `int offset`. -/
def rec8 (mem : List U8) (offset : Int) (bit : Bool) : Ret Int :=
  match _get_uint32 mem (offset * 8 + (if bit then 4 else 0)) with
  | some v => .SUCCESS (toInt32 v)
  | none => .UNDEFINED

/-- The record read of the 6-byte-node loop of `_fdlookup_by_ipnum` (lines 233-235);
`offset` is an `off_t`. -/
def fdrec6 (file : List U8) (offset : Int) (bit : Bool) : Ret Int :=
  match _read file 3 (offset * 6 + (if bit then 3 else 0)) with
  | .SUCCESS b =>
    match _get_uint24 b 0 with
    | some v => .SUCCESS (v : Int)
    | none => .UNDEFINED
  | _ => .IOERROR

/-- The record read of the 7-byte-node loop of `_fdlookup_by_ipnum` (lines 245-256). -/
def fdrec7 (file : List U8) (offset : Int) (bit : Bool) : Ret Int :=
  let byte_offset := offset * 7
  if bit then
    match _read file 4 (byte_offset + 3) with
    | .SUCCESS b =>
      match _get_uint32 b 0 with
      | some v => .SUCCESS (((v : Nat) : Int) % 268435456)
      | none => .UNDEFINED
    | _ => .IOERROR
  else
    match _read file 4 byte_offset with
    | .SUCCESS b =>
      match rd b 0, rd b 1, rd b 2, rd b 3 with
      | some b0, some b1, some b2, some b3 =>
        .SUCCESS ((b0 * 65536 + b1 * 256 + b2 + ((b3 &&& 0xf0) <<< 20) : Nat) : Int)
      | _, _, _, _ => .UNDEFINED
    | _ => .IOERROR

/-- The record read of the 8-byte-node loop of `_fdlookup_by_ipnum` (lines 266-268);
the 32-bit word is stored in `off_t offset`, which holds it unchanged. -/
def fdrec8 (file : List U8) (offset : Int) (bit : Bool) : Ret Int :=
  match _read file 4 (offset * 8 + (if bit then 4 else 0)) with
  | .SUCCESS b =>
    match _get_uint32 b 0 with
    | some v => .SUCCESS (v : Int)
    | none => .UNDEFINED
  | _ => .IOERROR

/-- The record read of the 6-byte-node loop of `_fdlookup_by_ipnum_v6` (lines 294-299);
`offset` and `byte_offset` are `int`. -/
def fdrec6_v6 (file : List U8) (offset : Int) (bit : Bool) : Ret Int :=
  let byte_offset := offset * 6
  let byte_offset := if bit then byte_offset + 3 else byte_offset
  match _read file 3 byte_offset with
  | .SUCCESS b =>
    match _get_uint24 b 0 with
    | some v => .SUCCESS (toInt32 v)
    | none => .UNDEFINED
  | _ => .IOERROR

/-- The record read of the 7-byte-node loop of `_fdlookup_by_ipnum_v6` (lines 309-322). -/
def fdrec7_v6 (file : List U8) (offset : Int) (bit : Bool) : Ret Int :=
  let byte_offset := offset * 7
  if bit then
    let byte_offset := byte_offset + 3
    match _read file 4 byte_offset with
    | .SUCCESS b =>
      match _get_uint32 b 0 with
      | some v => .SUCCESS (toInt32 v % 268435456)
      | none => .UNDEFINED
    | _ => .IOERROR
  else
    match _read file 4 byte_offset with
    | .SUCCESS b =>
      match rd b 0, rd b 1, rd b 2, rd b 3 with
      | some b0, some b1, some b2, some b3 =>
        .SUCCESS ((b0 * 65536 + b1 * 256 + b2 + ((b3 &&& 0xf0) <<< 20) : Nat) : Int)
      | _, _, _, _ => .UNDEFINED
    | _ => .IOERROR

/-- The record read of the 8-byte-node loop of `_fdlookup_by_ipnum_v6` (lines 332-337). -/
def fdrec8_v6 (file : List U8) (offset : Int) (bit : Bool) : Ret Int :=
  let byte_offset := offset * 8
  let byte_offset := if bit then byte_offset + 4 else byte_offset
  match _read file 4 byte_offset with
  | .SUCCESS b =>
    match _get_uint32 b 0 with
    | some v => .SUCCESS (toInt32 v)
    | none => .UNDEFINED
  | _ => .IOERROR

/-- The loop `for (depth = 32 - 1; depth >= 0; depth--)` of the IPv4 walkers, with `mask`
shifted right once per turn.  The first argument is `depth + 1`; running out of
levels falls through to `return GEOIP2_CORRUPTDATABASE`. -/
def loop_v4 (rec : Int → Bool → Ret Int) (segments : Int) (ipnum : Nat) :
    Nat → Nat → Int → Ret GeoIP2_Lookup
  | 0, _, _ => .CORRUPTDATABASE
  | depth + 1, mask, offset =>
    match rec offset (ipnum &&& mask != 0) with
    | .SUCCESS v =>
      if v ≥ segments then .SUCCESS ⟨32 - (depth : Int), v - segments⟩
      else loop_v4 rec segments ipnum depth (mask >>> 1) v
    | .IOERROR => .IOERROR
    | _ => .UNDEFINED

/-- The bit test `GEOIP_CHKBIT_V6(bit, ptr)` of line 184, in `unsigned long` arithmetic:
`ptr[(127UL - bit) >> 3] & (1UL << (~(127UL - bit) & 7))`.  An index past the
sixteen address bytes is a read outside the address. -/
def GEOIP_CHKBIT_V6 (bit : Nat) (ptr : geoipv6_t) : Option Bool :=
  let x := (127 + 18446744073709551616 - bit % 18446744073709551616) % 18446744073709551616
  if h : x >>> 3 < 16 then
    some ((ptr.s6_addr ⟨x >>> 3, h⟩).val &&& (1 <<< ((18446744073709551615 - x) &&& 7)) != 0)
  else none

/-- The loop `for (depth = gi->depth - 1; depth >= 0; depth--)` of the IPv6 walkers.
The first argument is `depth + 1`. -/
def loop_v6 (rec : Int → Bool → Ret Int) (segments : Int) (ipnum : geoipv6_t) :
    Nat → Int → Ret GeoIP2_Lookup
  | 0, _ => .CORRUPTDATABASE
  | depth + 1, offset =>
    match GEOIP_CHKBIT_V6 depth ipnum with
    | none => .UNDEFINED
    | some bit =>
      match rec offset bit with
      | .SUCCESS v =>
        if v ≥ segments then .SUCCESS ⟨128 - (depth : Int), v - segments⟩
        else loop_v6 rec segments ipnum depth v
      | .IOERROR => .IOERROR
      | _ => .UNDEFINED

/-- The function `_lookup_by_ipnum` (lines 408-467) over the buffer `mem`. -/
def _lookup_by_ipnum (gi : Handle) (mem : List U8) (ipnum : Nat) : Ret GeoIP2_Lookup :=
  let segments := gi.segments
  let rl := (gi.recbits * 2).tdiv 8
  if rl = 6 then loop_v4 (rec6 mem) segments ipnum 32 0x80000000 0
  else if rl = 7 then loop_v4 (rec7 mem) segments ipnum 32 0x80000000 0
  else if rl = 8 then loop_v4 (rec8 mem) segments ipnum 32 0x80000000 0
  else .CORRUPTDATABASE

/-- The function `_fdlookup_by_ipnum` (lines 218-278) over the file behind `gi->fd`. -/
def _fdlookup_by_ipnum (gi : Handle) (file : List U8) (ipnum : Nat) : Ret GeoIP2_Lookup :=
  let segments := gi.segments
  let rl := (gi.recbits * 2).tdiv 8
  if rl = 6 then loop_v4 (fdrec6 file) segments ipnum 32 0x80000000 0
  else if rl = 7 then loop_v4 (fdrec7 file) segments ipnum 32 0x80000000 0
  else if rl = 8 then loop_v4 (fdrec8 file) segments ipnum 32 0x80000000 0
  else .CORRUPTDATABASE

/-- The function `_lookup_by_ipnum_v6` (lines 349-406) over the buffer `mem`. -/
def _lookup_by_ipnum_v6 (gi : Handle) (mem : List U8) (ipnum : geoipv6_t) :
    Ret GeoIP2_Lookup :=
  let segments := gi.segments
  let rl := (gi.recbits * 2).tdiv 8
  if rl = 6 then loop_v6 (rec6 mem) segments ipnum gi.depth.toNat 0
  else if rl = 7 then loop_v6 (rec7 mem) segments ipnum gi.depth.toNat 0
  else if rl = 8 then loop_v6 (rec8 mem) segments ipnum gi.depth.toNat 0
  else .CORRUPTDATABASE

/-- The function `_fdlookup_by_ipnum_v6` (lines 281-347) over the file behind `gi->fd`. -/
def _fdlookup_by_ipnum_v6 (gi : Handle) (file : List U8) (ipnum : geoipv6_t) :
    Ret GeoIP2_Lookup :=
  let segments := gi.segments
  let rl := (gi.recbits * 2).tdiv 8
  if rl = 6 then loop_v6 (fdrec6_v6 file) segments ipnum gi.depth.toNat 0
  else if rl = 7 then loop_v6 (fdrec7_v6 file) segments ipnum gi.depth.toNat 0
  else if rl = 8 then loop_v6 (fdrec8_v6 file) segments ipnum gi.depth.toNat 0
  else .CORRUPTDATABASE

/-! ## Value-location decoders -/

/-- The type tags `GEOIP2_DTYPE_EXT` and `GEOIP2_DTYPE_PTR`.  They are defined in the
header `GeoIP2.h`, which is not among the sources; they are parameters here. -/
structure DTypes where
  GEOIP2_DTYPE_EXT : Nat
  GEOIP2_DTYPE_PTR : Nat
  deriving DecidableEq, Repr

/-- The field `ptr` of a decode key: the `NULL` pointer, the empty string literal `""`, or a
byte position (an address inside the file image in memory mode, a number in
file mode). -/
inductive Loc where
  | NULL
  | EMPTY
  | AT (pos : Int)
  deriving DecidableEq, Repr

/-- The `struct GeoIP2_Decode_Key` out-parameter. -/
structure GeoIP2_Decode_Key where
  ptr : Loc
  size : Int
  new_offset : Int
  deriving DecidableEq, Repr

/-- Lines 533-536 of `_decode_key`: the type tag, held in a `U8`, and the offset after
the optional extended-type byte.  `base` is `gi->dataptr`. -/
def decode_type (c : DTypes) (mem : List U8) (base : Int) (ctrl : Nat) (offset : Int) :
    Option (Nat × Int) :=
  let type := (ctrl >>> 5) &&& 7
  if type = c.GEOIP2_DTYPE_EXT then
    match rd mem (base + offset) with
    | some b => some ((8 + b) % 256, offset + 1)
    | none => none
  else some (type, offset)

/-- Lines 541-555 of `_decode_key`: the target `new_offset` of a pointer, an `int`. -/
def decode_ptr (mem : List U8) (base : Int) (ctrl : Nat) (psize : Nat) (offset : Int) :
    Option Int :=
  match psize with
  | 0 => (rd mem (base + offset)).map (fun b => (((ctrl &&& 7) * 256 + b : Nat) : Int))
  | 1 => (_get_uint16 mem (base + offset)).map
      (fun v => toInt32 (2048 + (ctrl &&& 7) * 65536 + v))
  | 2 => (_get_uint24 mem (base + offset)).map
      (fun v => toInt32 (2048 + 524288 + (ctrl &&& 7) * 16777216 + v))
  | _ => (_get_uint32 mem (base + offset)).map (fun v => toInt32 v)

/-- Lines 561-575 of `_decode_key`: the size and the offset after the size bytes. -/
def decode_size (mem : List U8) (base : Int) (ctrl : Nat) (offset : Int) :
    Option (Int × Int) :=
  let size := ctrl &&& 31
  match size with
  | 29 => (rd mem (base + offset)).map (fun b => (((29 + b : Nat) : Int), offset + 1))
  | 30 => (_get_uint16 mem (base + offset)).map (fun v => (toInt32 (285 + v), offset + 2))
  | 31 => (_get_uint24 mem (base + offset)).map (fun v => (toInt32 (65821 + v), offset + 3))
  | _ => some ((size : Int), offset)

/-- The function `_decode_key` (lines 525-589) over the buffer `mem`, with `mem[i]` of the
source at position `gi->dataptr + i` of the buffer.  The first argument bounds
the depth of the recursion through pointers. -/
def _decode_key (c : DTypes) (gi : Handle) (mem : List U8) :
    Nat → Int → Ret GeoIP2_Decode_Key
  | 0, _ => .NOFUEL
  | fuel + 1, offset =>
    match rd mem (gi.dataptr + offset) with
    | none => .UNDEFINED
    | some ctrl =>
      match decode_type c mem gi.dataptr ctrl (offset + 1) with
      | none => .UNDEFINED
      | some (type, offset) =>
        if type = c.GEOIP2_DTYPE_PTR then
          let psize := (ctrl >>> 3) &&& 3
          match decode_ptr mem gi.dataptr ctrl psize offset with
          | none => .UNDEFINED
          | some new_offset =>
            match _decode_key c gi mem fuel new_offset with
            | .SUCCESS ret_key => .SUCCESS { ret_key with new_offset := offset + psize + 1 }
            | r => r
        else
          match decode_size mem gi.dataptr ctrl offset with
          | none => .UNDEFINED
          | some (size, offset) =>
            if size = 0 then .SUCCESS ⟨.EMPTY, 0, offset⟩
            else .SUCCESS ⟨.AT (gi.dataptr + offset), size, offset + size⟩

/-- Lines 116-121 of `_fddecode_key`: the type tag, held in an `int`, and the offset
after the optional extended-type byte.  `segments` is the file position of the
data section. -/
def fddecode_type (c : DTypes) (file : List U8) (segments : Int) (ctrl : Nat)
    (offset : Int) : Ret (Nat × Int) :=
  let type := (ctrl >>> 5) &&& 7
  if type = c.GEOIP2_DTYPE_EXT then
    match _read file 1 (segments + offset) with
    | .SUCCESS b =>
      match rd b 0 with
      | some b0 => .SUCCESS (8 + b0, offset + 1)
      | none => .UNDEFINED
    | _ => .IOERROR
  else .SUCCESS (type, offset)

/-- Lines 126-142 of `_fddecode_key`: the target `new_offset` of a pointer, an `int`. -/
def fddecode_ptr (file : List U8) (segments : Int) (ctrl : Nat) (psize : Nat)
    (offset : Int) : Ret Int :=
  match _read file (psize + 1) (segments + offset) with
  | .SUCCESS b =>
    match psize with
    | 0 =>
      match rd b 0 with
      | some b0 => .SUCCESS (((ctrl &&& 7) * 256 + b0 : Nat) : Int)
      | none => .UNDEFINED
    | 1 =>
      match rd b 0, rd b 1 with
      | some b0, some b1 => .SUCCESS ((2048 + (ctrl &&& 7) * 65536 + b0 * 256 + b1 : Nat) : Int)
      | _, _ => .UNDEFINED
    | 2 =>
      match _get_uint24 b 0 with
      | some v => .SUCCESS (toInt32 (2048 + 524288 + (ctrl &&& 7) * 16777216 + v))
      | none => .UNDEFINED
    | _ =>
      match _get_uint32 b 0 with
      | some v => .SUCCESS (toInt32 v)
      | none => .UNDEFINED
  | _ => .IOERROR

/-- Lines 149-169 of `_fddecode_key`: the size and the offset after the size bytes. -/
def fddecode_size (file : List U8) (segments : Int) (ctrl : Nat) (offset : Int) :
    Ret (Int × Int) :=
  let size := ctrl &&& 31
  match size with
  | 29 =>
    match _read file 1 (segments + offset) with
    | .SUCCESS b =>
      match rd b 0 with
      | some b0 => .SUCCESS (((29 + b0 : Nat) : Int), offset + 1)
      | none => .UNDEFINED
    | _ => .IOERROR
  | 30 =>
    match _read file 2 (segments + offset) with
    | .SUCCESS b =>
      match rd b 0, rd b 1 with
      | some b0, some b1 => .SUCCESS (((285 + b0 * 256 + b1 : Nat) : Int), offset + 2)
      | _, _ => .UNDEFINED
    | _ => .IOERROR
  | 31 =>
    match _read file 3 (segments + offset) with
    | .SUCCESS b =>
      match _get_uint24 b 0 with
      | some v => .SUCCESS (toInt32 (65821 + v), offset + 3)
      | none => .UNDEFINED
    | _ => .IOERROR
  | _ => .SUCCESS ((size : Int), offset)

/-- The function `_fddecode_key` (lines 106-182) over the file behind `gi->fd`.  The first
argument bounds the depth of the recursion through pointers.  `segments` is the `const int`
of line 109, whose product is formed in `int`. -/
def _fddecode_key (c : DTypes) (gi : Handle) (file : List U8) :
    Nat → Int → Ret GeoIP2_Decode_Key
  | 0, _ => .NOFUEL
  | fuel + 1, offset =>
    let segments := (wrapInt32 (gi.segments * gi.recbits * 2)).tdiv 8
    match _read file 1 (segments + offset) with
    | .SUCCESS b =>
      match rd b 0 with
      | none => .UNDEFINED
      | some ctrl =>
        match fddecode_type c file segments ctrl (offset + 1) with
        | .SUCCESS (type, offset) =>
          if type = c.GEOIP2_DTYPE_PTR then
            let psize := (ctrl >>> 3) &&& 3
            match fddecode_ptr file segments ctrl psize offset with
            | .SUCCESS new_offset =>
              match _fddecode_key c gi file fuel new_offset with
              | .SUCCESS ret_key => .SUCCESS { ret_key with new_offset := offset + psize + 1 }
              | .NOFUEL => .NOFUEL
              | .UNDEFINED => .UNDEFINED
              | _ => .IOERROR
            | .UNDEFINED => .UNDEFINED
            | _ => .IOERROR
          else
            match fddecode_size file segments ctrl offset with
            | .SUCCESS (size, offset) =>
              if size = 0 then .SUCCESS ⟨.NULL, 0, offset⟩
              else .SUCCESS ⟨.AT (segments + offset), size, offset + size⟩
            | .UNDEFINED => .UNDEFINED
            | _ => .IOERROR
        | .UNDEFINED => .UNDEFINED
        | _ => .IOERROR
    | _ => .IOERROR

/-! ## Specification-side definitions -/

/-- The node value held after `k` levels of a descent from `start`: the child selected at
level `k` by the address bit `bitAt k`, of the node held after `k - 1` levels. -/
def descend (child : Int → Bool → Ret Int) (bitAt : Nat → Option Bool) (start : Int) :
    Nat → Ret Int
  | 0 => .SUCCESS start
  | k + 1 =>
    match descend child bitAt start k with
    | .SUCCESS n =>
      match bitAt (k + 1) with
      | some b => child n b
      | none => .UNDEFINED
    | r => r

/-- Level `k` is the first level whose selected child record `v` is at least `segments`:
every earlier level selected a record below `segments`. -/
def LeafAt (child : Int → Bool → Ret Int) (bitAt : Nat → Option Bool) (segments : Int)
    (start : Int) (k : Nat) (v : Int) : Prop :=
  descend child bitAt start k = .SUCCESS v ∧ segments ≤ v ∧
    ∀ j, 1 ≤ j → j < k → ∃ w, descend child bitAt start j = .SUCCESS w ∧ w < segments

/-- The trie loop with the address bit of each level given by `bit depth`; `top` is the
address width.  Both `loop_v4` and `loop_v6` are instances. -/
def walk (top : Int) (bit : Nat → Option Bool) (rec : Int → Bool → Ret Int)
    (segments : Int) : Nat → Int → Ret GeoIP2_Lookup
  | 0, _ => .CORRUPTDATABASE
  | depth + 1, offset =>
    match bit depth with
    | none => .UNDEFINED
    | some b =>
      match rec offset b with
      | .SUCCESS v =>
        if v ≥ segments then .SUCCESS ⟨top - (depth : Int), v - segments⟩
        else walk top bit rec segments depth v
      | .IOERROR => .IOERROR
      | _ => .UNDEFINED

/-- The address bit selected at level `k` (counted from 1) of an IPv4 walk, most
significant bit first. -/
def bit_v4 (ipnum : Nat) (k : Nat) : Option Bool :=
  some (ipnum.testBit (32 - k))

/-- The child record of a node as section 4.3 of the specification words it: a plain
big-endian unsigned integer of three bytes (width 6) or four bytes (width 8), or the
28-bit packing of width 7. -/
def spec_record (width : Nat) (mem : List U8) (node : Int) (right : Bool) : Ret Int :=
  match width with
  | 6 =>
    match _get_uint24 mem (node * 6 + (if right then 3 else 0)) with
    | some v => .SUCCESS (v : Int)
    | none => .UNDEFINED
  | 7 =>
    if right then
      match _get_uint32 mem (node * 7 + 3) with
      | some v => .SUCCESS ((v % 268435456 : Nat) : Int)
      | none => .UNDEFINED
    else
      match rd mem (node * 7), rd mem (node * 7 + 1), rd mem (node * 7 + 2),
          rd mem (node * 7 + 3) with
      | some b0, some b1, some b2, some b3 =>
        .SUCCESS ((b0 * 65536 + b1 * 256 + b2 + (b3 / 16) * 16777216 : Nat) : Int)
      | _, _, _, _ => .UNDEFINED
  | 8 =>
    match _get_uint32 mem (node * 8 + (if right then 4 else 0)) with
    | some v => .SUCCESS (v : Int)
    | none => .UNDEFINED
  | _ => .UNDEFINED

/-- The record read of the buffer-backed walkers for record width `rl`. -/
def rec_mem (rl : Int) (mem : List U8) : Int → Bool → Ret Int :=
  if rl = 6 then rec6 mem else if rl = 7 then rec7 mem else rec8 mem

/-- The record read of `_fdlookup_by_ipnum_v6` for record width `rl`. -/
def rec_fd_v6 (rl : Int) (file : List U8) : Int → Bool → Ret Int :=
  if rl = 6 then fdrec6_v6 file else if rl = 7 then fdrec7_v6 file else fdrec8_v6 file

/-- The record read of `_fdlookup_by_ipnum` for record width `rl`. -/
def rec_fd (rl : Int) (file : List U8) : Int → Bool → Ret Int :=
  if rl = 6 then fdrec6 file else if rl = 7 then fdrec7 file else fdrec8 file

/-- Section 4.4 of the specification: the number of size bytes that follow the control byte
and the optional type byte: none for a base size below 29, and 1, 2, 3 for the escape
codes 29, 30, 31. -/
def size_bytes (ctrl : Nat) : Nat :=
  match ctrl % 32 with
  | 29 => 1
  | 30 => 2
  | 31 => 3
  | _ => 0

/-- Section 4.4 of the specification: the header of a direct value is the control byte, one
extended-type byte when the three-bit tag is the extended marker, and the size bytes. -/
def header_len (c : DTypes) (ctrl : Nat) : Nat :=
  1 + (if ctrl / 32 % 8 = c.GEOIP2_DTYPE_EXT then 1 else 0) + size_bytes ctrl

/-- Section 4.4 of the specification: the resolved size, from the low five bits of the
control byte and the size bytes at position `pos`. -/
def spec_size (mem : List U8) (pos : Int) (ctrl : Nat) : Option Nat :=
  match ctrl % 32 with
  | 29 => (rd mem pos).map (fun b => 29 + b)
  | 30 => (_get_uint16 mem pos).map (fun v => 285 + v)
  | 31 => (_get_uint24 mem pos).map (fun v => 65821 + v)
  | s => some s

/-- The buffer holds the byte values `bytes` from position `pos` on. -/
def Holds (mem : List U8) (pos : Int) (bytes : List Nat) : Prop :=
  ∀ (i : Nat) (b : Nat), bytes[i]? = some b → rd mem (pos + i) = some b

/-- The canonical encoding of a pointer to the target offset `t` in size class `cls`
(section 4.4 of the specification): the control byte, with the pointer tag `tag` in its top
three bits, the size class in the next two and the high bits of the biased target in the
low three, followed by `cls + 1` bytes, most significant first. -/
def encode_ptr (tag : Nat) (cls : Nat) (t : Nat) : List Nat :=
  match cls with
  | 0 => [tag * 32 + t / 256, t % 256]
  | 1 => [tag * 32 + 8 + (t - 2048) / 65536, (t - 2048) / 256 % 256, (t - 2048) % 256]
  | 2 => [tag * 32 + 16 + (t - 526336) / 16777216, (t - 526336) / 65536 % 256,
      (t - 526336) / 256 % 256, (t - 526336) % 256]
  | _ => [tag * 32 + 24, t / 16777216 % 256, t / 65536 % 256, t / 256 % 256, t % 256]

/-- The targets representable in each size class as the specification lists them; the last
class holds every 32-bit value. -/
def ptr_range (cls : Nat) (t : Nat) : Prop :=
  match cls with
  | 0 => t ≤ 2047
  | 1 => 2048 ≤ t ∧ t ≤ 526335
  | 2 => 526336 ≤ t ∧ t ≤ 134744063
  | _ => t ≤ 4294967295

/-- The canonical header of a direct value of type tag `tag` and size `s` (section 4.4 of
the specification): the size itself in the low five bits up to 28, or an escape code
followed by the biased size in 1, 2 or 3 bytes, most significant first. -/
def encode_size (tag : Nat) (s : Nat) : List Nat :=
  if s ≤ 28 then [tag * 32 + s]
  else if s ≤ 284 then [tag * 32 + 29, s - 29]
  else if s ≤ 65820 then [tag * 32 + 30, (s - 285) / 256, (s - 285) % 256]
  else [tag * 32 + 31, (s - 65821) / 65536, (s - 65821) / 256 % 256, (s - 65821) % 256]

/-- A 7-byte node holding the 28-bit records `vl` (left) and `vr` (right): the low 24 bits
of each in three bytes, the two high nibbles shared in the middle byte. -/
def node7 (vl vr : Nat) : List Nat :=
  [vl / 65536 % 256, vl / 256 % 256, vl % 256, (vl / 16777216) * 16 + vr / 16777216,
    vr / 65536 % 256, vr / 256 % 256, vr % 256]

/-- The `j`-th most significant bit of a 128-bit address, counted from 1: bit
`7 - (j - 1) % 8` of the address byte `(j - 1) / 8`. -/
def addr_bit (ipnum : geoipv6_t) (j : Nat) : Bool :=
  (ipnum.s6_addr ⟨(j - 1) / 8 % 16, Nat.mod_lt _ (by decide)⟩).val.testBit (7 - (j - 1) % 8)

/-! ## Address parsing (lines 469-500) -/

/-- The loop `while ((c = *addr++))` of `_addr_to_num` and the statements after it.  The
text is the bytes before the terminating NUL; `octet`, `ipnum` and `c` are `U32`, `i` is an
`int`. -/
def _addr_to_num_loop : List U8 → Nat → Nat → Int → Nat
  | [], octet, ipnum, i =>
    if octet > 255 ∨ i ≠ 0 then 0
    else ((ipnum <<< 8) % 4294967296 + octet) % 4294967296
  | c :: addr, octet, ipnum, i =>
    if c.val = 0 then
      if octet > 255 ∨ i ≠ 0 then 0
      else ((ipnum <<< 8) % 4294967296 + octet) % 4294967296
    else if c.val = 46 then
      if octet > 255 then 0
      else _addr_to_num_loop addr 0 (((ipnum <<< 8) % 4294967296 + octet) % 4294967296) (i - 1)
    else
      let t := octet
      let octet := (octet <<< 3) % 4294967296
      let octet := (octet + t) % 4294967296
      let octet := (octet + t) % 4294967296
      let c := (c.val + 4294967296 - 48) % 4294967296
      if c > 9 then 0
      else _addr_to_num_loop addr ((octet + c) % 4294967296) ipnum i

/-- The function `_addr_to_num`. -/
def _addr_to_num (addr : List U8) : Nat :=
  _addr_to_num_loop addr 0 0 3

/-- The ASCII digit of `d`. -/
def digit (d : Nat) : U8 :=
  Fin.ofNat (48 + d)

/-- The canonical decimal rendering of an octet: no leading zeros. -/
def dec (n : Nat) : List U8 :=
  if n < 10 then [digit n]
  else if n < 100 then [digit (n / 10), digit (n % 10)]
  else [digit (n / 100), digit (n / 10 % 10), digit (n % 10)]

/-- The dotted-decimal text of four octets. -/
def dotted (a b c d : Nat) : List U8 :=
  dec a ++ 46 :: (dec b ++ 46 :: (dec c ++ 46 :: dec d))

/-- The bytes of a text. -/
def text (s : String) : List U8 :=
  s.toList.map (fun ch => Fin.ofNat ch.toNat)

/-- The number a string of decimal digits denotes. -/
def field_value (ds : List U8) : Nat :=
  ds.foldl (fun acc c => acc * 10 + (c.val - 48)) 0

/-! ## Metadata loader and handle lifecycle (lines 206-216, 592-660) -/

/-- The 14 bytes `"\xab\xcd\xefMaxMind.com"`. -/
def marker : List U8 :=
  [0xab, 0xcd, 0xef, 0x4d, 0x61, 0x78, 0x4d, 0x69, 0x6e, 0x64, 0x2e, 0x63, 0x6f, 0x6d]

/-- The library function `memmem`: the index of the first occurrence of `needle` in
`hay`, if there is one. -/
def memmem (hay needle : List U8) : Option Nat :=
  match hay with
  | [] => if needle.isPrefixOf [] then some 0 else none
  | h :: t =>
    if needle.isPrefixOf (h :: t) then some 0
    else (memmem t needle).map (fun i => i + 1)

/-- What `_init` and `GeoIP2_free_all` act on: the fields of the handle, the pointer
`gi->file_in_mem_ptr` with the buffer it owns, and the resources obtained from the system:
whether the descriptor returned by `open` is still open, whether the block returned by
`malloc` is still allocated, whether the handle block itself is still allocated. -/
structure World where
  gi : Handle
  file_in_mem_ptr : Option (List U8)
  fd_open : Bool
  buf_live : Bool
  gi_live : Bool
  deriving DecidableEq, Repr

/-- The handle block as `calloc` returns it: every field zero, no descriptor open. -/
def calloc_world : World :=
  { gi := { fd := 0 }, file_in_mem_ptr := none, fd_open := false, buf_live := false,
    gi_live := true }

/-- Lines 627-633 of `_init`: the fields read from the twelve bytes at `p`.  Each sum is
formed in `int`; only the last one can leave the range of an `int`, and is kept as a
two's-complement machine computes it. -/
def read_metadata (gi : Handle) (buf : List U8) (p : Int) : Option Handle :=
  match rd buf p, rd buf (p + 1), rd buf (p + 2), rd buf (p + 3), rd buf (p + 4),
      rd buf (p + 5), rd buf (p + 6), rd buf (p + 7), rd buf (p + 8), rd buf (p + 9),
      rd buf (p + 10), rd buf (p + 11) with
  | some p0, some p1, some p2, some p3, some p4, some p5, some p6, some p7, some p8, some p9,
      some p10, some p11 =>
    some { gi with
      file_format := ((p0 * 256 + p1 : Nat) : Int)
      recbits := (p2 : Int)
      depth := (p3 : Int)
      database_type := ((p4 * 256 + p5 : Nat) : Int)
      minor_database_type := ((p6 * 256 + p7 : Nat) : Int)
      segments := toInt32 (p8 * 16777216 + p9 * 65536 + p10 * 256 + p11) }
  | _, _, _, _, _, _, _, _, _, _, _, _ => none

/-- The function `_init` (lines 592-647).  `file` is the content of the file named `fname`
when it can be opened, `fd` the descriptor `open` then returns, `malloc_ok` whether
`malloc` returns a block, and `memory_cache` the value of the test
`(flags & GEOIP2_MODE_MASK) == GEOIP2_MODE_MEMORY_CACHE`, whose two constants are defined
in the absent header.  The data-section origin of lines 638 and 643 is formed in `int`,
as at line 109.  The result is the status returned and the state left behind. -/
def _init (w : World) (file : Option (List U8)) (fd : Nat) (malloc_ok : Bool) (flags : Nat)
    (memory_cache : Bool) : Ret Unit × World :=
  match file with
  | none => (.OPENFILEERROR, { w with gi := { w.gi with fd := -1 } })
  | some content =>
    let w := { w with gi := { w.gi with fd := (fd : Int), flags := flags }, fd_open := true }
    let st_size := content.length
    let w := if memory_cache then { w with gi := { w.gi with fd := -1 } } else w
    let size := if memory_cache then st_size else (if st_size < 2000 then st_size else 2000)
    let offset := if memory_cache then 0 else st_size - size
    if ¬ malloc_ok then (.INVALIDDATABASE, w)
    else
      let w := { w with buf_live := true }
      let ptr := (content.drop offset).take size
      match memmem ptr marker with
      | none => (.INVALIDDATABASE, { w with buf_live := false })
      | some idx =>
        match read_metadata w.gi ptr ((idx : Int) + 14) with
        | none => (.UNDEFINED, w)
        | some gi =>
          let origin := (wrapInt32 (gi.segments * gi.recbits * 2)).tdiv 8
          if memory_cache then
            (.SUCCESS (),
              { w with
                gi := { gi with dataptr := origin }
                file_in_mem_ptr := some ptr
                fd_open := false })
          else
            (.SUCCESS (), { w with gi := { gi with dataptr := origin }, buf_live := false })

/-- The function `GeoIP2_free_all` (lines 206-216) on a non-null handle whose descriptor,
when it was opened, has the number `fd`. -/
def GeoIP2_free_all (w : World) (fd : Nat) : World :=
  let w := if w.gi.fd ≥ 0 then
      (if w.gi.fd = (fd : Int) then { w with fd_open := false } else w)
    else w
  let w := match w.file_in_mem_ptr with
    | some _ => { w with buf_live := false, file_in_mem_ptr := none }
    | none => w
  { w with gi_live := false }

/-- The function `GeoIP2_open` (lines 651-660): the handle returned, `none` for `NULL`, and
the state left behind. -/
def GeoIP2_open (file : Option (List U8)) (fd : Nat) (malloc_ok : Bool) (flags : Nat)
    (memory_cache : Bool) : Option Handle × World :=
  let r := _init calloc_world file fd malloc_ok flags memory_cache
  match r.1 with
  | .SUCCESS _ => (some r.2.gi, r.2)
  | _ => (none, GeoIP2_free_all r.2 fd)

/-- The byte span searched for the marker: the whole file in memory mode, the trailing
`min(size, 2000)` bytes in file mode. -/
def searched_span (memory_cache : Bool) (content : List U8) : List U8 :=
  if memory_cache then content else content.drop (content.length - min content.length 2000)

/-- The six metadata fields of a handle: `file_format`, `recbits`, `depth`,
`database_type`, `minor_database_type`, `segments`. -/
def metadata_of (gi : Handle) : Int × Int × Int × Int × Int × Int :=
  (gi.file_format, gi.recbits, gi.depth, gi.database_type, gi.minor_database_type,
    gi.segments)

end GeoIP2

namespace GeoIP2

/-! ## Reads -/

theorem rd_eq_some_iff {mem : List U8} {i : Int} {b : Nat} :
    rd mem i = some b ↔ 0 ≤ i ∧ ∃ x : U8, mem[i.toNat]? = some x ∧ x.val = b := by
  unfold rd
  split <;> simp_all

theorem rd_lt {mem : List U8} {i : Int} {b : Nat} (h : rd mem i = some b) : b < 256 := by
  obtain ⟨_, x, _, hx⟩ := rd_eq_some_iff.mp h
  subst hx
  exact x.isLt

theorem rd_eq_none_iff (mem : List U8) (i : Int) :
    rd mem i = none ↔ ¬ (0 ≤ i ∧ i < mem.length) := by
  unfold rd
  split
  · rename_i h
    simp only [Option.map_eq_none', List.getElem?_eq_none_iff, h, true_and]
    omega
  · rename_i h
    simp [h]

theorem pread_fst (file : List U8) (n : Nat) (off : Int) (h : 0 ≤ off) :
    (pread file n off).1 = min n (file.length - off.toNat) := by
  simp [pread, not_lt.mpr h, List.length_take]

theorem pread_snd (file : List U8) (n : Nat) (off : Int) (h : 0 ≤ off) :
    (pread file n off).2 = (file.drop off.toNat).take n := by
  simp [pread, not_lt.mpr h]

theorem _read_loop_eof (file : List U8) (fuel : Nat) (to_read off : Int) (buf : List U8)
    (h : 0 < to_read) (hoff : (file.length : Int) ≤ off) :
    _read_loop file (fuel + 1) to_read off buf = .IOERROR := by
  have h0 : 0 ≤ off := by omega
  have hl : file.length ≤ off.toNat := by omega
  simp [_read_loop, h, pread, not_lt.mpr h0, List.drop_eq_nil_of_le hl]

theorem _read_eq (file : List U8) (n : Nat) (off : Int) (hn : 0 < n) :
    _read file n off =
      if 0 ≤ off ∧ off + n ≤ file.length then .SUCCESS ((file.drop off.toNat).take n)
      else .IOERROR := by
  obtain ⟨m, rfl⟩ : ∃ m, n = m + 1 := ⟨n - 1, by omega⟩
  unfold _read
  by_cases h0 : 0 ≤ off
  · have e1 := pread_fst file (m + 1) off h0
    have e2 := pread_snd file (m + 1) off h0
    by_cases hle : off + ((m + 1 : Nat) : Int) ≤ file.length
    · have hmin : min (m + 1) (file.length - off.toNat) = m + 1 := by omega
      rw [if_pos ⟨h0, hle⟩]
      unfold _read_loop
      have hpos : ((m + 1 : Nat) : Int) > 0 := by omega
      simp only [hpos, if_true, Int.toNat_ofNat, e1, e2, hmin]
      simp
    · rw [if_neg (by tauto)]
      unfold _read_loop
      have hpos : ((m + 1 : Nat) : Int) > 0 := by omega
      simp only [hpos, if_true, Int.toNat_ofNat, e1, e2]
      by_cases hz : ((min (m + 1) (file.length - off.toNat) : Nat) : Int) ≤ 0
      · rw [if_pos hz]
      · have hmin : min (m + 1) (file.length - off.toNat) = file.length - off.toNat := by omega
        rw [if_neg hz, if_neg (by omega)]
        obtain ⟨f, rfl⟩ : ∃ f, m = f + 1 := ⟨m - 1, by omega⟩
        apply _read_loop_eof
        · omega
        · omega
  · rw [if_neg (by tauto)]
    unfold _read_loop
    have hpos : ((m + 1 : Nat) : Int) > 0 := by omega
    simp [hpos, pread, not_le.mp h0]

theorem rd_slice (file : List U8) (n : Nat) (off i : Int) (hoff : 0 ≤ off) (hi : 0 ≤ i)
    (hin : i < n) : rd ((file.drop off.toNat).take n) i = rd file (off + i) := by
  unfold rd
  have h1 : 0 ≤ off + i := by omega
  have h2 : (off + i).toNat = off.toNat + i.toNat := by omega
  have h3 : i.toNat < n := by omega
  simp [hi, h1, h2, List.getElem?_take, h3]

theorem _read_success {file : List U8} {n : Nat} {off : Int} {b : List U8} (hn : 0 < n)
    (h : _read file n off = .SUCCESS b) :
    0 ≤ off ∧ off + n ≤ file.length ∧ b = (file.drop off.toNat).take n := by
  rw [_read_eq file n off hn] at h
  split at h
  · rename_i hc
    injection h with h
    exact ⟨hc.1, hc.2, h.symm⟩
  · cases h

theorem _read_not_success {file : List U8} {n : Nat} {off : Int} (hn : 0 < n)
    (h : ∀ b, _read file n off ≠ .SUCCESS b) :
    _read file n off = .IOERROR ∧ ¬ (0 ≤ off ∧ off + n ≤ file.length) := by
  rw [_read_eq file n off hn] at h ⊢
  by_cases hc : 0 ≤ off ∧ off + n ≤ file.length
  · rw [if_pos hc] at h
    exact absurd rfl (h _)
  · rw [if_neg hc]
    exact ⟨rfl, hc⟩

theorem rd_inside {mem : List U8} {i : Int} (h0 : 0 ≤ i) (h1 : i < mem.length) :
    ∃ b, rd mem i = some b := by
  cases h : rd mem i with
  | some b => exact ⟨b, rfl⟩
  | none => exact absurd ⟨h0, h1⟩ ((rd_eq_none_iff mem i).mp h)

/-- After a successful `_read` of `n` bytes the local array holds the file bytes. -/
theorem rd_of_read {file : List U8} {n : Nat} {off : Int} {b : List U8} (hn : 0 < n)
    (h : _read file n off = .SUCCESS b) (i : Int) (hi : 0 ≤ i) (hin : i < n) :
    rd b i = rd file (off + i) ∧ ∃ x, rd file (off + i) = some x := by
  obtain ⟨h0, h1, rfl⟩ := _read_success hn h
  exact ⟨rd_slice file n off i h0 hi hin, rd_inside (by omega) (by omega)⟩

/-! ## Byte decoder facts -/

theorem toInt32_of_lt {x : Nat} (h : x < 2147483648) : toInt32 x = (x : Int) := by
  unfold toInt32
  have : x % 4294967296 = x := Nat.mod_eq_of_lt (by omega)
  simp [this, h]

theorem wrapInt32_of_range {x : Int} (h1 : -2147483648 ≤ x) (h2 : x < 2147483648) :
    wrapInt32 x = x := by
  unfold wrapInt32
  omega

theorem toInt32_emod (x : Nat) : toInt32 x % 268435456 = (x : Int) % 268435456 := by
  unfold toInt32
  split <;> omega

theorem _get_uint24_eq_some {mem : List U8} {p : Int} {v : Nat} :
    _get_uint24 mem p = some v ↔ ∃ p0 p1 p2, rd mem p = some p0 ∧ rd mem (p + 1) = some p1 ∧
      rd mem (p + 2) = some p2 ∧ v = p0 * 65536 + p1 * 256 + p2 := by
  constructor
  · intro h
    simp only [_get_uint24, Option.bind_eq_bind, Option.bind_eq_some, Option.pure_def,
      Option.some.injEq] at h
    obtain ⟨p0, h0, p1, h1, p2, h2, hv⟩ := h
    have := rd_lt h0; have := rd_lt h1; have := rd_lt h2
    exact ⟨p0, p1, p2, h0, h1, h2, by omega⟩
  · rintro ⟨p0, p1, p2, h0, h1, h2, rfl⟩
    have := rd_lt h0; have := rd_lt h1; have := rd_lt h2
    simp only [_get_uint24, Option.bind_eq_bind, h0, h1, h2, Option.some_bind, Option.pure_def,
      Option.some.injEq]
    omega

theorem _get_uint32_eq_some {mem : List U8} {p : Int} {v : Nat} :
    _get_uint32 mem p = some v ↔ ∃ p0 p1 p2 p3, rd mem p = some p0 ∧ rd mem (p + 1) = some p1 ∧
      rd mem (p + 2) = some p2 ∧ rd mem (p + 3) = some p3 ∧
      v = p0 * 16777216 + p1 * 65536 + p2 * 256 + p3 := by
  constructor
  · intro h
    simp only [_get_uint32, Option.bind_eq_bind, Option.bind_eq_some, Option.pure_def,
      Option.some.injEq] at h
    obtain ⟨p0, h0, p1, h1, p2, h2, p3, h3, hv⟩ := h
    have := rd_lt h0; have := rd_lt h1; have := rd_lt h2; have := rd_lt h3
    exact ⟨p0, p1, p2, p3, h0, h1, h2, h3, by omega⟩
  · rintro ⟨p0, p1, p2, p3, h0, h1, h2, h3, rfl⟩
    have := rd_lt h0; have := rd_lt h1; have := rd_lt h2; have := rd_lt h3
    simp only [_get_uint32, Option.bind_eq_bind, h0, h1, h2, h3, Option.some_bind,
      Option.pure_def, Option.some.injEq]
    omega

theorem _get_uint16_eq_some {mem : List U8} {p : Int} {v : Nat} :
    _get_uint16 mem p = some v ↔ ∃ p0 p1, rd mem p = some p0 ∧ rd mem (p + 1) = some p1 ∧
      v = p0 * 256 + p1 := by
  constructor
  · intro h
    simp only [_get_uint16, Option.bind_eq_bind, Option.bind_eq_some, Option.pure_def,
      Option.some.injEq] at h
    obtain ⟨p0, h0, p1, h1, hv⟩ := h
    have := rd_lt h0; have := rd_lt h1
    exact ⟨p0, p1, h0, h1, by omega⟩
  · rintro ⟨p0, p1, h0, h1, rfl⟩
    have := rd_lt h0; have := rd_lt h1
    simp only [_get_uint16, Option.bind_eq_bind, h0, h1, Option.some_bind, Option.pure_def,
      Option.some.injEq]
    omega

/-- A successful `_read` of at least three bytes: the 24-bit value of the local array is
that of the file at the read position, and it exists. -/
theorem get24_of_read {file : List U8} {n : Nat} {off : Int} {b : List U8} (hn : 3 ≤ n)
    (h : _read file n off = .SUCCESS b) :
    _get_uint24 b 0 = _get_uint24 file off ∧ ∃ v, _get_uint24 file off = some v := by
  obtain ⟨e0, x0, h0⟩ := rd_of_read (by omega) h 0 (by omega) (by omega)
  obtain ⟨e1, x1, h1⟩ := rd_of_read (by omega) h 1 (by omega) (by omega)
  obtain ⟨e2, x2, h2⟩ := rd_of_read (by omega) h 2 (by omega) (by omega)
  simp only [add_zero] at e0 h0
  refine ⟨?_, _, _get_uint24_eq_some.mpr ⟨x0, x1, x2, h0, h1, h2, rfl⟩⟩
  simp only [_get_uint24, zero_add, e0, e1, e2]

theorem get32_of_read {file : List U8} {n : Nat} {off : Int} {b : List U8} (hn : 4 ≤ n)
    (h : _read file n off = .SUCCESS b) :
    _get_uint32 b 0 = _get_uint32 file off ∧ ∃ v, _get_uint32 file off = some v := by
  obtain ⟨e0, x0, h0⟩ := rd_of_read (by omega) h 0 (by omega) (by omega)
  obtain ⟨e1, x1, h1⟩ := rd_of_read (by omega) h 1 (by omega) (by omega)
  obtain ⟨e2, x2, h2⟩ := rd_of_read (by omega) h 2 (by omega) (by omega)
  obtain ⟨e3, x3, h3⟩ := rd_of_read (by omega) h 3 (by omega) (by omega)
  simp only [add_zero] at e0 h0
  refine ⟨?_, _, _get_uint32_eq_some.mpr ⟨x0, x1, x2, x3, h0, h1, h2, h3, rfl⟩⟩
  simp only [_get_uint32, zero_add, e0, e1, e2, e3]

/-! ## The record reads of the two access modes -/

theorem rec7_left_of_read {file b : List U8} {pos : Int}
    (hr : _read file 4 pos = .SUCCESS b) :
    ∃ p0 p1 p2 p3, rd file pos = some p0 ∧ rd file (pos + 1) = some p1 ∧
      rd file (pos + 2) = some p2 ∧ rd file (pos + 3) = some p3 ∧
      rd b 0 = some p0 ∧ rd b 1 = some p1 ∧ rd b 2 = some p2 ∧ rd b 3 = some p3 := by
  obtain ⟨e0, x0, h0⟩ := rd_of_read (by omega) hr 0 (by omega) (by omega)
  obtain ⟨e1, x1, h1⟩ := rd_of_read (by omega) hr 1 (by omega) (by omega)
  obtain ⟨e2, x2, h2⟩ := rd_of_read (by omega) hr 2 (by omega) (by omega)
  obtain ⟨e3, x3, h3⟩ := rd_of_read (by omega) hr 3 (by omega) (by omega)
  simp only [add_zero] at e0 h0
  exact ⟨x0, x1, x2, x3, h0, h1, h2, h3, e0 ▸ h0, e1 ▸ h1, e2 ▸ h2, e3 ▸ h3⟩

theorem rec7_of_fdrec7 (file : List U8) (offset : Int) (bit : Bool)
    (h : fdrec7 file offset bit ≠ .IOERROR) : rec7 file offset bit = fdrec7 file offset bit := by
  unfold fdrec7 at h ⊢
  cases bit with
  | true =>
    simp only [if_true] at h ⊢
    cases hr : _read file 4 (offset * 7 + 3) with
    | SUCCESS b =>
      obtain ⟨e, v, hv⟩ := get32_of_read (le_refl 4) hr
      simp only [e, hv, rec7, if_true, toInt32_emod]
    | _ => simp [hr] at h
  | false =>
    simp only [Bool.false_eq_true, if_false] at h ⊢
    cases hr : _read file 4 (offset * 7) with
    | SUCCESS b =>
      obtain ⟨p0, p1, p2, p3, h0, h1, h2, h3, g0, g1, g2, g3⟩ := rec7_left_of_read hr
      simp only [rec7, Bool.false_eq_true, if_false, h0, h1, h2, h3, g0, g1, g2, g3]
    | _ => simp [hr] at h

theorem rec7_of_fdrec7_v6 (file : List U8) (offset : Int) (bit : Bool)
    (h : fdrec7_v6 file offset bit ≠ .IOERROR) :
    rec7 file offset bit = fdrec7_v6 file offset bit := by
  unfold fdrec7_v6 at h ⊢
  cases bit with
  | true =>
    simp only [if_true] at h ⊢
    cases hr : _read file 4 (offset * 7 + 3) with
    | SUCCESS b =>
      obtain ⟨e, v, hv⟩ := get32_of_read (le_refl 4) hr
      simp only [e, hv, rec7, if_true]
    | _ => simp [hr] at h
  | false =>
    simp only [Bool.false_eq_true, if_false] at h ⊢
    cases hr : _read file 4 (offset * 7) with
    | SUCCESS b =>
      obtain ⟨p0, p1, p2, p3, h0, h1, h2, h3, g0, g1, g2, g3⟩ := rec7_left_of_read hr
      simp only [rec7, Bool.false_eq_true, if_false, h0, h1, h2, h3, g0, g1, g2, g3]
    | _ => simp [hr] at h

/-! ## The loops as instances of `walk` -/

theorem loop_v6_eq_walk (rec : Int → Bool → Ret Int) (segments : Int) (ipnum : geoipv6_t) :
    ∀ (d : Nat) (offset : Int), loop_v6 rec segments ipnum d offset =
      walk 128 (fun depth => GEOIP_CHKBIT_V6 depth ipnum) rec segments d offset := by
  intro d
  induction d with
  | zero => intro offset; rfl
  | succ d ih =>
    intro offset
    simp only [loop_v6, walk]
    cases GEOIP_CHKBIT_V6 d ipnum with
    | none => rfl
    | some b =>
      simp only
      cases rec offset b with
      | SUCCESS v => simp only [ih]
      | _ => rfl

theorem loop_v4_eq_walk (rec : Int → Bool → Ret Int) (segments : Int) (ipnum : Nat) :
    ∀ (d : Nat) (offset : Int), loop_v4 rec segments ipnum d (2 ^ d / 2) offset =
      walk 32 (fun depth => some (ipnum &&& 2 ^ depth != 0)) rec segments d offset := by
  intro d
  induction d with
  | zero => intro offset; rfl
  | succ d ih =>
    intro offset
    have hm : 2 ^ (d + 1) / 2 = 2 ^ d := by
      rw [pow_succ]; omega
    have hs : (2 ^ d) >>> 1 = 2 ^ d / 2 := by
      rw [Nat.shiftRight_eq_div_pow]
    simp only [loop_v4, walk, hm, hs]
    cases rec offset (ipnum &&& 2 ^ d != 0) with
    | SUCCESS v => simp only [ih]
    | _ => rfl

/-- The buffer-backed IPv4 walker has no I/O-error outcome. -/
theorem walk_ne_ioerror (top : Int) (bit : Nat → Option Bool) (rec : Int → Bool → Ret Int)
    (segments : Int) (H : ∀ offset b, rec offset b ≠ .IOERROR) :
    ∀ (d : Nat) (offset : Int), walk top bit rec segments d offset ≠ .IOERROR := by
  intro d
  induction d with
  | zero => intro offset h; cases h
  | succ d ih =>
    intro offset
    simp only [walk]
    cases hb : bit d with
    | none => simp
    | some b =>
      simp only
      cases hr : rec offset b with
      | SUCCESS v =>
        by_cases hv : v ≥ segments
        · simp [hv]
        · simpa [hv] using ih v
      | IOERROR => exact absurd hr (H offset b)
      | _ => simp

theorem descend_one (child : Int → Bool → Ret Int) (bitAt : Nat → Option Bool) (start : Int) :
    descend child bitAt start 1 =
      match bitAt 1 with
      | some b => child start b
      | none => .UNDEFINED := by
  simp only [descend]

theorem descend_shift (child : Int → Bool → Ret Int) (bitAt : Nat → Option Bool)
    (start : Int) (b : Bool) (v : Int) (hb : bitAt 1 = some b)
    (hc : child start b = .SUCCESS v) :
    ∀ j, descend child bitAt start (j + 1) = descend child (fun i => bitAt (i + 1)) v j := by
  intro j
  induction j with
  | zero => simp only [descend, hb, hc]
  | succ j ih =>
    show (match descend child bitAt start (j + 1) with
      | .SUCCESS n => (match bitAt (j + 1 + 1) with
        | some b => child n b
        | none => .UNDEFINED)
      | r => r) = _
    rw [ih]
    rfl

theorem descend_fail_succ (child : Int → Bool → Ret Int) (bitAt : Nat → Option Bool)
    (start : Int) (j : Nat) (h : ∀ v, descend child bitAt start j ≠ .SUCCESS v) :
    ∀ v, descend child bitAt start (j + 1) ≠ .SUCCESS v := by
  intro v
  simp only [descend]
  cases hd : descend child bitAt start j with
  | SUCCESS n => exact absurd hd (h n)
  | _ => simp

theorem descend_fail_of_le (child : Int → Bool → Ret Int) (bitAt : Nat → Option Bool)
    (start : Int) (j : Nat) (h : ∀ v, descend child bitAt start j ≠ .SUCCESS v) :
    ∀ k, j ≤ k → ∀ v, descend child bitAt start k ≠ .SUCCESS v := by
  intro k hk
  induction k, hk using Nat.le_induction with
  | base => exact h
  | succ k _ ih => exact descend_fail_succ child bitAt start k ih

theorem leafAt_one (child : Int → Bool → Ret Int) (bitAt : Nat → Option Bool)
    (segments start v : Int) :
    LeafAt child bitAt segments start 1 v ↔
      descend child bitAt start 1 = .SUCCESS v ∧ segments ≤ v := by
  unfold LeafAt
  constructor
  · rintro ⟨h1, h2, _⟩
    exact ⟨h1, h2⟩
  · rintro ⟨h1, h2⟩
    exact ⟨h1, h2, fun j hj hj1 => by omega⟩

theorem leafAt_succ (child : Int → Bool → Ret Int) (bitAt : Nat → Option Bool)
    (segments start : Int) (b : Bool) (v : Int) (hb : bitAt 1 = some b)
    (hc : child start b = .SUCCESS v) (hv : v < segments) (k : Nat) (v' : Int) :
    LeafAt child bitAt segments start (k + 1) v' ↔
      LeafAt child (fun i => bitAt (i + 1)) segments v k v' := by
  have hs := descend_shift child bitAt start b v hb hc
  unfold LeafAt
  rw [hs k]
  constructor
  · rintro ⟨h1, h2, h3⟩
    refine ⟨h1, h2, fun j hj hjk => ?_⟩
    have := h3 (j + 1) (by omega) (by omega)
    rwa [hs j] at this
  · rintro ⟨h1, h2, h3⟩
    refine ⟨h1, h2, fun j hj hjk => ?_⟩
    obtain ⟨i, rfl⟩ : ∃ i, j = i + 1 := ⟨j - 1, by omega⟩
    rw [hs i]
    cases i with
    | zero => exact ⟨v, rfl, hv⟩
    | succ i => exact h3 (i + 1) (by omega) (by omega)

/-- The loop succeeds exactly at the first level whose selected record reaches `segments`;
level `k` of a walk over `d` levels runs with `depth = d - k`. -/
theorem walk_success_iff (top : Int) (bit : Nat → Option Bool) (rec : Int → Bool → Ret Int)
    (segments : Int) :
    ∀ (d : Nat) (offset : Int) (l : GeoIP2_Lookup),
      walk top bit rec segments d offset = .SUCCESS l ↔
        ∃ k v, 1 ≤ k ∧ k ≤ d ∧ LeafAt rec (fun i => bit (d - i)) segments offset k v ∧
          l = ⟨top - ((d - k : Nat) : Int), v - segments⟩ := by
  intro d
  induction d with
  | zero =>
    intro offset l
    simp only [walk]
    constructor
    · intro h; cases h
    · rintro ⟨k, v, h1, h2, _⟩; omega
  | succ d ih =>
    intro offset l
    have hshift : (fun i => (fun i => bit (d + 1 - i)) (i + 1)) = fun i => bit (d - i) := by
      funext i
      show bit (d + 1 - (i + 1)) = bit (d - i)
      rw [Nat.add_sub_add_right]
    have h1eq := descend_one rec (fun i => bit (d + 1 - i)) offset
    simp only [Nat.add_sub_cancel] at h1eq
    simp only [walk]
    cases hb : bit d with
    | none =>
      simp only [hb] at h1eq
      constructor
      · intro h; cases h
      · rintro ⟨k, v, hk1, _, hleaf, _⟩
        exact absurd hleaf.1 (descend_fail_of_le rec _ offset 1
          (fun w => by rw [h1eq]; simp) k hk1 v)
    | some b =>
      simp only [hb] at h1eq ⊢
      cases hr : rec offset b with
      | SUCCESS v =>
        simp only
        rw [hr] at h1eq
        by_cases hv : v ≥ segments
        · simp only [hv, if_true]
          constructor
          · intro h
            injection h with h
            refine ⟨1, v, le_refl 1, by omega, (leafAt_one _ _ _ _ _).mpr ⟨h1eq, hv⟩, ?_⟩
            rw [← h]
            simp
          · rintro ⟨k, v', hk1, hkd, hleaf, rfl⟩
            by_cases hk : k = 1
            · subst hk
              have := hleaf.1
              rw [h1eq] at this
              injection this with this
              subst this
              simp
            · obtain ⟨w, hw1, hw2⟩ := hleaf.2.2 1 (le_refl 1) (by omega)
              rw [h1eq] at hw1
              injection hw1 with hw1
              omega
        · simp only [hv, if_false]
          rw [ih v l]
          have hlt : v < segments := by omega
          constructor
          · rintro ⟨k, v', hk1, hkd, hleaf, rfl⟩
            refine ⟨k + 1, v', by omega, by omega, ?_, ?_⟩
            · rw [leafAt_succ rec _ segments offset b v (by simp [hb]) hr hlt k v', hshift]
              exact hleaf
            · rw [Nat.add_sub_add_right]
          · rintro ⟨k, v', hk1, hkd, hleaf, rfl⟩
            have hk : k ≠ 1 := by
              rintro rfl
              have := hleaf.1
              rw [h1eq] at this
              injection this with this
              have := hleaf.2.1
              omega
            obtain ⟨k', rfl⟩ : ∃ k', k = k' + 1 := ⟨k - 1, by omega⟩
            refine ⟨k', v', by omega, by omega, ?_, ?_⟩
            · rw [leafAt_succ rec _ segments offset b v (by simp [hb]) hr hlt k' v',
                hshift] at hleaf
              exact hleaf
            · rw [Nat.add_sub_add_right]
      | _ =>
        simp only
        rw [hr] at h1eq
        constructor
        · intro h; cases h
        · rintro ⟨k, v, hk1, _, hleaf, _⟩
          exact absurd hleaf.1 (descend_fail_of_le rec _ offset 1
            (fun w => by rw [h1eq]; simp) k hk1 v)

/-! ## The walkers in closed form -/

theorem lookup_by_ipnum_eq_walk (gi : Handle) (mem : List U8) (ipnum : Nat)
    (hrl : (gi.recbits * 2).tdiv 8 = 6 ∨ (gi.recbits * 2).tdiv 8 = 7 ∨
      (gi.recbits * 2).tdiv 8 = 8) :
    _lookup_by_ipnum gi mem ipnum =
      walk 32 (fun depth => some (ipnum &&& 2 ^ depth != 0))
        (rec_mem ((gi.recbits * 2).tdiv 8) mem) gi.segments 32 0 := by
  have h32 : (0x80000000 : Nat) = 2 ^ 32 / 2 := by norm_num
  unfold _lookup_by_ipnum rec_mem
  simp only [h32, loop_v4_eq_walk]
  rcases hrl with h | h | h <;> simp [h]

theorem fdlookup_by_ipnum_eq_walk (gi : Handle) (file : List U8) (ipnum : Nat)
    (hrl : (gi.recbits * 2).tdiv 8 = 6 ∨ (gi.recbits * 2).tdiv 8 = 7 ∨
      (gi.recbits * 2).tdiv 8 = 8) :
    _fdlookup_by_ipnum gi file ipnum =
      walk 32 (fun depth => some (ipnum &&& 2 ^ depth != 0))
        (rec_fd ((gi.recbits * 2).tdiv 8) file) gi.segments 32 0 := by
  have h32 : (0x80000000 : Nat) = 2 ^ 32 / 2 := by norm_num
  unfold _fdlookup_by_ipnum rec_fd
  simp only [h32, loop_v4_eq_walk]
  rcases hrl with h | h | h <;> simp [h]

theorem lookup_by_ipnum_v6_eq_walk (gi : Handle) (mem : List U8) (ipnum : geoipv6_t)
    (hrl : (gi.recbits * 2).tdiv 8 = 6 ∨ (gi.recbits * 2).tdiv 8 = 7 ∨
      (gi.recbits * 2).tdiv 8 = 8) :
    _lookup_by_ipnum_v6 gi mem ipnum =
      walk 128 (fun depth => GEOIP_CHKBIT_V6 depth ipnum)
        (rec_mem ((gi.recbits * 2).tdiv 8) mem) gi.segments gi.depth.toNat 0 := by
  unfold _lookup_by_ipnum_v6 rec_mem
  simp only [loop_v6_eq_walk]
  rcases hrl with h | h | h <;> simp [h]

theorem fdlookup_by_ipnum_v6_eq_walk (gi : Handle) (file : List U8) (ipnum : geoipv6_t)
    (hrl : (gi.recbits * 2).tdiv 8 = 6 ∨ (gi.recbits * 2).tdiv 8 = 7 ∨
      (gi.recbits * 2).tdiv 8 = 8) :
    _fdlookup_by_ipnum_v6 gi file ipnum =
      walk 128 (fun depth => GEOIP_CHKBIT_V6 depth ipnum)
        (rec_fd_v6 ((gi.recbits * 2).tdiv 8) file) gi.segments gi.depth.toNat 0 := by
  unfold _fdlookup_by_ipnum_v6 rec_fd_v6
  simp only [loop_v6_eq_walk]
  rcases hrl with h | h | h <;> simp [h]

theorem lookup_width_of_success {gi : Handle} {mem : List U8} {ipnum : geoipv6_t}
    {l : GeoIP2_Lookup} (h : _lookup_by_ipnum_v6 gi mem ipnum = .SUCCESS l) :
    (gi.recbits * 2).tdiv 8 = 6 ∨ (gi.recbits * 2).tdiv 8 = 7 ∨
      (gi.recbits * 2).tdiv 8 = 8 := by
  by_contra hc
  push_neg at hc
  simp [_lookup_by_ipnum_v6, hc.1, hc.2.1, hc.2.2] at h

theorem fdlookup_width_of_success {gi : Handle} {file : List U8} {ipnum : geoipv6_t}
    {l : GeoIP2_Lookup} (h : _fdlookup_by_ipnum_v6 gi file ipnum = .SUCCESS l) :
    (gi.recbits * 2).tdiv 8 = 6 ∨ (gi.recbits * 2).tdiv 8 = 7 ∨
      (gi.recbits * 2).tdiv 8 = 8 := by
  by_contra hc
  push_neg at hc
  simp [_fdlookup_by_ipnum_v6, hc.1, hc.2.1, hc.2.2] at h

theorem and_two_pow_ne_zero (ipnum d : Nat) : (ipnum &&& 2 ^ d != 0) = ipnum.testBit d := by
  rw [Nat.and_two_pow]
  cases ipnum.testBit d <;> simp

/-- The buffer-backed IPv4 walk, for the record values the walker itself holds (`int`):
it succeeds exactly at the first level `k` in `1..32`, bits taken most significant first,
whose selected record reaches `segments`. -/
theorem lookup_by_ipnum_success_iff (gi : Handle) (mem : List U8) (ipnum : Nat)
    (l : GeoIP2_Lookup)
    (hrl : (gi.recbits * 2).tdiv 8 = 6 ∨ (gi.recbits * 2).tdiv 8 = 7 ∨
      (gi.recbits * 2).tdiv 8 = 8) :
    _lookup_by_ipnum gi mem ipnum = .SUCCESS l ↔
      ∃ k v, 1 ≤ k ∧ k ≤ 32 ∧
        LeafAt (rec_mem ((gi.recbits * 2).tdiv 8) mem) (bit_v4 ipnum) gi.segments 0 k v ∧
        l = ⟨(k : Int), v - gi.segments⟩ := by
  rw [lookup_by_ipnum_eq_walk gi mem ipnum hrl, walk_success_iff]
  have hb : (fun i => some (ipnum &&& 2 ^ (32 - i) != 0)) = bit_v4 ipnum := by
    funext i
    simp only [bit_v4, and_two_pow_ne_zero]
  simp only [hb]
  constructor
  · rintro ⟨k, v, h1, h2, h3, rfl⟩
    exact ⟨k, v, h1, h2, h3, by congr 1; omega⟩
  · rintro ⟨k, v, h1, h2, h3, rfl⟩
    exact ⟨k, v, h1, h2, h3, by congr 1; omega⟩

/-! ## C1, C9: a 32-bit record above `INT_MAX` -/

/-- C1: on a width-32 database whose first 31 levels stay on node 0 and whose level-32
record is the word `0x80000000`, the first record that reaches `segment_count` is selected
at level 32, so the lookup should succeed with netmask 32 and offset `0x80000000 - 1`.
`_lookup_by_ipnum` stores the word in an `int`, finds it negative and returns
`GEOIP2_CORRUPTDATABASE`; `_fdlookup_by_ipnum`, whose `offset` is an `off_t`, returns the
leaf. -/
theorem lookup_by_ipnum_loses_leaf_above_int_max :
    LeafAt (spec_record 8 [0, 0, 0, 0, 0x80, 0, 0, 0]) (bit_v4 1) 1 0 32 2147483648 ∧
    _lookup_by_ipnum { recbits := 32, segments := 1 } [0, 0, 0, 0, 0x80, 0, 0, 0] 1 =
      .CORRUPTDATABASE ∧
    _fdlookup_by_ipnum { recbits := 32, segments := 1 } [0, 0, 0, 0, 0x80, 0, 0, 0] 1 =
      .SUCCESS ⟨32, 2147483647⟩ := by
  refine ⟨⟨by decide, by decide, fun j h1 h2 => ⟨0, ?_, by decide⟩⟩, by decide, by decide⟩
  interval_cases j <;> decide

/-- C9: two runs in which a selected child record is at least `segment_count` and the
buffer-backed walker still returns `GEOIP2_CORRUPTDATABASE`, because the 32-bit record is
held in an `int`: an IPv6 walk of depth 1 whose root records are both above `INT_MAX`, and
an IPv4 walk whose level-32 record is `0xFFFFFFFF`. -/
theorem lookup_corrupt_although_leaf_selected :
    (spec_record 8 [0x80, 0, 0, 0, 0x80, 0, 0, 1] 0 false = .SUCCESS 2147483648 ∧
      spec_record 8 [0x80, 0, 0, 0, 0x80, 0, 0, 1] 0 true = .SUCCESS 2147483649 ∧
      _lookup_by_ipnum_v6 { recbits := 32, segments := 1, depth := 1 }
        [0x80, 0, 0, 0, 0x80, 0, 0, 1] ⟨fun _ => 0⟩ = .CORRUPTDATABASE) ∧
    (LeafAt (spec_record 8 [0xff, 0xff, 0xff, 0xff, 0, 0, 0, 0]) (bit_v4 0xfffffffe) 1 0 32
        4294967295 ∧
      _lookup_by_ipnum { recbits := 32, segments := 1 } [0xff, 0xff, 0xff, 0xff, 0, 0, 0, 0]
        0xfffffffe = .CORRUPTDATABASE) := by
  refine ⟨⟨by decide, by decide, by decide⟩,
    ⟨by decide, by decide, fun j h1 h2 => ⟨0, ?_, by decide⟩⟩, by decide⟩
  interval_cases j <;> decide

/-! ## C10: the netmask of an IPv6 lookup -/

theorem walk128_netmask (bit : Nat → Option Bool) (rec : Int → Bool → Ret Int)
    (segments depth : Int) (l : GeoIP2_Lookup)
    (h : walk 128 bit rec segments depth.toNat 0 = .SUCCESS l) :
    ∃ (k : Nat) (v : Int), 1 ≤ k ∧ (k : Int) ≤ depth ∧
      LeafAt rec (fun i => bit (depth.toNat - i)) segments 0 k v ∧
      l.netmask = 128 - depth + k ∧ 129 - depth ≤ l.netmask ∧ l.netmask ≤ 128 := by
  obtain ⟨k, v, h1, h2, h3, rfl⟩ := (walk_success_iff 128 bit rec segments _ 0 l).mp h
  refine ⟨k, v, h1, by omega, h3, ?_, ?_, ?_⟩ <;> simp only <;> omega

/-- C10 (as amended): whenever an IPv6 lookup (buffer-backed or positional-read-backed)
succeeds, the leaf was reached after `k` levels with `1 ≤ k ≤ handle.depth`, and the
returned netmask is `128 - handle.depth + k`, a value in `129 - handle.depth .. 128`; it is
the number of levels consumed exactly when `handle.depth = 128`. -/
theorem lookup_v6_netmask (gi : Handle) (mem : List U8) (ipnum : geoipv6_t)
    (l : GeoIP2_Lookup)
    (h : _lookup_by_ipnum_v6 gi mem ipnum = .SUCCESS l ∨
      _fdlookup_by_ipnum_v6 gi mem ipnum = .SUCCESS l) :
    ∃ (k : Nat) (v : Int), 1 ≤ k ∧ (k : Int) ≤ gi.depth ∧
      (LeafAt (rec_mem ((gi.recbits * 2).tdiv 8) mem)
          (fun i => GEOIP_CHKBIT_V6 (gi.depth.toNat - i) ipnum) gi.segments 0 k v ∨
        LeafAt (rec_fd_v6 ((gi.recbits * 2).tdiv 8) mem)
          (fun i => GEOIP_CHKBIT_V6 (gi.depth.toNat - i) ipnum) gi.segments 0 k v) ∧
      l.netmask = 128 - gi.depth + k ∧ 129 - gi.depth ≤ l.netmask ∧ l.netmask ≤ 128 ∧
      (l.netmask = k ↔ gi.depth = 128) := by
  rcases h with h | h
  · rw [lookup_by_ipnum_v6_eq_walk gi mem ipnum (lookup_width_of_success h)] at h
    obtain ⟨k, v, h1, h2, h3, h4, h5, h6⟩ := walk128_netmask _ _ _ _ _ h
    exact ⟨k, v, h1, h2, Or.inl h3, h4, h5, h6, by omega⟩
  · rw [fdlookup_by_ipnum_v6_eq_walk gi mem ipnum (fdlookup_width_of_success h)] at h
    obtain ⟨k, v, h1, h2, h3, h4, h5, h6⟩ := walk128_netmask _ _ _ _ _ h
    exact ⟨k, v, h1, h2, Or.inr h3, h4, h5, h6, by omega⟩

/-- Witness of C10: a depth-128 database whose root's left record is a leaf. -/
theorem lookup_v6_netmask_witness :
    _lookup_by_ipnum_v6 { recbits := 24, segments := 1, depth := 128 } [0, 0, 5, 0, 0, 9]
        ⟨fun _ => 0⟩ = .SUCCESS ⟨1, 4⟩ ∧
    ∃ (k : Nat) (v : Int), 1 ≤ k ∧ (k : Int) ≤ 128 ∧
      (LeafAt (rec_mem 6 [0, 0, 5, 0, 0, 9])
          (fun i => GEOIP_CHKBIT_V6 (128 - i) ⟨fun _ => 0⟩) 1 0 k v ∨
        LeafAt (rec_fd_v6 6 [0, 0, 5, 0, 0, 9])
          (fun i => GEOIP_CHKBIT_V6 (128 - i) ⟨fun _ => 0⟩) 1 0 k v) ∧
      (1 : Int) = 128 - 128 + k ∧ (129 : Int) - 128 ≤ 1 ∧ (1 : Int) ≤ 128 ∧
      ((1 : Int) = k ↔ (128 : Int) = 128) :=
  ⟨by decide,
    lookup_v6_netmask { recbits := 24, segments := 1, depth := 128 } [0, 0, 5, 0, 0, 9]
      ⟨fun _ => 0⟩ ⟨1, 4⟩ (Or.inl (by decide))⟩

/-- C10 fails as stated: on a database of depth 32 both IPv6 walkers reach a leaf after one
level and return netmask 97, which is neither the number of levels consumed nor within
`0..handle.depth`. -/
theorem lookup_v6_netmask_exceeds_depth :
    _lookup_by_ipnum_v6 { recbits := 24, segments := 1, depth := 32 } [0, 0, 5, 0, 0, 9]
        ⟨fun _ => 0⟩ = .SUCCESS ⟨97, 4⟩ ∧
    _fdlookup_by_ipnum_v6 { recbits := 24, segments := 1, depth := 32 } [0, 0, 5, 0, 0, 9]
        ⟨fun _ => 0⟩ = .SUCCESS ⟨97, 4⟩ ∧
    LeafAt (rec_mem 6 [0, 0, 5, 0, 0, 9]) (fun i => GEOIP_CHKBIT_V6 (32 - i) ⟨fun _ => 0⟩)
      1 0 1 5 ∧
    ¬ (∀ (gi : Handle) (mem : List U8) (ipnum : geoipv6_t) (l : GeoIP2_Lookup),
        1 ≤ gi.depth → gi.depth ≤ 128 → _lookup_by_ipnum_v6 gi mem ipnum = .SUCCESS l →
          0 ≤ l.netmask ∧ l.netmask ≤ gi.depth) := by
  refine ⟨by decide, by decide, ⟨by decide, by decide, fun j h1 h2 => by omega⟩, fun h => ?_⟩
  have := h { recbits := 24, segments := 1, depth := 32 } [0, 0, 5, 0, 0, 9] ⟨fun _ => 0⟩
    ⟨97, 4⟩ (by decide) (by decide) (by decide)
  revert this
  decide

/-! ## C3: the two value-location decoders -/

/-- C3: with the type tags of the MaxMind format (extended = 0, pointer = 1), a control
byte `0x00` followed by the extended-type byte `249` is decoded differently by the two
decoders although both finish.  `_decode_key` keeps the type in a `U8`, so `8 + 249` wraps
to 1 and the value is followed as a pointer (to offset 3, a one-byte string);
`_fddecode_key` keeps it in an `int` (257) and returns an empty direct value. -/
theorem decoders_differ_on_wrapped_extended_type :
    _decode_key ⟨0, 1⟩ { recbits := 24, segments := 1, dataptr := 6 }
        [0, 0, 0, 0, 0, 0, 0x00, 249, 3, 0x41, 7] 2 0 = .SUCCESS ⟨.AT 10, 1, 3⟩ ∧
    _fddecode_key ⟨0, 1⟩ { recbits := 24, segments := 1, dataptr := 6 }
        [0, 0, 0, 0, 0, 0, 0x00, 249, 3, 0x41, 7] 2 0 = .SUCCESS ⟨.NULL, 0, 2⟩ := by
  constructor <;> decide

/-- The divergence of the two decoders does not depend on the values of the two tags, as
long as both are three-bit tags and differ: the extended-type byte `248 + PTR` wraps to
the pointer tag in `_decode_key` only. -/
theorem decoders_differ_for_every_tag_pair :
    ∀ e p : Fin 8, e ≠ p →
      ∃ k1 k2, k1 ≠ k2 ∧
        _decode_key ⟨e.val, p.val⟩ { recbits := 24, segments := 1, dataptr := 6 }
          [0, 0, 0, 0, 0, 0, e * 32, 248 + p, 3,
            (if e.val ≠ 2 ∧ p.val ≠ 2 then 2 else if e.val ≠ 3 ∧ p.val ≠ 3 then 3 else 4) * 32 + 1,
            7] 2 0 = .SUCCESS k1 ∧
        _fddecode_key ⟨e.val, p.val⟩ { recbits := 24, segments := 1, dataptr := 6 }
          [0, 0, 0, 0, 0, 0, e * 32, 248 + p, 3,
            (if e.val ≠ 2 ∧ p.val ≠ 2 then 2 else if e.val ≠ 3 ∧ p.val ≠ 3 then 3 else 4) * 32 + 1,
            7] 2 0 = .SUCCESS k2 := by
  intro e p hne
  refine ⟨⟨.AT 10, 1, 3⟩, ⟨.NULL, 0, 2⟩, by decide, ?_⟩
  revert e p
  decide

/-! ## Value-location decoders: one step -/

theorem rd_some_inside {mem : List U8} {i : Int} {x : Nat} (h : rd mem i = some x) :
    0 ≤ i ∧ i < mem.length := by
  by_contra hc
  rw [(rd_eq_none_iff mem i).mpr hc] at h
  cases h

/-- A span that lies inside the file is read in full. -/
theorem read_inside (file : List U8) (n : Nat) (pos : Int) (hn : 0 < n) (h0 : 0 ≤ pos)
    (h1 : pos + n ≤ file.length) :
    ∃ b, _read file n pos = .SUCCESS b ∧ ∀ i : Int, 0 ≤ i → i < n → rd b i = rd file (pos + i) := by
  refine ⟨(file.drop pos.toNat).take n, ?_, fun i hi hin => rd_slice file n pos i h0 hi hin⟩
  rw [_read_eq file n pos hn, if_pos ⟨h0, h1⟩]

theorem read1_of_rd {file : List U8} {pos : Int} {x : Nat} (h : rd file pos = some x) :
    ∃ b, _read file 1 pos = .SUCCESS b ∧ rd b 0 = some x := by
  obtain ⟨h0, h1⟩ := rd_some_inside h
  obtain ⟨b, hb, hrd⟩ := read_inside file 1 pos (by omega) h0 (by omega)
  refine ⟨b, hb, ?_⟩
  rw [hrd 0 (by omega) (by omega), add_zero, h]

theorem decode_type_of_tag (c : DTypes) (mem : List U8) (base : Int) (ctrl : Nat)
    (offset : Int) (h : (ctrl >>> 5) &&& 7 ≠ c.GEOIP2_DTYPE_EXT) :
    decode_type c mem base ctrl offset = some ((ctrl >>> 5) &&& 7, offset) := by
  simp [decode_type, h]

theorem fddecode_type_of_tag (c : DTypes) (file : List U8) (segments : Int) (ctrl : Nat)
    (offset : Int) (h : (ctrl >>> 5) &&& 7 ≠ c.GEOIP2_DTYPE_EXT) :
    fddecode_type c file segments ctrl offset = .SUCCESS ((ctrl >>> 5) &&& 7, offset) := by
  simp [fddecode_type, h]

/-- One step of `_decode_key` at a pointer: the key of the target with `new_offset`
replaced. -/
theorem decode_key_pointer_step (c : DTypes) (gi : Handle) (mem : List U8) (fuel : Nat)
    (o o' t : Int) (ctrl : Nat)
    (hctrl : rd mem (gi.dataptr + o) = some ctrl)
    (hty : decode_type c mem gi.dataptr ctrl (o + 1) = some (c.GEOIP2_DTYPE_PTR, o'))
    (ht : decode_ptr mem gi.dataptr ctrl ((ctrl >>> 3) &&& 3) o' = some t)
    (k' : GeoIP2_Decode_Key) :
    _decode_key c gi mem (fuel + 1) o = .SUCCESS k' ↔
      ∃ k, _decode_key c gi mem fuel t = .SUCCESS k ∧
        k' = ⟨k.ptr, k.size, o' + (((ctrl >>> 3) &&& 3 : Nat) : Int) + 1⟩ := by
  simp only [_decode_key, hctrl, hty, ht, if_true]
  cases hr : _decode_key c gi mem fuel t with
  | SUCCESS k =>
    simp only [Ret.SUCCESS.injEq]
    constructor
    · intro h; exact ⟨k, rfl, h.symm⟩
    · rintro ⟨k2, rfl, rfl⟩; rfl
  | _ => simp

/-- One step of `_fddecode_key` at a pointer. -/
theorem fddecode_key_pointer_step (c : DTypes) (gi : Handle) (file : List U8) (fuel : Nat)
    (o o' t : Int) (ctrl : Nat)
    (hctrl : rd file ((wrapInt32 (gi.segments * gi.recbits * 2)).tdiv 8 + o) = some ctrl)
    (hty : fddecode_type c file ((wrapInt32 (gi.segments * gi.recbits * 2)).tdiv 8) ctrl (o + 1) =
      .SUCCESS (c.GEOIP2_DTYPE_PTR, o'))
    (ht : fddecode_ptr file ((wrapInt32 (gi.segments * gi.recbits * 2)).tdiv 8) ctrl ((ctrl >>> 3) &&& 3) o' =
      .SUCCESS t)
    (k' : GeoIP2_Decode_Key) :
    _fddecode_key c gi file (fuel + 1) o = .SUCCESS k' ↔
      ∃ k, _fddecode_key c gi file fuel t = .SUCCESS k ∧
        k' = ⟨k.ptr, k.size, o' + (((ctrl >>> 3) &&& 3 : Nat) : Int) + 1⟩ := by
  obtain ⟨b, hb, hb0⟩ := read1_of_rd hctrl
  simp only [_fddecode_key, hb, hb0, hty, ht, if_true]
  cases hr : _fddecode_key c gi file fuel t with
  | SUCCESS k =>
    simp only [Ret.SUCCESS.injEq]
    constructor
    · intro h; exact ⟨k, rfl, h.symm⟩
    · rintro ⟨k2, rfl, rfl⟩; rfl
  | _ => simp

/-! ## C4: a pointer is replaced by its target -/

/-- C4: where the control byte at offset `o` carries the pointer tag, with size class
`(ctrl >> 3) & 3` and pointer bytes that encode the target `t`, decoding at `o` succeeds
exactly when decoding at `t` does, and returns the target's location and size with
`new_offset = o + 1 + (size class + 1)`; this holds for `_decode_key` over a buffer and for
`_fddecode_key` over a file. -/
theorem pointer_yields_target_key (c : DTypes) (gi : Handle) (mem : List U8) (fuel : Nat)
    (o t : Int) (ctrl : Nat) (k' : GeoIP2_Decode_Key)
    (hne : c.GEOIP2_DTYPE_PTR ≠ c.GEOIP2_DTYPE_EXT)
    (htag : (ctrl >>> 5) &&& 7 = c.GEOIP2_DTYPE_PTR) :
    (rd mem (gi.dataptr + o) = some ctrl →
      decode_ptr mem gi.dataptr ctrl ((ctrl >>> 3) &&& 3) (o + 1) = some t →
      (_decode_key c gi mem (fuel + 1) o = .SUCCESS k' ↔
        ∃ k, _decode_key c gi mem fuel t = .SUCCESS k ∧
          k'.ptr = k.ptr ∧ k'.size = k.size ∧
            k'.new_offset = o + (1 : Int) + (Int.ofNat ((ctrl >>> 3) &&& 3) + (1 : Int)))) ∧
    (rd mem ((wrapInt32 (gi.segments * gi.recbits * 2)).tdiv 8 + o) = some ctrl →
      fddecode_ptr mem ((wrapInt32 (gi.segments * gi.recbits * 2)).tdiv 8) ctrl ((ctrl >>> 3) &&& 3) (o + 1) =
        .SUCCESS t →
      (_fddecode_key c gi mem (fuel + 1) o = .SUCCESS k' ↔
        ∃ k, _fddecode_key c gi mem fuel t = .SUCCESS k ∧
          k'.ptr = k.ptr ∧ k'.size = k.size ∧
            k'.new_offset = o + (1 : Int) + (Int.ofNat ((ctrl >>> 3) &&& 3) + (1 : Int)))) := by
  have hext : (ctrl >>> 5) &&& 7 ≠ c.GEOIP2_DTYPE_EXT := by rw [htag]; exact hne
  constructor
  · intro hctrl ht
    have hty := decode_type_of_tag c mem gi.dataptr ctrl (o + 1) hext
    rw [htag] at hty
    rw [decode_key_pointer_step c gi mem fuel o (o + 1) t ctrl hctrl hty ht k']
    constructor
    · rintro ⟨k, hk, rfl⟩
      exact ⟨k, hk, rfl, rfl, by simp only [Int.ofNat_eq_coe]; omega⟩
    · rintro ⟨k, hk, h1, h2, h3⟩
      refine ⟨k, hk, ?_⟩
      cases k'
      simp only [Int.ofNat_eq_coe] at h1 h2 h3
      simp only [GeoIP2_Decode_Key.mk.injEq]
      exact ⟨h1, h2, by omega⟩
  · intro hctrl ht
    have hty := fddecode_type_of_tag c mem ((wrapInt32 (gi.segments * gi.recbits * 2)).tdiv 8) ctrl (o + 1) hext
    rw [htag] at hty
    rw [fddecode_key_pointer_step c gi mem fuel o (o + 1) t ctrl hctrl hty ht k']
    constructor
    · rintro ⟨k, hk, rfl⟩
      exact ⟨k, hk, rfl, rfl, by simp only [Int.ofNat_eq_coe]; omega⟩
    · rintro ⟨k, hk, h1, h2, h3⟩
      refine ⟨k, hk, ?_⟩
      cases k'
      simp only [Int.ofNat_eq_coe] at h1 h2 h3
      simp only [GeoIP2_Decode_Key.mk.injEq]
      exact ⟨h1, h2, by omega⟩

/-! ## C5: the key of a direct value -/

theorem and_31 (ctrl : Nat) : ctrl &&& 31 = ctrl % 32 :=
  Nat.and_pow_two_sub_one_eq_mod ctrl 5

theorem and_7 (x : Nat) : x &&& 7 = x % 8 :=
  Nat.and_pow_two_sub_one_eq_mod x 3

theorem and_3 (x : Nat) : x &&& 3 = x % 4 :=
  Nat.and_pow_two_sub_one_eq_mod x 2

theorem shr_5 (x : Nat) : x >>> 5 = x / 32 := by
  rw [Nat.shiftRight_eq_div_pow]

theorem shr_3 (x : Nat) : x >>> 3 = x / 8 := by
  rw [Nat.shiftRight_eq_div_pow]

/-- The size switch of `_decode_key` computes the size of the specification and skips the
size bytes. -/
theorem decode_size_eq (mem : List U8) (base : Int) (ctrl : Nat) (offset : Int) :
    decode_size mem base ctrl offset =
      (spec_size mem (base + offset) ctrl).map
        (fun (s : Nat) => ((s : Int), offset + (size_bytes ctrl : Int))) := by
  unfold decode_size spec_size size_bytes
  simp only [and_31]
  split
  · simp only [Option.map_map]
    rfl
  · simp only [Option.map_map]
    cases hv : _get_uint16 mem (base + offset) with
    | none => rfl
    | some v =>
      obtain ⟨p0, p1, h0, h1, rfl⟩ := _get_uint16_eq_some.mp hv
      have := rd_lt h0; have := rd_lt h1
      simp only [Option.map_some', Function.comp]
      rw [toInt32_of_lt (by omega)]
      rfl
  · simp only [Option.map_map]
    cases hv : _get_uint24 mem (base + offset) with
    | none => rfl
    | some v =>
      obtain ⟨p0, p1, p2, h0, h1, h2, rfl⟩ := _get_uint24_eq_some.mp hv
      have := rd_lt h0; have := rd_lt h1; have := rd_lt h2
      simp only [Option.map_some', Function.comp]
      rw [toInt32_of_lt (by omega)]
      rfl
  · simp

theorem decode_type_offset {c : DTypes} {mem : List U8} {base : Int} {ctrl : Nat}
    {offset o' : Int} {type : Nat}
    (h : decode_type c mem base ctrl offset = some (type, o')) :
    o' = offset + (if ctrl / 32 % 8 = c.GEOIP2_DTYPE_EXT then 1 else 0) := by
  unfold decode_type at h
  simp only [shr_5, and_7] at h
  by_cases he : ctrl / 32 % 8 = c.GEOIP2_DTYPE_EXT
  · simp only [he, if_true] at h ⊢
    cases hb : rd mem (base + offset) with
    | none => simp [hb] at h
    | some b =>
      simp only [hb, Option.some.injEq, Prod.mk.injEq] at h
      omega
  · simp only [he, if_false, Option.some.injEq, Prod.mk.injEq] at h ⊢
    omega

/-- One step of `_decode_key` at a value whose resolved type is not the pointer type. -/
theorem decode_key_direct (c : DTypes) (gi : Handle) (mem : List U8) (fuel : Nat) (o o' : Int)
    (ctrl type size : Nat)
    (hctrl : rd mem (gi.dataptr + o) = some ctrl)
    (hty : decode_type c mem gi.dataptr ctrl (o + 1) = some (type, o'))
    (hdirect : type ≠ c.GEOIP2_DTYPE_PTR)
    (hsize : spec_size mem
      (gi.dataptr + (o + 1 + (if ctrl / 32 % 8 = c.GEOIP2_DTYPE_EXT then 1 else 0))) ctrl =
        some size) :
    _decode_key c gi mem (fuel + 1) o =
      if size = 0 then .SUCCESS ⟨.EMPTY, 0, o + (header_len c ctrl : Nat)⟩
      else .SUCCESS ⟨.AT (gi.dataptr + (o + (header_len c ctrl : Nat))), (size : Int),
        o + (header_len c ctrl : Nat) + (size : Int)⟩ := by
  have ho' := decode_type_offset hty
  rw [← ho'] at hsize
  have hlen : o + (header_len c ctrl : Nat) = o' + (size_bytes ctrl : Int) := by
    unfold header_len
    rw [ho']
    split <;> push_cast <;> omega
  simp only [_decode_key, hctrl, hty, hdirect, if_false, decode_size_eq, hsize, Option.map_some',
    hlen]
  by_cases hs : size = 0
  · simp [hs]
  · have : ¬ ((size : Int) = 0) := by omega
    simp [hs, this]

set_option maxRecDepth 100000 in
theorem and_0xf0 (b : Nat) (h : b < 256) : b &&& 0xf0 = b / 16 * 16 := by
  have key : ∀ x : Fin 256, x.val &&& 0xf0 = x.val / 16 * 16 := by decide
  exact key ⟨b, h⟩

theorem rec7_left_eq (mem : List U8) (offset : Int) (p0 p1 p2 p3 : Nat)
    (h0 : rd mem (offset * 7) = some p0) (h1 : rd mem (offset * 7 + 1) = some p1)
    (h2 : rd mem (offset * 7 + 2) = some p2) (h3 : rd mem (offset * 7 + 3) = some p3) :
    rec7 mem offset false =
      .SUCCESS ((p0 * 65536 + p1 * 256 + p2 + (p3 / 16) * 16777216 : Nat) : Int) := by
  have := rd_lt h3
  have e : (p3 / 16 * 16) <<< 20 = (p3 / 16) * 16777216 := by
    rw [Nat.shiftLeft_eq]
    norm_num
    omega
  simp only [rec7, Bool.false_eq_true, if_false, h0, h1, h2, h3, and_0xf0 p3 this, e]

theorem holds_inside {mem : List U8} {pos : Int} {bytes : List Nat} (h : Holds mem pos bytes)
    (hne : 0 < bytes.length) : 0 ≤ pos ∧ pos + bytes.length ≤ mem.length := by
  have hl : bytes.length - 1 < bytes.length := by omega
  have h0 := rd_some_inside (h 0 bytes[0] (List.getElem?_eq_getElem hne))
  have h1 := rd_some_inside
    (h (bytes.length - 1) bytes[bytes.length - 1] (List.getElem?_eq_getElem hl))
  constructor
  · simpa using h0.1
  · have := h1.2
    omega

/-- C8: a 7-byte node built from two 28-bit values `V_L` and `V_R` is read back by the
width-7 branch of each walker as left child `V_L` (address bit 0) and right child `V_R`
(address bit 1). -/
theorem node7_round_trip (mem : List U8) (node : Int) (vl vr : Nat)
    (_hl : vl < 268435456) (hr : vr < 268435456) (h : Holds mem (node * 7) (node7 vl vr)) :
    rec7 mem node false = .SUCCESS (vl : Int) ∧ rec7 mem node true = .SUCCESS (vr : Int) ∧
    fdrec7 mem node false = .SUCCESS (vl : Int) ∧ fdrec7 mem node true = .SUCCESS (vr : Int) ∧
    fdrec7_v6 mem node false = .SUCCESS (vl : Int) ∧
    fdrec7_v6 mem node true = .SUCCESS (vr : Int) := by
  have h0 := h 0 (vl / 65536 % 256) rfl
  have h1 := h 1 (vl / 256 % 256) rfl
  have h2 := h 2 (vl % 256) rfl
  have h3 := h 3 ((vl / 16777216) * 16 + vr / 16777216) rfl
  have h4 := h 4 (vr / 65536 % 256) rfl
  have h5 := h 5 (vr / 256 % 256) rfl
  have h6 := h 6 (vr % 256) rfl
  simp only [Nat.cast_zero, add_zero, Nat.cast_one, Nat.cast_ofNat] at h0 h1 h2 h3 h4 h5 h6
  have e4 : node * 7 + 3 + 1 = node * 7 + 4 := by omega
  have e5 : node * 7 + 3 + 2 = node * 7 + 5 := by omega
  have e6 : node * 7 + 3 + 3 = node * 7 + 6 := by omega
  have hleft : rec7 mem node false = .SUCCESS (vl : Int) := by
    rw [rec7_left_eq mem node _ _ _ _ h0 h1 h2 h3]
    congr 2
    omega
  have hright : rec7 mem node true = .SUCCESS (vr : Int) := by
    have hv : _get_uint32 mem (node * 7 + 3) = some (((vl / 16777216) * 16 + vr / 16777216) *
        16777216 + vr / 65536 % 256 * 65536 + vr / 256 % 256 * 256 + vr % 256) :=
      _get_uint32_eq_some.mpr ⟨_, _, _, _, h3, e4 ▸ h4, e5 ▸ h5, e6 ▸ h6, rfl⟩
    simp only [rec7, if_true, hv, toInt32_emod]
    congr 1
    omega
  obtain ⟨hp0, hp1⟩ := holds_inside h (by simp [node7])
  simp only [node7, List.length_cons, List.length_nil] at hp1
  have hfd : ∀ b, fdrec7 mem node b ≠ .IOERROR := by
    intro b
    unfold fdrec7
    cases b with
    | true =>
      obtain ⟨x, hx, _⟩ := read_inside mem 4 (node * 7 + 3) (by omega) (by omega)
        (by push_cast at hp1 ⊢; omega)
      obtain ⟨_, v, hv⟩ := get32_of_read (le_refl 4) hx
      simp only [if_true, hx]
      rw [(get32_of_read (le_refl 4) hx).1, hv]
      simp
    | false =>
      obtain ⟨x, hx, _⟩ := read_inside mem 4 (node * 7) (by omega) (by omega)
        (by push_cast at hp1 ⊢; omega)
      obtain ⟨p0, p1, p2, p3, _, _, _, _, g0, g1, g2, g3⟩ := rec7_left_of_read hx
      simp [hx, g0, g1, g2, g3]
  have hfd6 : ∀ b, fdrec7_v6 mem node b ≠ .IOERROR := by
    intro b
    unfold fdrec7_v6
    cases b with
    | true =>
      obtain ⟨x, hx, _⟩ := read_inside mem 4 (node * 7 + 3) (by omega) (by omega)
        (by push_cast at hp1 ⊢; omega)
      obtain ⟨_, v, hv⟩ := get32_of_read (le_refl 4) hx
      simp only [if_true, hx]
      rw [(get32_of_read (le_refl 4) hx).1, hv]
      simp
    | false =>
      obtain ⟨x, hx, _⟩ := read_inside mem 4 (node * 7) (by omega) (by omega)
        (by push_cast at hp1 ⊢; omega)
      obtain ⟨p0, p1, p2, p3, _, _, _, _, g0, g1, g2, g3⟩ := rec7_left_of_read hx
      simp [hx, g0, g1, g2, g3]
  refine ⟨hleft, hright, ?_, ?_, ?_, ?_⟩
  · rw [← rec7_of_fdrec7 mem node false (hfd false)]; exact hleft
  · rw [← rec7_of_fdrec7 mem node true (hfd true)]; exact hright
  · rw [← rec7_of_fdrec7_v6 mem node false (hfd6 false)]; exact hleft
  · rw [← rec7_of_fdrec7_v6 mem node true (hfd6 true)]; exact hright

/-! ## Buffers holding given bytes -/

theorem holds_of_eq (mem : List U8) (pos : Int) (bytes : List Nat) (pre bs post : List U8)
    (hmem : mem = pre ++ bs ++ post) (hpos : pos = pre.length)
    (hb : bytes = bs.map (fun b => b.val)) : Holds mem pos bytes := by
  subst hmem hpos hb
  intro i b hi
  have hlt : i < bs.length := by
    by_contra hc
    rw [List.getElem?_eq_none (by simpa using hc)] at hi
    cases hi
  rw [List.getElem?_eq_getElem (by simpa using hlt)] at hi
  simp only [List.getElem_map, Option.some.injEq] at hi
  unfold rd
  have h0 : (0 : Int) ≤ (pre.length : Int) + (i : Int) := by omega
  have h1 : ((pre.length : Int) + (i : Int)).toNat = pre.length + i := by omega
  rw [if_pos h0, h1, List.append_assoc, List.getElem?_append_right (by omega)]
  simp only [Nat.add_sub_cancel_left]
  rw [List.getElem?_append_left hlt, List.getElem?_eq_getElem hlt]
  simp [hi]

theorem holds_rd {mem : List U8} {pos : Int} {bytes : List Nat} (h : Holds mem pos bytes)
    (i : Nat) (b : Nat) (hb : bytes[i]? = some b) (p : Int) (hp : p = pos + i) :
    rd mem p = some b := by
  subst hp
  exact h i b hb

/-- Witness of C8: the node holding `0xABCDEF1` and `0x2345678`. -/
theorem node7_round_trip_witness :
    (0xABCDEF1 < 268435456 ∧ 0x2345678 < 268435456 ∧
      Holds [0xBC, 0xDE, 0xF1, 0xA2, 0x34, 0x56, 0x78] (0 * 7) (node7 0xABCDEF1 0x2345678)) ∧
    rec7 [0xBC, 0xDE, 0xF1, 0xA2, 0x34, 0x56, 0x78] 0 false = .SUCCESS 0xABCDEF1 ∧
    rec7 [0xBC, 0xDE, 0xF1, 0xA2, 0x34, 0x56, 0x78] 0 true = .SUCCESS 0x2345678 ∧
    fdrec7 [0xBC, 0xDE, 0xF1, 0xA2, 0x34, 0x56, 0x78] 0 false = .SUCCESS 0xABCDEF1 ∧
    fdrec7 [0xBC, 0xDE, 0xF1, 0xA2, 0x34, 0x56, 0x78] 0 true = .SUCCESS 0x2345678 ∧
    fdrec7_v6 [0xBC, 0xDE, 0xF1, 0xA2, 0x34, 0x56, 0x78] 0 false = .SUCCESS 0xABCDEF1 ∧
    fdrec7_v6 [0xBC, 0xDE, 0xF1, 0xA2, 0x34, 0x56, 0x78] 0 true = .SUCCESS 0x2345678 :=
  have hh : Holds [0xBC, 0xDE, 0xF1, 0xA2, 0x34, 0x56, 0x78] (0 * 7)
      (node7 0xABCDEF1 0x2345678) :=
    holds_of_eq _ _ _ [] [0xBC, 0xDE, 0xF1, 0xA2, 0x34, 0x56, 0x78] [] rfl rfl (by decide)
  ⟨⟨by decide, by decide, hh⟩,
    node7_round_trip [0xBC, 0xDE, 0xF1, 0xA2, 0x34, 0x56, 0x78] 0 0xABCDEF1 0x2345678
      (by decide) (by decide) hh⟩

/-! ## C7: the size escapes -/

theorem spec_size_small (mem : List U8) (pos : Int) (ctrl : Nat) (h : ctrl % 32 ≤ 28) :
    spec_size mem pos ctrl = some (ctrl % 32) ∧ size_bytes ctrl = 0 := by
  unfold spec_size size_bytes
  constructor <;> split <;> first | omega | rfl

theorem spec_size_29 (mem : List U8) (pos : Int) (ctrl : Nat) (h : ctrl % 32 = 29) :
    spec_size mem pos ctrl = (rd mem pos).map (fun b => 29 + b) ∧ size_bytes ctrl = 1 := by
  unfold spec_size size_bytes
  rw [h]
  exact ⟨rfl, rfl⟩

theorem spec_size_30 (mem : List U8) (pos : Int) (ctrl : Nat) (h : ctrl % 32 = 30) :
    spec_size mem pos ctrl = (_get_uint16 mem pos).map (fun v => 285 + v) ∧
      size_bytes ctrl = 2 := by
  unfold spec_size size_bytes
  rw [h]
  exact ⟨rfl, rfl⟩

theorem spec_size_31 (mem : List U8) (pos : Int) (ctrl : Nat) (h : ctrl % 32 = 31) :
    spec_size mem pos ctrl = (_get_uint24 mem pos).map (fun v => 65821 + v) ∧
      size_bytes ctrl = 3 := by
  unfold spec_size size_bytes
  rw [h]
  exact ⟨rfl, rfl⟩

/-- The canonical header of a size: its control byte carries the tag, the size of the
specification is the size encoded, and the header is the control byte and the size bytes. -/
theorem encode_size_spec (mem : List U8) (pos : Int) (tag s : Nat) (htag : tag < 8)
    (hs : s ≤ 16843036) (h : Holds mem pos (encode_size tag s)) :
    ∃ ctrl, rd mem pos = some ctrl ∧ ctrl / 32 % 8 = tag ∧
      spec_size mem (pos + 1) ctrl = some s ∧
      1 + size_bytes ctrl = (encode_size tag s).length := by
  unfold encode_size at h ⊢
  by_cases h1 : s ≤ 28
  · simp only [h1, if_true] at h ⊢
    have hc := holds_rd h 0 (tag * 32 + s) (by simp) pos (by simp)
    obtain ⟨e1, e2⟩ := spec_size_small mem (pos + 1) (tag * 32 + s) (by omega)
    refine ⟨_, hc, by omega, ?_, by simp [e2]⟩
    rw [e1]
    congr 1
    omega
  by_cases h2 : s ≤ 284
  · simp only [h1, h2, if_true, if_false] at h ⊢
    have hc := holds_rd h 0 (tag * 32 + 29) (by simp) pos (by simp)
    have hb := holds_rd h 1 (s - 29) (by simp) (pos + 1) (by simp)
    obtain ⟨e1, e2⟩ := spec_size_29 mem (pos + 1) (tag * 32 + 29) (by omega)
    refine ⟨_, hc, by omega, ?_, by simp [e2]⟩
    rw [e1, hb]
    simp only [Option.map_some', Option.some.injEq]
    omega
  by_cases h3 : s ≤ 65820
  · simp only [h1, h2, h3, if_true, if_false] at h ⊢
    have hc := holds_rd h 0 (tag * 32 + 30) (by simp) pos (by simp)
    have hb0 := holds_rd h 1 ((s - 285) / 256) (by simp) (pos + 1) (by simp)
    have hb1 := holds_rd h 2 ((s - 285) % 256) (by simp) (pos + 1 + 1) (by push_cast; omega)
    obtain ⟨e1, e2⟩ := spec_size_30 mem (pos + 1) (tag * 32 + 30) (by omega)
    refine ⟨_, hc, by omega, ?_, by simp [e2]⟩
    rw [e1, _get_uint16_eq_some.mpr ⟨_, _, hb0, hb1, rfl⟩]
    simp only [Option.map_some', Option.some.injEq]
    omega
  · simp only [h1, h2, h3, if_false] at h ⊢
    obtain ⟨u, hu⟩ : ∃ u, u = s - 65821 := ⟨_, rfl⟩
    rw [← hu] at h
    have hc := holds_rd h 0 (tag * 32 + 31) (by simp) pos (by simp)
    have hb0 := holds_rd h 1 (u / 65536) (by simp) (pos + 1) (by simp)
    have hb1 := holds_rd h 2 (u / 256 % 256) (by simp) (pos + 1 + 1) (by push_cast; omega)
    have hb2 := holds_rd h 3 (u % 256) (by simp) (pos + 1 + 2) (by push_cast; omega)
    obtain ⟨e1, e2⟩ := spec_size_31 mem (pos + 1) (tag * 32 + 31) (by omega)
    refine ⟨_, hc, by omega, ?_, by simp [e2]⟩
    rw [e1, _get_uint24_eq_some.mpr ⟨_, _, _, hb0, hb1, hb2, rfl⟩]
    simp only [Option.map_some', Option.some.injEq]
    omega

/-- The size switch of `_fddecode_key` computes the size of the specification when the size
bytes lie inside the file. -/
theorem fddecode_size_of_spec (file : List U8) (segments : Int) (ctrl : Nat) (offset : Int)
    (s : Nat) (h : spec_size file (segments + offset) ctrl = some s) :
    fddecode_size file segments ctrl offset =
      .SUCCESS ((s : Int), offset + (size_bytes ctrl : Int)) := by
  unfold fddecode_size
  simp only [and_31]
  by_cases h29 : ctrl % 32 = 29
  · obtain ⟨e1, e2⟩ := spec_size_29 file (segments + offset) ctrl h29
    rw [e1] at h
    cases hb : rd file (segments + offset) with
    | none => simp [hb] at h
    | some b =>
      simp only [hb, Option.map_some', Option.some.injEq] at h
      obtain ⟨x, hx, hx0⟩ := read1_of_rd hb
      simp only [h29, hx, hx0, e2, ← h]
      rfl
  by_cases h30 : ctrl % 32 = 30
  · obtain ⟨e1, e2⟩ := spec_size_30 file (segments + offset) ctrl h30
    rw [e1] at h
    cases hv : _get_uint16 file (segments + offset) with
    | none => simp [hv] at h
    | some v =>
      simp only [hv, Option.map_some', Option.some.injEq] at h
      obtain ⟨p0, p1, h0, h1, rfl⟩ := _get_uint16_eq_some.mp hv
      obtain ⟨x, hx, hrd⟩ := read_inside file 2 (segments + offset) (by omega)
        (rd_some_inside h0).1 (by have := (rd_some_inside h1).2; omega)
      have g0 := hrd 0 (by omega) (by omega)
      have g1 := hrd 1 (by omega) (by omega)
      rw [add_zero, h0] at g0
      rw [h1] at g1
      simp only [h30, hx, g0, g1, e2, ← h]
      congr 2
      push_cast
      omega
  by_cases h31 : ctrl % 32 = 31
  · obtain ⟨e1, e2⟩ := spec_size_31 file (segments + offset) ctrl h31
    rw [e1] at h
    cases hv : _get_uint24 file (segments + offset) with
    | none => simp [hv] at h
    | some v =>
      simp only [hv, Option.map_some', Option.some.injEq] at h
      obtain ⟨p0, p1, p2, h0, h1, h2, rfl⟩ := _get_uint24_eq_some.mp hv
      have := rd_lt h0; have := rd_lt h1; have := rd_lt h2
      obtain ⟨x, hx, _⟩ := read_inside file 3 (segments + offset) (by omega)
        (rd_some_inside h0).1 (by have := (rd_some_inside h2).2; omega)
      obtain ⟨g, _⟩ := get24_of_read (le_refl 3) hx
      simp only [h31, hx, g, hv, e2, ← h]
      rw [toInt32_of_lt (by omega)]
      rfl
  · have hsm : ctrl % 32 ≤ 28 := by omega
    obtain ⟨e1, e2⟩ := spec_size_small file (segments + offset) ctrl hsm
    rw [e1] at h
    simp only [Option.some.injEq] at h
    split
    · rename_i hc; exact absurd hc h29
    · rename_i hc; exact absurd hc h30
    · rename_i hc; exact absurd hc h31
    · simp [e2, h]

/-- One step of `_fddecode_key` at a value whose three-bit tag is neither the extended
marker nor the pointer tag. -/
theorem fddecode_key_direct (c : DTypes) (gi : Handle) (file : List U8) (fuel : Nat)
    (o : Int) (ctrl size : Nat)
    (hctrl : rd file ((wrapInt32 (gi.segments * gi.recbits * 2)).tdiv 8 + o) = some ctrl)
    (hE : ctrl / 32 % 8 ≠ c.GEOIP2_DTYPE_EXT) (hP : ctrl / 32 % 8 ≠ c.GEOIP2_DTYPE_PTR)
    (hsize : spec_size file ((wrapInt32 (gi.segments * gi.recbits * 2)).tdiv 8 + (o + 1)) ctrl =
      some size) :
    _fddecode_key c gi file (fuel + 1) o =
      if size = 0 then .SUCCESS ⟨.NULL, 0, o + 1 + (size_bytes ctrl : Int)⟩
      else .SUCCESS ⟨.AT ((wrapInt32 (gi.segments * gi.recbits * 2)).tdiv 8 + (o + 1 + (size_bytes ctrl : Int))),
        (size : Int), o + 1 + (size_bytes ctrl : Int) + (size : Int)⟩ := by
  obtain ⟨b, hb, hb0⟩ := read1_of_rd hctrl
  have hE' : (ctrl >>> 5) &&& 7 ≠ c.GEOIP2_DTYPE_EXT := by rw [shr_5, and_7]; exact hE
  have hP' : ¬ ((ctrl >>> 5) &&& 7 = c.GEOIP2_DTYPE_PTR) := by rw [shr_5, and_7]; exact hP
  simp only [_fddecode_key, hb, hb0, fddecode_type_of_tag c file _ ctrl (o + 1) hE', hP', if_false,
    fddecode_size_of_spec file _ ctrl (o + 1) size hsize]
  by_cases hs : size = 0
  · simp [hs]
  · have : ¬ ((size : Int) = 0) := by omega
    simp [hs, this]

/-- C7: for every size `s` in `0..16843036` and every type tag other than the extended
marker and the pointer tag, each decoder applied to the canonical header for `s` returns
size exactly `s`, with the location just after the header (the empty marker when
`s = 0`) and `new_offset` after the `s` payload bytes. -/
theorem size_round_trip (c : DTypes) (gi : Handle) (mem : List U8) (fuel : Nat) (o : Int)
    (tag s : Nat) (htag : tag < 8) (hE : tag ≠ c.GEOIP2_DTYPE_EXT)
    (hP : tag ≠ c.GEOIP2_DTYPE_PTR) (hs : s ≤ 16843036) :
    (Holds mem (gi.dataptr + o) (encode_size tag s) →
      _decode_key c gi mem (fuel + 1) o = .SUCCESS
        ⟨if s = 0 then .EMPTY else .AT (gi.dataptr + (o + ((encode_size tag s).length : Int))),
          (s : Int), o + ((encode_size tag s).length : Int) + (s : Int)⟩) ∧
    (Holds mem ((wrapInt32 (gi.segments * gi.recbits * 2)).tdiv 8 + o) (encode_size tag s) →
      _fddecode_key c gi mem (fuel + 1) o = .SUCCESS
        ⟨if s = 0 then .NULL else .AT ((wrapInt32 (gi.segments * gi.recbits * 2)).tdiv 8 +
            (o + ((encode_size tag s).length : Int))),
          (s : Int), o + ((encode_size tag s).length : Int) + (s : Int)⟩) := by
  constructor
  · intro h
    obtain ⟨ctrl, hc, ht, hsz, hlen⟩ := encode_size_spec mem _ tag s htag hs h
    have hE' : (ctrl >>> 5) &&& 7 ≠ c.GEOIP2_DTYPE_EXT := by rw [shr_5, and_7, ht]; exact hE
    have hty := decode_type_of_tag c mem gi.dataptr ctrl (o + 1) hE'
    have hE2 : ¬ (ctrl / 32 % 8 = c.GEOIP2_DTYPE_EXT) := by rw [ht]; exact hE
    have hdirect : (ctrl >>> 5) &&& 7 ≠ c.GEOIP2_DTYPE_PTR := by rw [shr_5, and_7, ht]; exact hP
    have hsz' : spec_size mem (gi.dataptr +
        (o + 1 + (if ctrl / 32 % 8 = c.GEOIP2_DTYPE_EXT then 1 else 0))) ctrl = some s := by
      rw [if_neg hE2, add_zero, ← add_assoc]
      exact hsz
    rw [decode_key_direct c gi mem fuel o (o + 1) ctrl _ s hc hty hdirect hsz']
    have hl : (header_len c ctrl : Int) = ((encode_size tag s).length : Int) := by
      unfold header_len
      rw [if_neg hE2, ← hlen]
    rw [hl]
    by_cases h0 : s = 0
    · simp [h0]
    · simp [h0]
  · intro h
    obtain ⟨ctrl, hc, ht, hsz, hlen⟩ := encode_size_spec mem _ tag s htag hs h
    have hsz' : spec_size mem ((wrapInt32 (gi.segments * gi.recbits * 2)).tdiv 8 + (o + 1)) ctrl = some s := by
      rw [← add_assoc]
      exact hsz
    rw [fddecode_key_direct c gi mem fuel o ctrl s hc (by rw [ht]; exact hE)
      (by rw [ht]; exact hP) hsz']
    have hl : (1 : Int) + (size_bytes ctrl : Int) = ((encode_size tag s).length : Int) := by
      rw [← hlen]
      push_cast
      rfl
    simp only [add_assoc, hl]
    by_cases h0 : s = 0
    · simp [h0]
    · simp [h0]

/-! ## C6: the four pointer size classes -/

/-- The canonical encoding of a pointer decodes to its target: for a target in the range of
its size class, and below `2^31` in the last class, `decode_ptr` on the control byte and the
pointer bytes gives the target back. -/
theorem encode_ptr_spec (mem : List U8) (pos base off : Int) (tag cls t : Nat)
    (hpos : base + off = pos + 1) (htag : tag < 8) (hcls : cls ≤ 3) (hr : ptr_range cls t)
    (hint : cls = 3 → t ≤ 2147483647) (h : Holds mem pos (encode_ptr tag cls t)) :
    ∃ ctrl, rd mem pos = some ctrl ∧ ctrl / 32 % 8 = tag ∧ ctrl / 8 % 4 = cls ∧
      decode_ptr mem base ctrl cls off = some (t : Int) := by
  interval_cases cls
  · simp only [ptr_range] at hr
    simp only [encode_ptr] at h
    have hc := holds_rd h 0 (tag * 32 + t / 256) (by simp) pos (by simp)
    have hb := holds_rd h 1 (t % 256) (by simp) (pos + 1) (by simp)
    refine ⟨_, hc, by omega, by omega, ?_⟩
    simp only [decode_ptr, hpos, hb, and_7, Option.map_some', Option.some.injEq]
    congr 1
    omega
  · simp only [ptr_range] at hr
    simp only [encode_ptr] at h
    obtain ⟨u, hu⟩ : ∃ u, u = t - 2048 := ⟨_, rfl⟩
    rw [← hu] at h
    have hc := holds_rd h 0 (tag * 32 + 8 + u / 65536) (by simp) pos (by simp)
    have hb0 := holds_rd h 1 (u / 256 % 256) (by simp) (pos + 1) (by simp)
    have hb1 := holds_rd h 2 (u % 256) (by simp) (pos + 1 + 1) (by push_cast; omega)
    refine ⟨_, hc, by omega, by omega, ?_⟩
    simp only [decode_ptr, hpos, _get_uint16_eq_some.mpr ⟨_, _, hb0, hb1, rfl⟩, and_7,
      Option.map_some', Option.some.injEq]
    rw [toInt32_of_lt (by omega)]
    congr 1
    omega
  · simp only [ptr_range] at hr
    simp only [encode_ptr] at h
    obtain ⟨u, hu⟩ : ∃ u, u = t - 526336 := ⟨_, rfl⟩
    rw [← hu] at h
    have hc := holds_rd h 0 (tag * 32 + 16 + u / 16777216) (by simp) pos (by simp)
    have hb0 := holds_rd h 1 (u / 65536 % 256) (by simp) (pos + 1) (by simp)
    have hb1 := holds_rd h 2 (u / 256 % 256) (by simp) (pos + 1 + 1) (by push_cast; omega)
    have hb2 := holds_rd h 3 (u % 256) (by simp) (pos + 1 + 2) (by push_cast; omega)
    refine ⟨_, hc, by omega, by omega, ?_⟩
    simp only [decode_ptr, hpos, _get_uint24_eq_some.mpr ⟨_, _, _, hb0, hb1, hb2, rfl⟩, and_7,
      Option.map_some', Option.some.injEq]
    rw [toInt32_of_lt (by omega)]
    congr 1
    omega
  · have hi := hint rfl
    simp only [encode_ptr] at h
    have hc := holds_rd h 0 (tag * 32 + 24) (by simp) pos (by simp)
    have hb0 := holds_rd h 1 (t / 16777216 % 256) (by simp) (pos + 1) (by simp)
    have hb1 := holds_rd h 2 (t / 65536 % 256) (by simp) (pos + 1 + 1) (by push_cast; omega)
    have hb2 := holds_rd h 3 (t / 256 % 256) (by simp) (pos + 1 + 2) (by push_cast; omega)
    have hb3 := holds_rd h 4 (t % 256) (by simp) (pos + 1 + 3) (by push_cast; omega)
    refine ⟨_, hc, by omega, by omega, ?_⟩
    simp only [decode_ptr, hpos, _get_uint32_eq_some.mpr ⟨_, _, _, _, hb0, hb1, hb2, hb3, rfl⟩,
      Option.map_some', Option.some.injEq]
    rw [toInt32_of_lt (by omega)]
    congr 1
    omega

/-- Where the buffer-backed pointer decoding finds its bytes, the positional-read-backed one
reads the same bytes and computes the same target. -/
theorem fddecode_ptr_of_decode (file : List U8) (segments : Int) (ctrl psize : Nat)
    (offset t : Int) (hps : psize ≤ 3)
    (h : decode_ptr file segments ctrl psize offset = some t) :
    fddecode_ptr file segments ctrl psize offset = .SUCCESS t := by
  interval_cases psize
  · simp only [decode_ptr] at h
    cases hb : rd file (segments + offset) with
    | none => simp [hb] at h
    | some b =>
      simp only [hb, Option.map_some', Option.some.injEq] at h
      obtain ⟨x, hx, hx0⟩ := read1_of_rd hb
      simp only [fddecode_ptr, zero_add, hx, hx0, h]
  · simp only [decode_ptr] at h
    cases hv : _get_uint16 file (segments + offset) with
    | none => simp [hv] at h
    | some v =>
      simp only [hv, Option.map_some', Option.some.injEq] at h
      obtain ⟨p0, p1, h0, h1, rfl⟩ := _get_uint16_eq_some.mp hv
      have := rd_lt h0; have := rd_lt h1
      obtain ⟨x, hx, hrd⟩ := read_inside file 2 (segments + offset) (by omega)
        (rd_some_inside h0).1 (by have := (rd_some_inside h1).2; omega)
      have g0 := hrd 0 (by omega) (by omega)
      have g1 := hrd 1 (by omega) (by omega)
      rw [add_zero, h0] at g0
      rw [h1] at g1
      have hc : ctrl % 8 < 8 := Nat.mod_lt _ (by omega)
      rw [and_7, toInt32_of_lt (by omega)] at h
      simp only [fddecode_ptr, Nat.reduceAdd, hx, g0, g1, and_7, ← h]
      congr 2
      omega
  · simp only [decode_ptr] at h
    cases hv : _get_uint24 file (segments + offset) with
    | none => simp [hv] at h
    | some v =>
      simp only [hv, Option.map_some', Option.some.injEq] at h
      obtain ⟨p0, p1, p2, h0, h1, h2, rfl⟩ := _get_uint24_eq_some.mp hv
      obtain ⟨x, hx, _⟩ := read_inside file 3 (segments + offset) (by omega)
        (rd_some_inside h0).1 (by have := (rd_some_inside h2).2; omega)
      obtain ⟨g, _⟩ := get24_of_read (le_refl 3) hx
      simp only [fddecode_ptr, Nat.reduceAdd, hx, g, hv, h]
  · simp only [decode_ptr] at h
    cases hv : _get_uint32 file (segments + offset) with
    | none => simp [hv] at h
    | some v =>
      simp only [hv, Option.map_some', Option.some.injEq] at h
      obtain ⟨p0, p1, p2, p3, h0, h1, h2, h3, rfl⟩ := _get_uint32_eq_some.mp hv
      obtain ⟨x, hx, _⟩ := read_inside file 4 (segments + offset) (by omega)
        (rd_some_inside h0).1 (by have := (rd_some_inside h3).2; omega)
      obtain ⟨g, _⟩ := get32_of_read (le_refl 4) hx
      simp only [fddecode_ptr, Nat.reduceAdd, hx, g, hv, h]

/-- C6 (as amended): for each of the four size classes and every target offset `t`
representable in that class, with the last class restricted to `0..2^31-1` because the
decoders keep offsets in an `int`, each decoder applied to the canonical encoding of `t`
computes the target `t` and returns what decoding at `t` returns, with `new_offset` set
just after the pointer. -/
theorem pointer_round_trip (c : DTypes) (gi : Handle) (mem : List U8) (fuel : Nat) (o : Int)
    (cls t : Nat) (k' : GeoIP2_Decode_Key)
    (htag : c.GEOIP2_DTYPE_PTR < 8) (hne : c.GEOIP2_DTYPE_PTR ≠ c.GEOIP2_DTYPE_EXT)
    (hcls : cls ≤ 3) (hr : ptr_range cls t) (hint : cls = 3 → t ≤ 2147483647) :
    (Holds mem (gi.dataptr + o) (encode_ptr c.GEOIP2_DTYPE_PTR cls t) →
      ∃ ctrl, rd mem (gi.dataptr + o) = some ctrl ∧
        decode_ptr mem gi.dataptr ctrl cls (o + 1) = some (t : Int) ∧
        (_decode_key c gi mem (fuel + 1) o = .SUCCESS k' ↔
          ∃ k, _decode_key c gi mem fuel (t : Int) = .SUCCESS k ∧
            k'.ptr = k.ptr ∧ k'.size = k.size ∧
            k'.new_offset = o + (1 : Int) + ((cls : Int) + (1 : Int)))) ∧
    (Holds mem ((wrapInt32 (gi.segments * gi.recbits * 2)).tdiv 8 + o)
        (encode_ptr c.GEOIP2_DTYPE_PTR cls t) →
      ∃ ctrl, rd mem ((wrapInt32 (gi.segments * gi.recbits * 2)).tdiv 8 + o) = some ctrl ∧
        fddecode_ptr mem ((wrapInt32 (gi.segments * gi.recbits * 2)).tdiv 8) ctrl cls (o + 1) =
          .SUCCESS (t : Int) ∧
        (_fddecode_key c gi mem (fuel + 1) o = .SUCCESS k' ↔
          ∃ k, _fddecode_key c gi mem fuel (t : Int) = .SUCCESS k ∧
            k'.ptr = k.ptr ∧ k'.size = k.size ∧
            k'.new_offset = o + (1 : Int) + ((cls : Int) + (1 : Int)))) := by
  constructor
  · intro h
    obtain ⟨ctrl, hc, ht, hps, hd⟩ := encode_ptr_spec mem (gi.dataptr + o) gi.dataptr (o + 1)
      c.GEOIP2_DTYPE_PTR cls t (by omega) htag hcls hr hint h
    have hps' : (ctrl >>> 3) &&& 3 = cls := by rw [shr_3, and_3]; exact hps
    have htg : (ctrl >>> 5) &&& 7 = c.GEOIP2_DTYPE_PTR := by rw [shr_5, and_7]; exact ht
    have hext : (ctrl >>> 5) &&& 7 ≠ c.GEOIP2_DTYPE_EXT := by rw [htg]; exact hne
    have hty := decode_type_of_tag c mem gi.dataptr ctrl (o + 1) hext
    rw [htg] at hty
    refine ⟨ctrl, hc, hd, ?_⟩
    rw [decode_key_pointer_step c gi mem fuel o (o + 1) t ctrl hc hty (by rw [hps']; exact hd) k',
      hps']
    constructor
    · rintro ⟨k, hk, rfl⟩
      exact ⟨k, hk, rfl, rfl, by simp only; omega⟩
    · rintro ⟨k, hk, h1, h2, h3⟩
      refine ⟨k, hk, ?_⟩
      cases k'
      simp only at h1 h2 h3
      simp only [GeoIP2_Decode_Key.mk.injEq]
      exact ⟨h1, h2, by omega⟩
  · intro h
    obtain ⟨ctrl, hc, ht, hps, hd⟩ := encode_ptr_spec mem
      ((wrapInt32 (gi.segments * gi.recbits * 2)).tdiv 8 + o) ((wrapInt32 (gi.segments * gi.recbits * 2)).tdiv 8) (o + 1)
      c.GEOIP2_DTYPE_PTR cls t (by omega) htag hcls hr hint h
    have hfd := fddecode_ptr_of_decode mem _ ctrl cls (o + 1) t hcls hd
    have hps' : (ctrl >>> 3) &&& 3 = cls := by rw [shr_3, and_3]; exact hps
    have htg : (ctrl >>> 5) &&& 7 = c.GEOIP2_DTYPE_PTR := by rw [shr_5, and_7]; exact ht
    have hext : (ctrl >>> 5) &&& 7 ≠ c.GEOIP2_DTYPE_EXT := by rw [htg]; exact hne
    have hty := fddecode_type_of_tag c mem ((wrapInt32 (gi.segments * gi.recbits * 2)).tdiv 8) ctrl (o + 1)
      hext
    rw [htg] at hty
    refine ⟨ctrl, hc, hfd, ?_⟩
    rw [fddecode_key_pointer_step c gi mem fuel o (o + 1) t ctrl hc hty
      (by rw [hps']; exact hfd) k', hps']
    constructor
    · rintro ⟨k, hk, rfl⟩
      exact ⟨k, hk, rfl, rfl, by simp only; omega⟩
    · rintro ⟨k, hk, h1, h2, h3⟩
      refine ⟨k, hk, ?_⟩
      cases k'
      simp only at h1 h2 h3
      simp only [GeoIP2_Decode_Key.mk.injEq]
      exact ⟨h1, h2, by omega⟩

/-! ## Concrete instances for the decoder theorems -/

/-- Witness of C4: a one-byte pointer at offset 0 whose target, offset 2, holds a value of
size 286. -/
theorem pointer_yields_target_key_witness :
    ((1 : Nat) ≠ 0 ∧ (0x20 >>> 5) &&& 7 = 1 ∧
      rd [0, 0, 0, 0, 0, 0, 0x20, 2, 0x5e, 0, 1] (6 + 0) = some 0x20 ∧
      decode_ptr [0, 0, 0, 0, 0, 0, 0x20, 2, 0x5e, 0, 1] 6 0x20 ((0x20 >>> 3) &&& 3) (0 + 1) =
        some 2) ∧
    _decode_key ⟨0, 1⟩ { recbits := 24, segments := 1, dataptr := 6 }
      [0, 0, 0, 0, 0, 0, 0x20, 2, 0x5e, 0, 1] 2 0 = .SUCCESS ⟨.AT 11, 286, 2⟩ ∧
    _fddecode_key ⟨0, 1⟩ { recbits := 24, segments := 1, dataptr := 6 }
      [0, 0, 0, 0, 0, 0, 0x20, 2, 0x5e, 0, 1] 2 0 = .SUCCESS ⟨.AT 11, 286, 2⟩ :=
  have key := pointer_yields_target_key ⟨0, 1⟩ { recbits := 24, segments := 1, dataptr := 6 }
    [0, 0, 0, 0, 0, 0, 0x20, 2, 0x5e, 0, 1] 1 0 2 0x20 ⟨.AT 11, 286, 2⟩ (by decide) (by decide)
  ⟨⟨by decide, by decide, by decide, by decide⟩,
    (key.1 (by decide) (by decide)).mpr ⟨⟨.AT 11, 286, 5 + 286⟩, by decide, rfl, rfl, by decide⟩,
    (key.2 (by decide) (by decide)).mpr ⟨⟨.AT 11, 286, 5 + 286⟩, by decide, rfl, rfl, by decide⟩⟩

/-- Witness of C6: the class-1 pointer to offset 3000. -/
theorem pointer_round_trip_witness :
    ((1 : Nat) < 8 ∧ (1 : Nat) ≠ 0 ∧ (1 : Nat) ≤ 3 ∧ ptr_range 1 3000 ∧
      Holds [0x28, 3, 184] (0 + 0) (encode_ptr 1 1 3000)) ∧
    ∃ ctrl, rd [0x28, 3, 184] (0 + 0) = some ctrl ∧
      decode_ptr [0x28, 3, 184] 0 ctrl 1 (0 + 1) = some 3000 :=
  have hh : Holds [0x28, 3, 184] (0 + 0) (encode_ptr 1 1 3000) :=
    holds_of_eq _ _ _ [] [0x28, 3, 184] [] rfl rfl (by decide)
  have hr : ptr_range 1 3000 := by
    unfold ptr_range
    decide
  have key := (pointer_round_trip ⟨0, 1⟩ {} [0x28, 3, 184] 0 0 1 3000 ⟨.NULL, 0, 0⟩ (by decide)
    (by decide) (by decide) hr (by decide)).1 hh
  ⟨⟨by decide, by decide, by decide, hr, hh⟩,
    key.elim fun ctrl h => ⟨ctrl, h.1, h.2.1⟩⟩

/-- Witness of C7: the boundary size 65821, the first of the three-byte escape. -/
theorem size_round_trip_witness :
    ((2 : Nat) < 8 ∧ (2 : Nat) ≠ 0 ∧ (2 : Nat) ≠ 1 ∧ (65821 : Nat) ≤ 16843036 ∧
      Holds [0, 0, 0, 0, 0, 0, 0x5f, 0, 0, 0] (6 + 0) (encode_size 2 65821)) ∧
    _decode_key ⟨0, 1⟩ { recbits := 24, segments := 1, dataptr := 6 }
      [0, 0, 0, 0, 0, 0, 0x5f, 0, 0, 0] 1 0 = .SUCCESS ⟨.AT 10, 65821, 65825⟩ ∧
    _fddecode_key ⟨0, 1⟩ { recbits := 24, segments := 1, dataptr := 6 }
      [0, 0, 0, 0, 0, 0, 0x5f, 0, 0, 0] 1 0 = .SUCCESS ⟨.AT 10, 65821, 65825⟩ :=
  have hh : Holds [0, 0, 0, 0, 0, 0, 0x5f, 0, 0, 0] (6 + 0) (encode_size 2 65821) :=
    holds_of_eq _ _ _ [0, 0, 0, 0, 0, 0] [0x5f, 0, 0, 0] [] rfl rfl (by decide)
  have key := size_round_trip ⟨0, 1⟩ { recbits := 24, segments := 1, dataptr := 6 }
    [0, 0, 0, 0, 0, 0, 0x5f, 0, 0, 0] 0 0 2 65821 (by decide) (by decide) (by decide)
    (by decide)
  ⟨⟨by decide, by decide, by decide, by decide, hh⟩, key.1 hh, key.2 hh⟩

/-- The boundary sizes 0, 28, 29, 284, 285, 65820 and 65821 on fixtures: the canonical
header of each, with type tag 2, decodes to that size in both decoders. -/
theorem size_boundaries_decode :
    ∀ s ∈ [0, 28, 29, 284, 285, 65820, 65821],
      (match _decode_key ⟨0, 1⟩ {} ((encode_size 2 s).map (fun b => Fin.ofNat b)) 1 0 with
        | .SUCCESS k => decide (k.size = (s : Int))
        | _ => false) = true ∧
      (match _fddecode_key ⟨0, 1⟩ {} ((encode_size 2 s).map (fun b => Fin.ofNat b)) 1 0 with
        | .SUCCESS k => decide (k.size = (s : Int))
        | _ => false) = true := by
  decide

/-- C6 fails as stated: the class-3 encoding of the target `2^31`, a 32-bit value stored
plain big-endian, is decoded to the target `-2^31`, because `new_offset` is an `int`; the
decoders then recurse at that negative offset. -/
theorem pointer_class3_above_int_max :
    Holds [0x38, 0x80, 0, 0, 0] 0 (encode_ptr 1 3 2147483648) ∧ ptr_range 3 2147483648 ∧
    decode_ptr [0x38, 0x80, 0, 0, 0] 0 0x38 3 1 = some (-2147483648) ∧
    fddecode_ptr [0x38, 0x80, 0, 0, 0] 0 0x38 3 1 = .SUCCESS (-2147483648) ∧
    _decode_key ⟨0, 1⟩ {} [0x38, 0x80, 0, 0, 0] 2 0 = .UNDEFINED ∧
    _fddecode_key ⟨0, 1⟩ {} [0x38, 0x80, 0, 0, 0] 2 0 = .IOERROR := by
  refine ⟨holds_of_eq _ _ _ [] [0x38, 0x80, 0, 0, 0] [] rfl rfl (by decide), ?_, by decide,
    by decide, by decide, by decide⟩
  unfold ptr_range
  decide

/-! ## C19: the result depends on the matched prefix only -/

theorem descend_congr (child : Int → Bool → Ret Int) (b1 b2 : Nat → Option Bool)
    (start : Int) :
    ∀ k, (∀ i, 1 ≤ i → i ≤ k → b1 i = b2 i) →
      descend child b1 start k = descend child b2 start k := by
  intro k
  induction k with
  | zero => intro _; rfl
  | succ k ih =>
    intro h
    simp only [descend]
    rw [ih (fun i h1 h2 => h i h1 (by omega)), h (k + 1) (by omega) (le_refl _)]

theorem leafAt_congr (child : Int → Bool → Ret Int) (b1 b2 : Nat → Option Bool)
    (segments start : Int) (k : Nat) (v : Int) (h : ∀ i, 1 ≤ i → i ≤ k → b1 i = b2 i) :
    LeafAt child b1 segments start k v ↔ LeafAt child b2 segments start k v := by
  unfold LeafAt
  rw [descend_congr child b1 b2 start k h]
  constructor
  · rintro ⟨h1, h2, h3⟩
    refine ⟨h1, h2, fun j hj hjk => ?_⟩
    rw [← descend_congr child b1 b2 start j (fun i h1 h2 => h i h1 (by omega))]
    exact h3 j hj hjk
  · rintro ⟨h1, h2, h3⟩
    refine ⟨h1, h2, fun j hj hjk => ?_⟩
    rw [descend_congr child b1 b2 start j (fun i h1 h2 => h i h1 (by omega))]
    exact h3 j hj hjk

theorem testBit_of_prefix (a a' n j : Nat) (h : a / 2 ^ n = a' / 2 ^ n) (hj : n ≤ j) :
    a.testBit j = a'.testBit j := by
  obtain ⟨i, rfl⟩ : ∃ i, j = n + i := ⟨j - n, by omega⟩
  rw [← Nat.testBit_shiftRight, ← Nat.testBit_shiftRight, Nat.shiftRight_eq_div_pow,
    Nat.shiftRight_eq_div_pow, h]

/-- C19: if the buffer-backed IPv4 lookup of address `a` succeeds with netmask `n`, the
lookup of every address `a'` that agrees with `a` on its `n` most significant bits (the
same quotient by `2^(32 - n)`) succeeds with the same netmask and the same offset. -/
theorem lookup_prefix_match (gi : Handle) (mem : List U8) (a a' n : Nat) (offset : Int)
    (h : _lookup_by_ipnum gi mem a = .SUCCESS ⟨(n : Int), offset⟩)
    (hagree : a / 2 ^ (32 - n) = a' / 2 ^ (32 - n)) :
    _lookup_by_ipnum gi mem a' = .SUCCESS ⟨(n : Int), offset⟩ := by
  have hrl : (gi.recbits * 2).tdiv 8 = 6 ∨ (gi.recbits * 2).tdiv 8 = 7 ∨
      (gi.recbits * 2).tdiv 8 = 8 := by
    by_contra hc
    push_neg at hc
    simp [_lookup_by_ipnum, hc.1, hc.2.1, hc.2.2] at h
  rw [lookup_by_ipnum_success_iff gi mem a _ hrl] at h
  rw [lookup_by_ipnum_success_iff gi mem a' _ hrl]
  obtain ⟨k, v, h1, h2, hleaf, heq⟩ := h
  have hk : k = n := by
    have := congrArg GeoIP2_Lookup.netmask heq
    simp only at this
    omega
  subst hk
  refine ⟨k, v, h1, h2, ?_, heq⟩
  rw [← leafAt_congr _ (bit_v4 a) (bit_v4 a') _ _ k v]
  · exact hleaf
  · intro i hi1 hi2
    simp only [bit_v4, Option.some.injEq]
    exact testBit_of_prefix a a' (32 - k) (32 - i) hagree (by omega)

/-- Witness of C19: the addresses `128.0.0.0` and `255.255.255.255` share their first
bit and reach the same leaf after one level. -/
theorem lookup_prefix_match_witness :
    (_lookup_by_ipnum { recbits := 24, segments := 1 } [0, 0, 5, 0, 0, 9] 0x80000000 =
        .SUCCESS ⟨((1 : Nat) : Int), 8⟩ ∧
      0x80000000 / 2 ^ (32 - 1) = 0xffffffff / 2 ^ (32 - 1)) ∧
    _lookup_by_ipnum { recbits := 24, segments := 1 } [0, 0, 5, 0, 0, 9] 0xffffffff =
      .SUCCESS ⟨((1 : Nat) : Int), 8⟩ :=
  ⟨⟨by decide, by decide⟩,
    lookup_prefix_match { recbits := 24, segments := 1 } [0, 0, 5, 0, 0, 9] 0x80000000
      0xffffffff 1 8 (by decide) (by decide)⟩

/-! ## C11: the address bits of an IPv6 walk -/

/-- The bit test of the walkers at loop variable `depth = d`, for `d` up to 127, is the
`(128 - d)`-th most significant bit of the address. -/
theorem chkbit_eq_addr_bit (ipnum : geoipv6_t) (d : Nat) (hd : d ≤ 127) :
    GEOIP_CHKBIT_V6 d ipnum = some (addr_bit ipnum (128 - d)) := by
  unfold GEOIP_CHKBIT_V6 addr_bit
  have hx : (127 + 18446744073709551616 - d % 18446744073709551616) % 18446744073709551616 =
      127 - d := by omega
  simp only [hx, Nat.shiftRight_eq_div_pow]
  have h16 : (127 - d) / 2 ^ 3 < 16 := by
    norm_num
    omega
  rw [dif_pos h16]
  have hm : (18446744073709551615 - (127 - d)) &&& 7 = 7 - (128 - d - 1) % 8 := by
    rw [and_7]
    omega
  have hi : (⟨(127 - d) / 2 ^ 3, h16⟩ : Fin 16) =
      ⟨(128 - d - 1) / 8 % 16, Nat.mod_lt _ (by decide)⟩ := by
    apply Fin.ext
    show (127 - d) / 2 ^ 3 = (128 - d - 1) / 8 % 16
    norm_num
    omega
  rw [hm, hi, Nat.shiftLeft_eq, Nat.one_mul, and_two_pow_ne_zero]

/-- C11 (as amended): for every handle with `0 ≤ depth ≤ 128` and every 128-bit address,
the buffer-backed IPv6 lookup iterates at most `handle.depth` levels and at level `k`
(counting from 1) branches on the `(128 - handle.depth + k)`-th most significant bit of the
address: it walks the low `handle.depth` bits of the address, most significant first.  It
succeeds exactly at the first such level whose selected record reaches `segment_count`. -/
theorem lookup_v6_bits (gi : Handle) (mem : List U8) (ipnum : geoipv6_t) (l : GeoIP2_Lookup)
    (hrl : (gi.recbits * 2).tdiv 8 = 6 ∨ (gi.recbits * 2).tdiv 8 = 7 ∨
      (gi.recbits * 2).tdiv 8 = 8)
    (hd : gi.depth ≤ 128) :
    _lookup_by_ipnum_v6 gi mem ipnum = .SUCCESS l ↔
      ∃ (k : Nat) (v : Int), 1 ≤ k ∧ (k : Int) ≤ gi.depth ∧
        LeafAt (rec_mem ((gi.recbits * 2).tdiv 8) mem)
          (fun i => some (addr_bit ipnum (128 - gi.depth.toNat + i))) gi.segments 0 k v ∧
        l = ⟨128 - gi.depth + (k : Int), v - gi.segments⟩ := by
  rw [lookup_by_ipnum_v6_eq_walk gi mem ipnum hrl, walk_success_iff]
  have hbits : ∀ k : Nat, k ≤ gi.depth.toNat → ∀ i, 1 ≤ i → i ≤ k →
      (fun i => GEOIP_CHKBIT_V6 (gi.depth.toNat - i) ipnum) i =
        (fun i => some (addr_bit ipnum (128 - gi.depth.toNat + i))) i := by
    intro k hk i hi1 hi2
    show GEOIP_CHKBIT_V6 (gi.depth.toNat - i) ipnum = _
    rw [chkbit_eq_addr_bit ipnum _ (by omega)]
    congr 2
    omega
  constructor
  · rintro ⟨k, v, h1, h2, h3, rfl⟩
    refine ⟨k, v, h1, by omega, ?_, ?_⟩
    · rw [← leafAt_congr _ _ _ _ _ k v (hbits k h2)]
      exact h3
    · congr 1
      omega
  · rintro ⟨k, v, h1, h2, h3, rfl⟩
    have hk : k ≤ gi.depth.toNat := by omega
    refine ⟨k, v, h1, hk, ?_, ?_⟩
    · rw [leafAt_congr _ _ _ _ _ k v (hbits k hk)]
      exact h3
    · congr 1
      omega

/-- Witness of C11: a depth-32 database, an address whose low 32 bits start with a one
bit. -/
theorem lookup_v6_bits_witness :
    (((24 * 2 : Int).tdiv 8 = 6 ∨ (24 * 2 : Int).tdiv 8 = 7 ∨ (24 * 2 : Int).tdiv 8 = 8) ∧
      (32 : Int) ≤ 128) ∧
    (_lookup_by_ipnum_v6 { recbits := 24, segments := 1, depth := 32 } [0, 0, 5, 0, 0, 9]
        ⟨fun i => if i = 12 then 0x80 else 0⟩ = .SUCCESS ⟨97, 8⟩ ↔
      ∃ (k : Nat) (v : Int), 1 ≤ k ∧ (k : Int) ≤ 32 ∧
        LeafAt (rec_mem ((24 * 2 : Int).tdiv 8) [0, 0, 5, 0, 0, 9])
          (fun i => some (addr_bit ⟨fun i => if i = 12 then 0x80 else 0⟩
            (128 - (32 : Int).toNat + i))) 1 0 k v ∧
        (⟨97, 8⟩ : GeoIP2_Lookup) = ⟨128 - 32 + (k : Int), v - 1⟩) :=
  ⟨⟨by decide, by decide⟩,
    lookup_v6_bits { recbits := 24, segments := 1, depth := 32 } [0, 0, 5, 0, 0, 9]
      ⟨fun i => if i = 12 then 0x80 else 0⟩ ⟨97, 8⟩ (by decide) (by decide)⟩

/-- C11 fails as stated: on a database of depth 32, level 1 does not branch on the most
significant bit of the address (bit 7 of byte 0) but on bit 7 of byte 12.  The address
with only the former set takes the left record, the address with only the latter set the
right record. -/
theorem lookup_v6_level1_not_msb :
    addr_bit ⟨fun i => if i = 0 then 0x80 else 0⟩ 1 = true ∧
    GEOIP_CHKBIT_V6 (32 - 1) ⟨fun i => if i = 0 then 0x80 else 0⟩ = some false ∧
    _lookup_by_ipnum_v6 { recbits := 24, segments := 1, depth := 32 } [0, 0, 5, 0, 0, 9]
      ⟨fun i => if i = 0 then 0x80 else 0⟩ = .SUCCESS ⟨97, 4⟩ ∧
    _lookup_by_ipnum_v6 { recbits := 24, segments := 1, depth := 32 } [0, 0, 5, 0, 0, 9]
      ⟨fun i => if i = 12 then 0x80 else 0⟩ = .SUCCESS ⟨97, 8⟩ := by
  refine ⟨by decide, by decide, by decide, by decide⟩

/-! ## C12: the location returned in file mode -/

theorem fddecode_type_offset {c : DTypes} {file : List U8} {segments : Int} {ctrl : Nat}
    {offset o' : Int} {type : Nat}
    (h : fddecode_type c file segments ctrl offset = .SUCCESS (type, o')) :
    o' = offset + (if ctrl / 32 % 8 = c.GEOIP2_DTYPE_EXT then 1 else 0) := by
  unfold fddecode_type at h
  simp only [shr_5, and_7] at h
  by_cases he : ctrl / 32 % 8 = c.GEOIP2_DTYPE_EXT
  · simp only [he, if_true] at h ⊢
    cases hr : _read file 1 (segments + offset) with
    | SUCCESS b =>
      simp only [hr] at h
      cases hb : rd b 0 with
      | none => simp [hb] at h
      | some b0 =>
        simp only [hb, Ret.SUCCESS.injEq, Prod.mk.injEq] at h
        omega
    | _ => simp [hr] at h
  · simp only [he, if_false, Ret.SUCCESS.injEq, Prod.mk.injEq] at h ⊢
    omega

/-- C12 (as amended): in file mode, at an offset `o` whose control byte `_fddecode_key`
resolves to a type other than the pointer type and whose resolved size is not zero, the
location returned is the data-section origin, as line 109 computes it in `int`, plus the
offset of the first payload byte relative to that origin: an absolute file position.  The
origin is `segment_count * record_bits * 2 / 8` whenever that product is in `0 .. 2^31 - 1`. -/
theorem fd_location_is_file_position (c : DTypes) (gi : Handle) (file : List U8) (fuel : Nat)
    (o o' : Int) (ctrl type size : Nat)
    (hctrl : rd file ((wrapInt32 (gi.segments * gi.recbits * 2)).tdiv 8 + o) = some ctrl)
    (hty : fddecode_type c file ((wrapInt32 (gi.segments * gi.recbits * 2)).tdiv 8) ctrl (o + 1) =
      .SUCCESS (type, o'))
    (hdirect : type ≠ c.GEOIP2_DTYPE_PTR)
    (hsize : spec_size file ((wrapInt32 (gi.segments * gi.recbits * 2)).tdiv 8 +
      (o + 1 + (if ctrl / 32 % 8 = c.GEOIP2_DTYPE_EXT then 1 else 0))) ctrl = some size)
    (hnz : size ≠ 0) :
    _fddecode_key c gi file (fuel + 1) o = .SUCCESS
      ⟨.AT ((wrapInt32 (gi.segments * gi.recbits * 2)).tdiv 8 + (o + (header_len c ctrl : Nat))),
        (size : Int), o + (header_len c ctrl : Nat) + (size : Int)⟩ ∧
    (0 ≤ gi.segments * gi.recbits * 2 → gi.segments * gi.recbits * 2 < 2147483648 →
      (wrapInt32 (gi.segments * gi.recbits * 2)).tdiv 8 = gi.segments * gi.recbits * 2 / 8) := by
  refine ⟨?_, fun h0 h1 => by
    rw [wrapInt32_of_range (by omega) h1, Int.tdiv_eq_ediv h0 (by decide)]⟩
  have ho' := fddecode_type_offset hty
  rw [← ho'] at hsize
  have hlen : o + (header_len c ctrl : Nat) = o' + (size_bytes ctrl : Int) := by
    unfold header_len
    rw [ho']
    split <;> push_cast <;> omega
  obtain ⟨b, hb, hb0⟩ := read1_of_rd hctrl
  have hs : ¬ ((size : Int) = 0) := by omega
  simp only [_fddecode_key, hb, hb0, hty, hdirect, if_false,
    fddecode_size_of_spec file _ ctrl o' size hsize, hlen, hs]

/-- Witness of C12: a one-byte string at offset 0 of a data section that starts at file
position 6. -/
theorem fd_location_is_file_position_witness :
    (rd [0, 0, 0, 0, 0, 0, 0x41, 7] ((wrapInt32 (1 * 24 * 2)).tdiv 8 + 0) = some 0x41 ∧
      fddecode_type ⟨0, 1⟩ [0, 0, 0, 0, 0, 0, 0x41, 7] ((wrapInt32 (1 * 24 * 2)).tdiv 8) 0x41 (0 + 1) =
        .SUCCESS (2, 1) ∧
      (2 : Nat) ≠ 1 ∧
      spec_size [0, 0, 0, 0, 0, 0, 0x41, 7] ((wrapInt32 (1 * 24 * 2)).tdiv 8 + (0 + 1 + 0)) 0x41 =
        some 1 ∧
      (1 : Nat) ≠ 0) ∧
    _fddecode_key ⟨0, 1⟩ { recbits := 24, segments := 1 } [0, 0, 0, 0, 0, 0, 0x41, 7] 1 0 =
      .SUCCESS ⟨.AT 7, 1, 2⟩ ∧
    (wrapInt32 (1 * 24 * 2)).tdiv 8 = 1 * 24 * 2 / 8 :=
  have h := fd_location_is_file_position ⟨0, 1⟩ { recbits := 24, segments := 1 }
    [0, 0, 0, 0, 0, 0, 0x41, 7] 0 0 1 0x41 2 1 (by decide) (by decide) (by decide) (by decide)
    (by decide)
  ⟨⟨by decide, by decide, by decide, by decide, by decide⟩, h.1, h.2 (by decide) (by decide)⟩

/-- C12 fails as stated: with a 6-byte trie region, the one-byte string at offset 0 of the
data section has its payload at offset 1 relative to the data-section origin, and
`_fddecode_key` returns the location 7, the absolute file position. -/
theorem fd_location_not_relative :
    _fddecode_key ⟨0, 1⟩ { recbits := 24, segments := 1 } [0, 0, 0, 0, 0, 0, 0x41, 7] 1 0 =
      .SUCCESS ⟨.AT 7, 1, 2⟩ ∧
    (0 : Int) + (header_len ⟨0, 1⟩ 0x41 : Nat) = 1 ∧
    _fddecode_key ⟨0, 1⟩ { recbits := 24, segments := 1 } [0, 0, 0, 0, 0, 0, 0x41, 7] 1 0 ≠
      .SUCCESS ⟨.AT 1, 1, 2⟩ := by
  refine ⟨by decide, by decide, by decide⟩

/-! ## C13: pointer chains -/

/-- One step of `_decode_key` at a pointer, as an equation. -/
theorem decode_key_pointer_eq (c : DTypes) (gi : Handle) (mem : List U8) (fuel : Nat)
    (o t : Int) (ctrl : Nat)
    (hne : c.GEOIP2_DTYPE_PTR ≠ c.GEOIP2_DTYPE_EXT)
    (hctrl : rd mem (gi.dataptr + o) = some ctrl)
    (htag : (ctrl >>> 5) &&& 7 = c.GEOIP2_DTYPE_PTR)
    (ht : decode_ptr mem gi.dataptr ctrl ((ctrl >>> 3) &&& 3) (o + 1) = some t) :
    _decode_key c gi mem (fuel + 1) o =
      match _decode_key c gi mem fuel t with
      | .SUCCESS ret_key =>
        .SUCCESS { ret_key with
          new_offset := o + (1 : Int) + (((ctrl >>> 3) &&& 3 : Nat) : Int) + (1 : Int) }
      | r => r := by
  have hext : (ctrl >>> 5) &&& 7 ≠ c.GEOIP2_DTYPE_EXT := by rw [htag]; exact hne
  have hty := decode_type_of_tag c mem gi.dataptr ctrl (o + 1) hext
  rw [htag] at hty
  simp only [_decode_key, hctrl, hty, ht, if_true]

/-- One step of `_fddecode_key` at a pointer, as an equation. -/
theorem fddecode_key_pointer_eq (c : DTypes) (gi : Handle) (file : List U8) (fuel : Nat)
    (o t : Int) (ctrl : Nat)
    (hne : c.GEOIP2_DTYPE_PTR ≠ c.GEOIP2_DTYPE_EXT)
    (hctrl : rd file ((wrapInt32 (gi.segments * gi.recbits * 2)).tdiv 8 + o) = some ctrl)
    (htag : (ctrl >>> 5) &&& 7 = c.GEOIP2_DTYPE_PTR)
    (ht : fddecode_ptr file ((wrapInt32 (gi.segments * gi.recbits * 2)).tdiv 8) ctrl ((ctrl >>> 3) &&& 3)
      (o + 1) = .SUCCESS t) :
    _fddecode_key c gi file (fuel + 1) o =
      match _fddecode_key c gi file fuel t with
      | .SUCCESS ret_key =>
        .SUCCESS { ret_key with
          new_offset := o + (1 : Int) + (((ctrl >>> 3) &&& 3 : Nat) : Int) + (1 : Int) }
      | .NOFUEL => .NOFUEL
      | .UNDEFINED => .UNDEFINED
      | _ => .IOERROR := by
  have hext : (ctrl >>> 5) &&& 7 ≠ c.GEOIP2_DTYPE_EXT := by rw [htag]; exact hne
  have hty := fddecode_type_of_tag c file ((wrapInt32 (gi.segments * gi.recbits * 2)).tdiv 8) ctrl (o + 1)
    hext
  rw [htag] at hty
  obtain ⟨b, hb, hb0⟩ := read1_of_rd hctrl
  simp only [_fddecode_key, hb, hb0, hty, ht, if_true]

/-- On a two-pointer cycle the buffer-backed decoder is still recursing at every depth. -/
theorem decode_key_cycle (c : DTypes) (gi : Handle) (mem : List U8) (a b : Int)
    (ctrlA ctrlB : Nat) (hne : c.GEOIP2_DTYPE_PTR ≠ c.GEOIP2_DTYPE_EXT)
    (hA : rd mem (gi.dataptr + a) = some ctrlA)
    (htA : (ctrlA >>> 5) &&& 7 = c.GEOIP2_DTYPE_PTR)
    (hAB : decode_ptr mem gi.dataptr ctrlA ((ctrlA >>> 3) &&& 3) (a + 1) = some b)
    (hB : rd mem (gi.dataptr + b) = some ctrlB)
    (htB : (ctrlB >>> 5) &&& 7 = c.GEOIP2_DTYPE_PTR)
    (hBA : decode_ptr mem gi.dataptr ctrlB ((ctrlB >>> 3) &&& 3) (b + 1) = some a) :
    ∀ fuel, _decode_key c gi mem fuel a = .NOFUEL ∧ _decode_key c gi mem fuel b = .NOFUEL := by
  intro fuel
  induction fuel with
  | zero => exact ⟨rfl, rfl⟩
  | succ fuel ih =>
    rw [decode_key_pointer_eq c gi mem fuel a b ctrlA hne hA htA hAB,
      decode_key_pointer_eq c gi mem fuel b a ctrlB hne hB htB hBA, ih.1, ih.2]
    exact ⟨rfl, rfl⟩

/-- On a two-pointer cycle the positional-read decoder is still recursing at every depth. -/
theorem fddecode_key_cycle (c : DTypes) (gi : Handle) (file : List U8) (a b : Int)
    (ctrlA ctrlB : Nat) (hne : c.GEOIP2_DTYPE_PTR ≠ c.GEOIP2_DTYPE_EXT)
    (hA : rd file ((wrapInt32 (gi.segments * gi.recbits * 2)).tdiv 8 + a) = some ctrlA)
    (htA : (ctrlA >>> 5) &&& 7 = c.GEOIP2_DTYPE_PTR)
    (hAB : fddecode_ptr file ((wrapInt32 (gi.segments * gi.recbits * 2)).tdiv 8) ctrlA
      ((ctrlA >>> 3) &&& 3) (a + 1) = .SUCCESS b)
    (hB : rd file ((wrapInt32 (gi.segments * gi.recbits * 2)).tdiv 8 + b) = some ctrlB)
    (htB : (ctrlB >>> 5) &&& 7 = c.GEOIP2_DTYPE_PTR)
    (hBA : fddecode_ptr file ((wrapInt32 (gi.segments * gi.recbits * 2)).tdiv 8) ctrlB
      ((ctrlB >>> 3) &&& 3) (b + 1) = .SUCCESS a) :
    ∀ fuel, _fddecode_key c gi file fuel a = .NOFUEL ∧
      _fddecode_key c gi file fuel b = .NOFUEL := by
  intro fuel
  induction fuel with
  | zero => exact ⟨rfl, rfl⟩
  | succ fuel ih =>
    rw [fddecode_key_pointer_eq c gi file fuel a b ctrlA hne hA htA hAB,
      fddecode_key_pointer_eq c gi file fuel b a ctrlB hne hB htB hBA, ih.1, ih.2]
    exact ⟨rfl, rfl⟩

/-- C13 (as amended): the decoders enforce no bound on the length of a pointer chain.  On
a data section in which the pointer at offset `a` has target `b` and the pointer at `b` has
target `a`, decoding at `a` returns nothing, neither a key nor a failure: whatever depth of
recursion is allowed, both `_decode_key` and `_fddecode_key` are still following the
cycle. -/
theorem cyclic_chain_never_returns (c : DTypes) (gi : Handle) (mem : List U8) (a b : Int)
    (ctrlA ctrlB : Nat) (hne : c.GEOIP2_DTYPE_PTR ≠ c.GEOIP2_DTYPE_EXT)
    (horigin : gi.dataptr = (wrapInt32 (gi.segments * gi.recbits * 2)).tdiv 8)
    (hA : rd mem (gi.dataptr + a) = some ctrlA)
    (htA : (ctrlA >>> 5) &&& 7 = c.GEOIP2_DTYPE_PTR)
    (hAB : decode_ptr mem gi.dataptr ctrlA ((ctrlA >>> 3) &&& 3) (a + 1) = some b)
    (hB : rd mem (gi.dataptr + b) = some ctrlB)
    (htB : (ctrlB >>> 5) &&& 7 = c.GEOIP2_DTYPE_PTR)
    (hBA : decode_ptr mem gi.dataptr ctrlB ((ctrlB >>> 3) &&& 3) (b + 1) = some a) :
    ∀ fuel, _decode_key c gi mem fuel a = .NOFUEL ∧ _fddecode_key c gi mem fuel a = .NOFUEL := by
  intro fuel
  have h3 : ∀ x : Nat, (x >>> 3) &&& 3 ≤ 3 := by
    intro x
    rw [and_3]
    omega
  refine ⟨(decode_key_cycle c gi mem a b ctrlA ctrlB hne hA htA hAB hB htB hBA fuel).1, ?_⟩
  rw [horigin] at hA hB hAB hBA
  exact (fddecode_key_cycle c gi mem a b ctrlA ctrlB hne hA htA
    (fddecode_ptr_of_decode mem _ ctrlA _ (a + 1) b (h3 ctrlA) hAB) hB htB
    (fddecode_ptr_of_decode mem _ ctrlB _ (b + 1) a (h3 ctrlB) hBA) fuel).1

/-- Witness of C13: the pointer at offset 0 points to offset 2, the pointer at offset 2
points back to offset 0. -/
theorem cyclic_chain_never_returns_witness :
    ((1 : Nat) ≠ 0 ∧ (0 : Int) = (wrapInt32 (0 * 0 * 2)).tdiv 8 ∧
      rd [0x20, 2, 0x20, 0] (0 + 0) = some 0x20 ∧ (0x20 >>> 5) &&& 7 = 1 ∧
      decode_ptr [0x20, 2, 0x20, 0] 0 0x20 ((0x20 >>> 3) &&& 3) (0 + 1) = some 2 ∧
      rd [0x20, 2, 0x20, 0] (0 + 2) = some 0x20 ∧
      decode_ptr [0x20, 2, 0x20, 0] 0 0x20 ((0x20 >>> 3) &&& 3) (2 + 1) = some 0) ∧
    (_decode_key ⟨0, 1⟩ {} [0x20, 2, 0x20, 0] 1000 0 = .NOFUEL ∧
      _fddecode_key ⟨0, 1⟩ {} [0x20, 2, 0x20, 0] 1000 0 = .NOFUEL) :=
  ⟨⟨by decide, by decide, by decide, by decide, by decide, by decide, by decide⟩,
    cyclic_chain_never_returns ⟨0, 1⟩ {} [0x20, 2, 0x20, 0] 0 2 0x20 0x20 (by decide)
      (by decide) (by decide) (by decide) (by decide) (by decide) (by decide) (by decide) 1000⟩

/-- C13 fails as stated: on the data section `20 02 20 00` (the pointer at offset 0 points
to offset 2, the pointer at offset 2 points back to offset 0) no depth of recursion makes
either decoder return, with a failure or otherwise. -/
theorem cyclic_chain_reports_no_failure :
    ¬ (∃ fuel, _decode_key ⟨0, 1⟩ {} [0x20, 2, 0x20, 0] fuel 0 ≠ .NOFUEL) ∧
    ¬ (∃ fuel, _fddecode_key ⟨0, 1⟩ {} [0x20, 2, 0x20, 0] fuel 0 ≠ .NOFUEL) := by
  constructor
  · rintro ⟨fuel, h⟩
    exact h (decode_key_cycle ⟨0, 1⟩ {} [0x20, 2, 0x20, 0] 0 2 0x20 0x20 (by decide)
      (by decide) (by decide) (by decide) (by decide) (by decide) (by decide) fuel).1
  · rintro ⟨fuel, h⟩
    exact h (fddecode_key_cycle ⟨0, 1⟩ {} [0x20, 2, 0x20, 0] 0 2 0x20 0x20 (by decide)
      (by decide) (by decide) (by decide) (by decide) (by decide) (by decide) fuel).1

/-! ## C14, C15: dotted-decimal parsing -/

theorem addr_char_step (ch : U8) (d octet ipnum : Nat) (i : Int) (rest : List U8)
    (hv : ch.val = 48 + d) (hd : d ≤ 9) (ho : octet * 10 + d < 4294967296) :
    _addr_to_num_loop (ch :: rest) octet ipnum i =
      _addr_to_num_loop rest (octet * 10 + d) ipnum i := by
  have h0 : ¬ (ch.val = 0) := by omega
  have h46 : ¬ (ch.val = 46) := by omega
  have hc : (ch.val + 4294967296 - 48) % 4294967296 = d := by omega
  have ho8 : (octet <<< 3) = octet * 8 := by
    rw [Nat.shiftLeft_eq]
  have hoct : ((((octet * 8) % 4294967296 + octet) % 4294967296 + octet) % 4294967296 + d) %
      4294967296 = octet * 10 + d := by omega
  have hd9 : ¬ (d > 9) := by omega
  rw [_addr_to_num_loop]
  simp only [h0, h46, if_false, hc, ho8, hoct, hd9]

theorem addr_digit_step (d octet ipnum : Nat) (i : Int) (rest : List U8) (hd : d ≤ 9)
    (ho : octet * 10 + d < 4294967296) :
    _addr_to_num_loop (digit d :: rest) octet ipnum i =
      _addr_to_num_loop rest (octet * 10 + d) ipnum i := by
  have hv : (digit d).val = 48 + d := by
    show (48 + d) % 256 = 48 + d
    omega
  exact addr_char_step (digit d) d octet ipnum i rest hv hd ho

theorem addr_dec_step (n ipnum : Nat) (i : Int) (rest : List U8) (hn : n ≤ 255) :
    _addr_to_num_loop (dec n ++ rest) 0 ipnum i = _addr_to_num_loop rest n ipnum i := by
  unfold dec
  by_cases h1 : n < 10
  · simp only [h1, if_true, List.singleton_append]
    rw [addr_digit_step n 0 ipnum i rest (by omega) (by omega)]
    congr 1
    omega
  by_cases h2 : n < 100
  · simp only [h1, h2, if_true, if_false, List.cons_append, List.nil_append]
    rw [addr_digit_step _ 0 ipnum i _ (by omega) (by omega),
      addr_digit_step _ _ ipnum i rest (by omega) (by omega)]
    congr 1
    omega
  · simp only [h1, h2, if_false, List.cons_append, List.nil_append]
    rw [addr_digit_step _ 0 ipnum i _ (by omega) (by omega),
      addr_digit_step _ _ ipnum i _ (by omega) (by omega),
      addr_digit_step _ _ ipnum i rest (by omega) (by omega)]
    congr 1
    omega

theorem addr_dot_char_step (ch : U8) (octet ipnum : Nat) (i : Int) (rest : List U8)
    (hv : ch.val = 46) (ho : octet ≤ 255) (hi : ipnum * 256 + octet < 4294967296) :
    _addr_to_num_loop (ch :: rest) octet ipnum i =
      _addr_to_num_loop rest 0 (ipnum * 256 + octet) (i - 1) := by
  have h0 : ¬ (ch.val = 0) := by omega
  have ho' : ¬ (octet > 255) := by omega
  have hs : ipnum <<< 8 = ipnum * 256 := by
    rw [Nat.shiftLeft_eq]
  have hm : (ipnum * 256 % 4294967296 + octet) % 4294967296 = ipnum * 256 + octet := by omega
  rw [_addr_to_num_loop]
  simp only [hv, if_false, if_true, ho', hs, hm]
  rfl

theorem addr_dot_step (octet ipnum : Nat) (i : Int) (rest : List U8) (ho : octet ≤ 255)
    (hi : ipnum * 256 + octet < 4294967296) :
    _addr_to_num_loop (46 :: rest) octet ipnum i =
      _addr_to_num_loop rest 0 (ipnum * 256 + octet) (i - 1) :=
  addr_dot_char_step 46 octet ipnum i rest (by decide) ho hi

/-- C14: for every four octets `a`, `b`, `c`, `d` in `0..255`, `_addr_to_num` applied to
their canonical decimal renderings joined by three dots returns
`a * 2^24 + b * 2^16 + c * 2^8 + d`. -/
theorem addr_to_num_dotted (a b c d : Nat) (ha : a ≤ 255) (hb : b ≤ 255) (hc : c ≤ 255)
    (hd : d ≤ 255) :
    _addr_to_num (dotted a b c d) = a * 2 ^ 24 + b * 2 ^ 16 + c * 2 ^ 8 + d := by
  unfold _addr_to_num dotted
  rw [addr_dec_step a 0 3 _ ha, addr_dot_step a 0 3 _ ha (by omega),
    addr_dec_step b _ _ _ hb, addr_dot_step b _ _ _ hb (by omega),
    addr_dec_step c _ _ _ hc, addr_dot_step c _ _ _ hc (by omega)]
  have hlast := addr_dec_step d (((0 * 256 + a) * 256 + b) * 256 + c) (3 - 1 - 1 - 1) [] hd
  rw [List.append_nil] at hlast
  rw [hlast]
  have hs : ∀ x : Nat, x <<< 8 = x * 256 := by
    intro x
    rw [Nat.shiftLeft_eq]
  have hi : ¬ ((3 : Int) - 1 - 1 - 1 ≠ 0) := by omega
  have hd' : ¬ (d > 255) := by omega
  simp only [_addr_to_num_loop, hs, hi, hd', or_self, if_false]
  omega

/-- Witness of C14: the text `1.2.3.4`. -/
theorem addr_to_num_dotted_witness :
    ((1 : Nat) ≤ 255 ∧ (2 : Nat) ≤ 255 ∧ (3 : Nat) ≤ 255 ∧ (4 : Nat) ≤ 255 ∧
      dotted 1 2 3 4 = text "1.2.3.4") ∧
    _addr_to_num (dotted 1 2 3 4) = 1 * 2 ^ 24 + 2 * 2 ^ 16 + 3 * 2 ^ 8 + 4 :=
  ⟨⟨by decide, by decide, by decide, by decide, by decide⟩,
    addr_to_num_dotted 1 2 3 4 (by decide) (by decide) (by decide) (by decide)⟩

/-- The fixtures of the specification: `1.2.3.4` is `0x01020304`; `256.0.0.1` and `1.2.3`
give the zero address. -/
theorem addr_to_num_fixtures :
    _addr_to_num (text "1.2.3.4") = 0x01020304 ∧ _addr_to_num (text "256.0.0.1") = 0 ∧
    _addr_to_num (text "1.2.3") = 0 := by
  refine ⟨by decide, by decide, by decide⟩

set_option maxRecDepth 1000000 in
/-- The rendering `dec` is the standard decimal representation of every octet. -/
theorem dec_eq_repr : ∀ n : Fin 256, dec n.val = text (Nat.repr n.val) := by
  decide

/-- C15: the text `4294967296.0.0.1` is made of digits and dots and its first field denotes
`2^32 > 255`, yet `_addr_to_num` returns the address `0.0.0.1`: the field is accumulated in
a `U32` and wraps to 0 before the test `octet > 255`. -/
theorem addr_to_num_accepts_wrapped_octet :
    field_value (text "4294967296") = 4294967296 ∧
    _addr_to_num (text "4294967296.0.0.1") = 1 ∧
    _addr_to_num (text "4294967296.0.0.1") ≠ 0 := by
  refine ⟨by decide, by decide, by decide⟩

/-! ## The metadata loader on small files -/

/-- The loader and `GeoIP2_open` on a 26-byte database header and on a 3-byte file. -/
theorem init_examples :
    (_init calloc_world (some (marker ++ [0, 2, 24, 32, 0, 1, 0, 0, 0, 0, 0, 3])) 5 true 0
        true).1 = .SUCCESS () ∧
    (GeoIP2_open (some (marker ++ [0, 2, 24, 32, 0, 1, 0, 0, 0, 0, 0, 3])) 5 true 0
        false).1 =
      some
        { flags := 0, fd := 5, file_format := 2, recbits := 24, depth := 32,
          database_type := 1, minor_database_type := 0, segments := 3, dataptr := 18 } ∧
    (GeoIP2_open (some [1, 2, 3]) 5 true 0 false).2.fd_open = false ∧
    (GeoIP2_open (some [1, 2, 3]) 5 true 0 true).2.fd_open = true := by
  refine ⟨by decide, by decide, by decide, by decide⟩

/-! ## The marker search -/

theorem memmem_eq_none_iff (needle : List U8) :
    ∀ hay : List U8, memmem hay needle = none ↔ ¬ needle <:+: hay := by
  intro hay
  induction hay with
  | nil =>
    unfold memmem
    by_cases h : needle.isPrefixOf [] = true
    · simp only [h, if_true]
      have := List.isPrefixOf_iff_prefix.mp h
      simp [this.isInfix]
    · simp only [h]
      have hn : ¬ needle <+: [] := fun hp => h (List.isPrefixOf_iff_prefix.mpr hp)
      simp only [List.prefix_nil] at hn
      simp [hn]
  | cons a t ih =>
    unfold memmem
    rw [List.infix_cons_iff]
    by_cases h : needle.isPrefixOf (a :: t) = true
    · simp only [h, if_true]
      have := List.isPrefixOf_iff_prefix.mp h
      simp [this]
    · have hn : ¬ needle <+: a :: t := fun hp => h (List.isPrefixOf_iff_prefix.mpr hp)
      simp only [h, Bool.false_eq_true, if_false, Option.map_eq_none', hn, false_or]
      exact ih

/-- The search finds an occurrence that has no occurrence starting before it. -/
theorem memmem_first (needle : List U8) (hne : needle ≠ []) :
    ∀ (pre tail : List U8), ¬ needle <:+: pre ++ needle.dropLast →
      memmem (pre ++ needle ++ tail) needle = some pre.length := by
  intro pre
  induction pre with
  | nil =>
    intro tail _
    obtain ⟨a, t, rfl⟩ := List.exists_cons_of_ne_nil hne
    have hp : (a :: t).isPrefixOf (a :: (t ++ tail)) = true :=
      List.isPrefixOf_iff_prefix.mpr ⟨tail, rfl⟩
    show memmem (a :: (t ++ tail)) (a :: t) = some 0
    rw [memmem, if_pos hp]
  | cons a pre ih =>
    intro tail hfirst
    have hlen : needle.dropLast.length + 1 = needle.length := by
      rw [List.length_dropLast]
      have := List.length_pos.mpr hne
      omega
    have hnp : ¬ needle.isPrefixOf (a :: (pre ++ needle ++ tail)) = true := by
      intro h
      have h1 := List.isPrefixOf_iff_prefix.mp h
      have h2 : a :: pre ++ needle.dropLast <+: a :: (pre ++ needle ++ tail) := by
        obtain ⟨x, hx⟩ := List.dropLast_prefix needle
        refine ⟨x ++ tail, ?_⟩
        have e : needle.dropLast ++ (x ++ tail) = needle ++ tail := by
          rw [← List.append_assoc, hx]
        simp only [List.cons_append, List.append_assoc, e]
      have h3 := List.prefix_of_prefix_length_le h1 h2 (by simp; omega)
      exact hfirst h3.isInfix
    have hrest : ¬ needle <:+: pre ++ needle.dropLast := by
      intro h
      exact hfirst (h.trans (List.suffix_cons a _).isInfix)
    show memmem (a :: (pre ++ needle ++ tail)) needle = some (pre.length + 1)
    rw [memmem, if_neg hnp, ih tail hrest]
    rfl

/-! ## The metadata loader -/

theorem rd_append_right (a b : List U8) (k : Nat) :
    rd (a ++ b) ((a.length : Int) + (k : Int)) = rd b (k : Int) := by
  unfold rd
  have h1 : (0 : Int) ≤ (a.length : Int) + (k : Int) := by omega
  have h2 : (0 : Int) ≤ (k : Int) := by omega
  have e1 : ((a.length : Int) + (k : Int)).toNat = a.length + k := by omega
  have e2 : ((k : Int)).toNat = k := by omega
  rw [if_pos h1, if_pos h2, e1, e2, List.getElem?_append_right (by omega)]
  simp

/-- The twelve reads after a prefix are reads of what follows the prefix. -/
theorem read_metadata_append (gi : Handle) (a b : List U8) :
    read_metadata gi (a ++ b) (a.length : Int) = read_metadata gi b 0 := by
  have h := rd_append_right a b
  have h0 := h 0
  have h1 := h 1
  have h2 := h 2
  have h3 := h 3
  have h4 := h 4
  have h5 := h 5
  have h6 := h 6
  have h7 := h 7
  have h8 := h 8
  have h9 := h 9
  have h10 := h 10
  have h11 := h 11
  simp only [Nat.cast_zero, add_zero, Nat.cast_one, Nat.cast_ofNat] at h0 h1 h2 h3 h4 h5 h6 h7 h8 h9 h10 h11
  unfold read_metadata
  simp only [h0, h1, h2, h3, h4, h5, h6, h7, h8, h9, h10, h11, zero_add]

/-- The buffer `_init` searches is the searched span. -/
theorem init_span (memory_cache : Bool) (content : List U8) :
    (content.drop (if memory_cache then 0
        else content.length -
          (if memory_cache then content.length
            else (if content.length < 2000 then content.length else 2000)))).take
      (if memory_cache then content.length
        else (if content.length < 2000 then content.length else 2000)) =
    searched_span memory_cache content := by
  unfold searched_span
  cases memory_cache
  · simp only [Bool.false_eq_true, if_false]
    have e : (if content.length < 2000 then content.length else 2000) =
        min content.length 2000 := by
      split <;> omega
    rw [e]
    apply List.take_of_length_le
    rw [List.length_drop]
    omega
  · simp

/-- The status of `_init` on a file that can be opened, when `malloc` returns a block and
the searched span has no marker. -/
theorem init_no_marker (memory_cache : Bool) (content : List U8) (fd flags : Nat)
    (malloc_ok : Bool) (h : memmem (searched_span memory_cache content) marker = none) :
    (_init calloc_world (some content) fd malloc_ok flags memory_cache).1 =
      .INVALIDDATABASE := by
  unfold _init
  cases malloc_ok
  · simp
  · simp only [init_span, h]
    simp

/-- C17: when the searched span (the whole file in memory mode, the trailing
`min(size, 2000)` bytes in file mode) does not contain the marker, `_init` returns
`GEOIP2_INVALIDDATABASE` and `GeoIP2_open` returns no handle; when the path cannot be
opened, `_init` returns `GEOIP2_OPENFILEERROR` and `GeoIP2_open` returns no handle. -/
theorem open_fails_without_marker (memory_cache : Bool) (content : List U8) (fd flags : Nat)
    (malloc_ok : Bool) (h : ¬ marker <:+: searched_span memory_cache content) :
    (_init calloc_world (some content) fd malloc_ok flags memory_cache).1 =
      .INVALIDDATABASE ∧
    (GeoIP2_open (some content) fd malloc_ok flags memory_cache).1 = none ∧
    (_init calloc_world none fd malloc_ok flags memory_cache).1 = .OPENFILEERROR ∧
    (GeoIP2_open none fd malloc_ok flags memory_cache).1 = none := by
  have hm : memmem (searched_span memory_cache content) marker = none :=
    (memmem_eq_none_iff marker _).mpr h
  have hi := init_no_marker memory_cache content fd flags malloc_ok hm
  refine ⟨hi, ?_, rfl, ?_⟩
  · unfold GeoIP2_open
    simp only [hi]
  · unfold GeoIP2_open
    rfl

/-- Witness of C17: file mode on the 3-byte file `01 02 03`. -/
theorem open_fails_without_marker_witness :
    (¬ marker <:+: searched_span false [1, 2, 3]) ∧
    (_init calloc_world (some [1, 2, 3]) 5 true 0 false).1 = .INVALIDDATABASE ∧
    (GeoIP2_open (some [1, 2, 3]) 5 true 0 false).1 = none ∧
    (_init calloc_world none 5 true 0 false).1 = .OPENFILEERROR ∧
    (GeoIP2_open none 5 true 0 false).1 = none :=
  ⟨by decide, open_fails_without_marker false [1, 2, 3] 5 0 true (by decide)⟩

/-- The function `_init` on a file that can be opened, in terms of the searched span. -/
theorem init_eq (memory_cache : Bool) (content : List U8) (fd flags : Nat)
    (malloc_ok : Bool) :
    _init calloc_world (some content) fd malloc_ok flags memory_cache =
      if malloc_ok = false then
        (.INVALIDDATABASE,
          { gi := { flags := flags, fd := if memory_cache then -1 else (fd : Int) },
            file_in_mem_ptr := none, fd_open := true, buf_live := false, gi_live := true })
      else
        match memmem (searched_span memory_cache content) marker with
        | none =>
          (.INVALIDDATABASE,
            { gi := { flags := flags, fd := if memory_cache then -1 else (fd : Int) },
              file_in_mem_ptr := none, fd_open := true, buf_live := false, gi_live := true })
        | some idx =>
          match read_metadata { flags := flags, fd := if memory_cache then -1 else (fd : Int) }
              (searched_span memory_cache content) ((idx : Int) + 14) with
          | none =>
            (.UNDEFINED,
              { gi := { flags := flags, fd := if memory_cache then -1 else (fd : Int) },
                file_in_mem_ptr := none, fd_open := true, buf_live := true, gi_live := true })
          | some gi =>
            if memory_cache then
              (.SUCCESS (),
                { gi := { gi with dataptr := (wrapInt32 (gi.segments * gi.recbits * 2)).tdiv 8 },
                  file_in_mem_ptr := some (searched_span memory_cache content),
                  fd_open := false, buf_live := true, gi_live := true })
            else
              (.SUCCESS (),
                { gi := { gi with dataptr := (wrapInt32 (gi.segments * gi.recbits * 2)).tdiv 8 },
                  file_in_mem_ptr := none, fd_open := true, buf_live := false,
                  gi_live := true }) := by
  unfold _init
  simp only [init_span]
  cases memory_cache <;> cases malloc_ok <;> simp [calloc_world]

/-- The search in a span whose first marker starts after `pre`. -/
theorem memmem_span (pre tail : List U8) (hfirst : ¬ marker <:+: pre ++ marker.dropLast) :
    memmem (pre ++ marker ++ tail) marker = some pre.length :=
  memmem_first marker (by decide) pre tail hfirst

/-- The reads of `_init` after the marker found at `pre.length`. -/
theorem read_metadata_span (gi : Handle) (pre tail : List U8) :
    read_metadata gi (pre ++ marker ++ tail) ((pre.length : Int) + 14) =
      read_metadata gi tail 0 := by
  have h := read_metadata_append gi (pre ++ marker) tail
  have e : (((pre ++ marker).length : Nat) : Int) = (pre.length : Int) + 14 := by
    rw [List.length_append]
    simp [marker]
  rw [e] at h
  exact h

/-- C16 (amended): when the searched span is `pre ++ marker ++ f0 .. f11 ++ rest` with no
occurrence of the marker starting inside `pre`, and the first of the four segment-count
bytes is below `0x80`, `_init` succeeds in both modes, sets `file_format`, `recbits`,
`depth`, `database_type`, `minor_database_type` and `segments` to the big-endian values of
the 2, 1, 1, 2, 2 and 4 bytes after the marker, and, when `segments * recbits * 2` is below
`2^31`, sets `dataptr` to `segments * recbits * 2 / 8` bytes past the start of the trie
region. -/
theorem init_reads_metadata (memory_cache : Bool) (content pre rest : List U8)
    (f0 f1 f2 f3 f4 f5 f6 f7 f8 f9 f10 f11 : U8) (fd flags : Nat)
    (hspan : searched_span memory_cache content =
      pre ++ marker ++
        (f0 :: f1 :: f2 :: f3 :: f4 :: f5 :: f6 :: f7 :: f8 :: f9 :: f10 :: f11 :: rest))
    (hfirst : ¬ marker <:+: pre ++ marker.dropLast)
    (hint : f8.val < 128) :
    (_init calloc_world (some content) fd true flags memory_cache).1 = .SUCCESS () ∧
    (_init calloc_world (some content) fd true flags memory_cache).2.gi.file_format =
      ((f0.val * 256 + f1.val : Nat) : Int) ∧
    (_init calloc_world (some content) fd true flags memory_cache).2.gi.recbits =
      ((f2.val : Nat) : Int) ∧
    (_init calloc_world (some content) fd true flags memory_cache).2.gi.depth =
      ((f3.val : Nat) : Int) ∧
    (_init calloc_world (some content) fd true flags memory_cache).2.gi.database_type =
      ((f4.val * 256 + f5.val : Nat) : Int) ∧
    (_init calloc_world (some content) fd true flags memory_cache).2.gi.minor_database_type =
      ((f6.val * 256 + f7.val : Nat) : Int) ∧
    (_init calloc_world (some content) fd true flags memory_cache).2.gi.segments =
      ((f8.val * 16777216 + f9.val * 65536 + f10.val * 256 + f11.val : Nat) : Int) ∧
    ((f8.val * 16777216 + f9.val * 65536 + f10.val * 256 + f11.val) * f2.val * 2 <
        2147483648 →
      (_init calloc_world (some content) fd true flags memory_cache).2.gi.dataptr =
        (((f8.val * 16777216 + f9.val * 65536 + f10.val * 256 + f11.val) * f2.val * 2 / 8
          : Nat) : Int)) := by
  have h9 := f9.isLt
  have h10 := f10.isLt
  have h11 := f11.isLt
  have hs : toInt32 (f8.val * 16777216 + f9.val * 65536 + f10.val * 256 + f11.val) =
      ((f8.val * 16777216 + f9.val * 65536 + f10.val * 256 + f11.val : Nat) : Int) :=
    toInt32_of_lt (by omega)
  have hw : (f8.val * 16777216 + f9.val * 65536 + f10.val * 256 + f11.val) * f2.val * 2 <
      2147483648 →
      (wrapInt32 (((f8.val * 16777216 + f9.val * 65536 + f10.val * 256 + f11.val : Nat) : Int) *
        ((f2.val : Nat) : Int) * 2)).tdiv 8 =
      (((f8.val * 16777216 + f9.val * 65536 + f10.val * 256 + f11.val) * f2.val * 2 / 8
        : Nat) : Int) := by
    intro hp
    have e : ((f8.val * 16777216 + f9.val * 65536 + f10.val * 256 + f11.val : Nat) : Int) *
        ((f2.val : Nat) : Int) * 2 =
        (((f8.val * 16777216 + f9.val * 65536 + f10.val * 256 + f11.val) * f2.val * 2 : Nat)
          : Int) := by
      push_cast
      rfl
    rw [e, wrapInt32_of_range (by omega) (by omega), Int.ofNat_tdiv]
    rfl
  rw [init_eq]
  simp only [hspan, memmem_span _ _ hfirst, read_metadata_span]
  have hr : read_metadata { flags := flags, fd := if memory_cache then -1 else (fd : Int) }
      (f0 :: f1 :: f2 :: f3 :: f4 :: f5 :: f6 :: f7 :: f8 :: f9 :: f10 :: f11 :: rest) 0 =
      some { flags := flags, fd := if memory_cache then -1 else (fd : Int),
             file_format := ((f0.val * 256 + f1.val : Nat) : Int),
             recbits := ((f2.val : Nat) : Int),
             depth := ((f3.val : Nat) : Int),
             database_type := ((f4.val * 256 + f5.val : Nat) : Int),
             minor_database_type := ((f6.val * 256 + f7.val : Nat) : Int),
             segments :=
               ((f8.val * 16777216 + f9.val * 65536 + f10.val * 256 + f11.val : Nat) : Int) } := by
    simp [read_metadata, rd, hs]
  rw [hr]
  cases memory_cache
  · simp only [Bool.false_eq_true, Bool.true_eq_false, if_false, true_and]
    exact hw
  · simp only [Bool.true_eq_false, if_false, if_true, true_and]
    exact hw

/-- Witness of C16: file mode on a 29-byte file with two bytes before the marker and one
after the twelve fields. -/
theorem init_reads_metadata_witness :
    (searched_span false
        ([9, 9] ++ marker ++ [0, 2, 24, 32, 0, 1, 0, 0, 0, 0, 0, 3, 7]) =
      [9, 9] ++ marker ++ [0, 2, 24, 32, 0, 1, 0, 0, 0, 0, 0, 3, 7] ∧
      ¬ marker <:+: [9, 9] ++ marker.dropLast ∧
      (0 : U8).val < 128) ∧
    (_init calloc_world (some ([9, 9] ++ marker ++ [0, 2, 24, 32, 0, 1, 0, 0, 0, 0, 0, 3, 7]))
      5 true 0 false).1 = .SUCCESS () ∧
    (_init calloc_world (some ([9, 9] ++ marker ++ [0, 2, 24, 32, 0, 1, 0, 0, 0, 0, 0, 3, 7]))
      5 true 0 false).2.gi.file_format = 2 ∧
    (_init calloc_world (some ([9, 9] ++ marker ++ [0, 2, 24, 32, 0, 1, 0, 0, 0, 0, 0, 3, 7]))
      5 true 0 false).2.gi.recbits = 24 ∧
    (_init calloc_world (some ([9, 9] ++ marker ++ [0, 2, 24, 32, 0, 1, 0, 0, 0, 0, 0, 3, 7]))
      5 true 0 false).2.gi.depth = 32 ∧
    (_init calloc_world (some ([9, 9] ++ marker ++ [0, 2, 24, 32, 0, 1, 0, 0, 0, 0, 0, 3, 7]))
      5 true 0 false).2.gi.database_type = 1 ∧
    (_init calloc_world (some ([9, 9] ++ marker ++ [0, 2, 24, 32, 0, 1, 0, 0, 0, 0, 0, 3, 7]))
      5 true 0 false).2.gi.minor_database_type = 0 ∧
    (_init calloc_world (some ([9, 9] ++ marker ++ [0, 2, 24, 32, 0, 1, 0, 0, 0, 0, 0, 3, 7]))
      5 true 0 false).2.gi.segments = 3 ∧
    (_init calloc_world (some ([9, 9] ++ marker ++ [0, 2, 24, 32, 0, 1, 0, 0, 0, 0, 0, 3, 7]))
      5 true 0 false).2.gi.dataptr = 18 :=
  have h := init_reads_metadata false
    ([9, 9] ++ marker ++ [0, 2, 24, 32, 0, 1, 0, 0, 0, 0, 0, 3, 7])
    [9, 9] [7] 0 2 24 32 0 1 0 0 0 0 0 3 5 0 (by decide) (by decide) (by decide)
  ⟨⟨by decide, by decide, by decide⟩, h.1, h.2.1, h.2.2.1, h.2.2.2.1, h.2.2.2.2.1,
    h.2.2.2.2.2.1, h.2.2.2.2.2.2.1, h.2.2.2.2.2.2.2 (by decide)⟩

/-- C16 fails as stated, twice.  When the four segment-count bytes are `80 00 00 00`,
whose big-endian value is 2147483648, `_init` succeeds and leaves `segments = -2147483648`:
the sum `p[8] * 16777216 + ...` is formed in `int`.  When they are `10 00 00 00` and
`recbits` is 32, `segments` is 268435456 and `_init` leaves `dataptr = 0`, not
`268435456 * 32 * 2 / 8 = 2147483648`: the product is formed in `int` as well. -/
theorem init_metadata_leaves_int_range :
    (marker <:+: searched_span true (marker ++ [0, 2, 24, 32, 0, 1, 0, 0, 0x80, 0, 0, 0])) ∧
    (_init calloc_world (some (marker ++ [0, 2, 24, 32, 0, 1, 0, 0, 0x80, 0, 0, 0])) 5 true 0
      true).1 = .SUCCESS () ∧
    (_init calloc_world (some (marker ++ [0, 2, 24, 32, 0, 1, 0, 0, 0x80, 0, 0, 0])) 5 true 0
      true).2.gi.segments = -2147483648 ∧
    (_init calloc_world (some (marker ++ [0, 2, 24, 32, 0, 1, 0, 0, 0x80, 0, 0, 0])) 5 true 0
      true).2.gi.segments ≠ ((0x80 * 16777216 + 0 * 65536 + 0 * 256 + 0 : Nat) : Int) ∧
    (marker <:+: searched_span true (marker ++ [0, 2, 32, 32, 0, 1, 0, 0, 0x10, 0, 0, 0])) ∧
    (_init calloc_world (some (marker ++ [0, 2, 32, 32, 0, 1, 0, 0, 0x10, 0, 0, 0])) 5 true 0
      true).1 = .SUCCESS () ∧
    (_init calloc_world (some (marker ++ [0, 2, 32, 32, 0, 1, 0, 0, 0x10, 0, 0, 0])) 5 true 0
      true).2.gi.segments = 268435456 ∧
    (_init calloc_world (some (marker ++ [0, 2, 32, 32, 0, 1, 0, 0, 0x10, 0, 0, 0])) 5 true 0
      true).2.gi.dataptr = 0 ∧
    (_init calloc_world (some (marker ++ [0, 2, 32, 32, 0, 1, 0, 0, 0x10, 0, 0, 0])) 5 true 0
      true).2.gi.dataptr ≠ ((268435456 * 32 * 2 / 8 : Nat) : Int) := by
  refine ⟨by decide, by decide, by decide, by decide, by decide, by decide, by decide,
    by decide, by decide⟩

/-! ## Teardown after a failed open -/

/-- Every failed open of an openable file in memory mode leaves the descriptor open:
`_init` has set `gi->fd = -1` (line 607) before it can fail, so `GeoIP2_free_all` does not
reach `close`. -/
theorem open_memory_mode_failure (content : List U8) (fd flags : Nat) (malloc_ok : Bool)
    (h : (GeoIP2_open (some content) fd malloc_ok flags true).1 = none) :
    (GeoIP2_open (some content) fd malloc_ok flags true).2.fd_open = true := by
  unfold GeoIP2_open at h ⊢
  rw [init_eq] at h ⊢
  cases malloc_ok
  · simp [GeoIP2_free_all]
  · cases hm : memmem (searched_span true content) marker with
    | none => simp [GeoIP2_free_all]
    | some idx =>
      simp only [hm] at h ⊢
      generalize read_metadata _ _ _ = o at h ⊢
      cases o with
      | none => simp [GeoIP2_free_all]
      | some gi => simp at h

/-- Every open of an openable file that fails in file mode for want of a buffer or of a
marker closes the descriptor. -/
theorem open_file_mode_failure (content : List U8) (fd flags : Nat) (malloc_ok : Bool)
    (h : (_init calloc_world (some content) fd malloc_ok flags false).1 = .INVALIDDATABASE) :
    (GeoIP2_open (some content) fd malloc_ok flags false).2.fd_open = false := by
  unfold GeoIP2_open
  simp only [h]
  rw [init_eq] at h ⊢
  cases malloc_ok
  · simp [GeoIP2_free_all]
  · cases hm : memmem (searched_span false content) marker with
    | none => simp [GeoIP2_free_all]
    | some idx =>
      simp only [hm] at h ⊢
      generalize read_metadata _ _ _ = o at h ⊢
      cases o with
      | none => simp at h
      | some gi => simp at h

/-- C18 fails in memory mode: opening the 3-byte file `01 02 03` (no marker) on descriptor 5
returns no handle, frees the buffer and the handle, and leaves descriptor 5 open; so does a
failed allocation of the working buffer.  In file mode the same two failures close the
descriptor. -/
theorem open_memory_mode_leaks_descriptor :
    (GeoIP2_open (some [1, 2, 3]) 5 true 0 true).1 = none ∧
    (GeoIP2_open (some [1, 2, 3]) 5 true 0 true).2.fd_open = true ∧
    (GeoIP2_open (some [1, 2, 3]) 5 true 0 true).2.buf_live = false ∧
    (GeoIP2_open (some [1, 2, 3]) 5 true 0 true).2.gi_live = false ∧
    (GeoIP2_open (some [1, 2, 3]) 5 false 0 true).1 = none ∧
    (GeoIP2_open (some [1, 2, 3]) 5 false 0 true).2.fd_open = true ∧
    (GeoIP2_open (some [1, 2, 3]) 5 true 0 false).1 = none ∧
    (GeoIP2_open (some [1, 2, 3]) 5 true 0 false).2.fd_open = false ∧
    (GeoIP2_open (some [1, 2, 3]) 5 false 0 false).1 = none ∧
    (GeoIP2_open (some [1, 2, 3]) 5 false 0 false).2.fd_open = false := by
  refine ⟨by decide, by decide, by decide, by decide, by decide, by decide, by decide,
    by decide, by decide, by decide⟩

/-! ## The two modes of the loader -/

/-- The metadata fields read do not depend on the handle they are stored in. -/
theorem read_metadata_fields (gi gi' : Handle) (buf : List U8) (p : Int) :
    (read_metadata gi buf p).map metadata_of = (read_metadata gi' buf p).map metadata_of := by
  unfold read_metadata
  split <;> rfl

/-- The metadata fields `_init` leaves when it succeeds on a span whose first marker
starts after `pre`: those read from what follows the marker. -/
theorem init_metadata (memory_cache : Bool) (content pre tail : List U8) (fd flags : Nat)
    (hspan : searched_span memory_cache content = pre ++ marker ++ tail)
    (hfirst : ¬ marker <:+: pre ++ marker.dropLast)
    (hs : (_init calloc_world (some content) fd true flags memory_cache).1 = .SUCCESS ()) :
    some (metadata_of (_init calloc_world (some content) fd true flags memory_cache).2.gi) =
      (read_metadata {} tail 0).map metadata_of := by
  rw [init_eq] at hs ⊢
  simp only [hspan, memmem_span _ _ hfirst, read_metadata_span] at hs ⊢
  rw [read_metadata_fields {} { flags := flags, fd := if memory_cache then -1 else (fd : Int) }]
  generalize read_metadata _ tail 0 = o at hs ⊢
  cases o with
  | none => simp at hs
  | some gi => cases memory_cache <;> simp [metadata_of]

/-- The span searched in file mode, when the marker starts at or after its first byte. -/
theorem searched_span_file (pre tail : List U8)
    (hwin : (pre ++ marker ++ tail).length - min (pre ++ marker ++ tail).length 2000 ≤
      pre.length) :
    searched_span false (pre ++ marker ++ tail) =
      pre.drop ((pre ++ marker ++ tail).length - min (pre ++ marker ++ tail).length 2000) ++
        marker ++ tail := by
  unfold searched_span
  simp only [Bool.false_eq_true, if_false]
  generalize (pre ++ marker ++ tail).length - min (pre ++ marker ++ tail).length 2000 = n
    at hwin ⊢
  rw [List.append_assoc, List.drop_append_of_le_length hwin, List.append_assoc]

/-- C20 (amended): when the first occurrence of the marker in the file starts inside the
trailing `min(size, 2000)` bytes, and `_init` succeeds in memory mode and in file mode, the
two modes leave the same `file_format`, `recbits`, `depth`, `database_type`,
`minor_database_type` and `segments`. -/
theorem init_modes_agree (pre tail : List U8) (fd fd' flags flags' : Nat)
    (hfirst : ¬ marker <:+: pre ++ marker.dropLast)
    (hwin : (pre ++ marker ++ tail).length - min (pre ++ marker ++ tail).length 2000 ≤
      pre.length)
    (hm : (_init calloc_world (some (pre ++ marker ++ tail)) fd true flags true).1 =
      .SUCCESS ())
    (hf : (_init calloc_world (some (pre ++ marker ++ tail)) fd' true flags' false).1 =
      .SUCCESS ()) :
    (_init calloc_world (some (pre ++ marker ++ tail)) fd true flags true).2.gi.file_format =
      (_init calloc_world (some (pre ++ marker ++ tail)) fd' true flags' false).2.gi.file_format ∧
    (_init calloc_world (some (pre ++ marker ++ tail)) fd true flags true).2.gi.recbits =
      (_init calloc_world (some (pre ++ marker ++ tail)) fd' true flags' false).2.gi.recbits ∧
    (_init calloc_world (some (pre ++ marker ++ tail)) fd true flags true).2.gi.depth =
      (_init calloc_world (some (pre ++ marker ++ tail)) fd' true flags' false).2.gi.depth ∧
    (_init calloc_world (some (pre ++ marker ++ tail)) fd true flags true).2.gi.database_type =
      (_init calloc_world (some (pre ++ marker ++ tail)) fd' true flags'
        false).2.gi.database_type ∧
    (_init calloc_world (some (pre ++ marker ++ tail)) fd true flags
        true).2.gi.minor_database_type =
      (_init calloc_world (some (pre ++ marker ++ tail)) fd' true flags'
        false).2.gi.minor_database_type ∧
    (_init calloc_world (some (pre ++ marker ++ tail)) fd true flags true).2.gi.segments =
      (_init calloc_world (some (pre ++ marker ++ tail)) fd' true flags' false).2.gi.segments := by
  have hfirst' : ¬ marker <:+:
      pre.drop ((pre ++ marker ++ tail).length - min (pre ++ marker ++ tail).length 2000) ++
        marker.dropLast := by
    intro h
    apply hfirst
    refine h.trans (List.IsSuffix.isInfix ⟨pre.take
      ((pre ++ marker ++ tail).length - min (pre ++ marker ++ tail).length 2000), ?_⟩)
    rw [← List.append_assoc, List.take_append_drop]
  have e1 := init_metadata true (pre ++ marker ++ tail) pre tail fd flags
    (by simp [searched_span]) hfirst hm
  have e2 := init_metadata false (pre ++ marker ++ tail) _ tail fd' flags'
    (searched_span_file pre tail hwin) hfirst' hf
  have e := e1.trans e2.symm
  simp only [Option.some.injEq, metadata_of, Prod.mk.injEq] at e
  exact e

/-- Witness of C20: a 29-byte file whose only marker starts at its third byte. -/
theorem init_modes_agree_witness :
    (¬ marker <:+: [9, 9] ++ marker.dropLast ∧
      ([9, 9] ++ marker ++ [0, 2, 24, 32, 0, 1, 0, 0, 0, 0, 0, 3, 7]).length -
        min ([9, 9] ++ marker ++ [0, 2, 24, 32, 0, 1, 0, 0, 0, 0, 0, 3, 7]).length 2000 ≤
          ([9, 9] : List U8).length ∧
      (_init calloc_world (some ([9, 9] ++ marker ++ [0, 2, 24, 32, 0, 1, 0, 0, 0, 0, 0, 3, 7]))
        5 true 0 true).1 = .SUCCESS () ∧
      (_init calloc_world (some ([9, 9] ++ marker ++ [0, 2, 24, 32, 0, 1, 0, 0, 0, 0, 0, 3, 7]))
        6 true 1 false).1 = .SUCCESS ()) ∧
    (_init calloc_world (some ([9, 9] ++ marker ++ [0, 2, 24, 32, 0, 1, 0, 0, 0, 0, 0, 3, 7]))
        5 true 0 true).2.gi.segments =
      (_init calloc_world (some ([9, 9] ++ marker ++ [0, 2, 24, 32, 0, 1, 0, 0, 0, 0, 0, 3, 7]))
        6 true 1 false).2.gi.segments :=
  ⟨⟨by decide, by decide, by decide, by decide⟩,
    (init_modes_agree [9, 9] [0, 2, 24, 32, 0, 1, 0, 0, 0, 0, 0, 3, 7] 5 6 0 1 (by decide)
      (by decide) (by decide) (by decide)).2.2.2.2.2⟩

/-- A run of zero bytes followed by the first 13 bytes of the marker has no marker. -/
theorem replicate_no_marker (n : Nat) :
    ¬ marker <:+: List.replicate n (0 : U8) ++ marker.dropLast := by
  induction n with
  | zero => decide
  | succ n ih =>
    rw [List.replicate_succ, List.cons_append, List.infix_cons_iff]
    rintro (h | h)
    · rw [marker, List.cons_prefix_cons] at h
      exact absurd h.1 (by decide)
    · exact ih h

/-- C20 fails as stated: a 2026-byte file with the marker and twelve fields at its start,
1974 zero bytes, and a second marker with other fields at its end.  `_init` succeeds in
both modes; memory mode finds the first marker and sets `recbits = 24`, `depth = 32`,
`segments = 3`; file mode reads the last 2000 bytes only, finds the second marker and sets
`recbits = 28`, `depth = 128`, `segments = 9`. -/
theorem init_modes_differ :
    (_init calloc_world
      (some (marker ++ [0, 2, 24, 32, 0, 1, 0, 0, 0, 0, 0, 3] ++ List.replicate 1974 0 ++
        marker ++ [0, 2, 28, 128, 0, 1, 0, 0, 0, 0, 0, 9])) 5 true 0 true).1 = .SUCCESS () ∧
    (_init calloc_world
      (some (marker ++ [0, 2, 24, 32, 0, 1, 0, 0, 0, 0, 0, 3] ++ List.replicate 1974 0 ++
        marker ++ [0, 2, 28, 128, 0, 1, 0, 0, 0, 0, 0, 9])) 5 true 0 false).1 = .SUCCESS () ∧
    metadata_of (_init calloc_world
      (some (marker ++ [0, 2, 24, 32, 0, 1, 0, 0, 0, 0, 0, 3] ++ List.replicate 1974 0 ++
        marker ++ [0, 2, 28, 128, 0, 1, 0, 0, 0, 0, 0, 9])) 5 true 0 true).2.gi =
      (2, 24, 32, 1, 0, 3) ∧
    metadata_of (_init calloc_world
      (some (marker ++ [0, 2, 24, 32, 0, 1, 0, 0, 0, 0, 0, 3] ++ List.replicate 1974 0 ++
        marker ++ [0, 2, 28, 128, 0, 1, 0, 0, 0, 0, 0, 9])) 5 true 0 false).2.gi =
      (2, 28, 128, 1, 0, 9) := by
  have hno := replicate_no_marker 1974
  have hlen : (List.replicate 1974 (0 : U8)).length = 1974 := List.length_replicate _ _
  generalize List.replicate 1974 (0 : U8) = Z at hno hlen ⊢
  have e1 : searched_span true
      (marker ++ [0, 2, 24, 32, 0, 1, 0, 0, 0, 0, 0, 3] ++ Z ++ marker ++
        [0, 2, 28, 128, 0, 1, 0, 0, 0, 0, 0, 9]) =
      [] ++ marker ++ ([0, 2, 24, 32, 0, 1, 0, 0, 0, 0, 0, 3] ++ (Z ++ (marker ++
        [0, 2, 28, 128, 0, 1, 0, 0, 0, 0, 0, 9]))) := by
    simp only [searched_span, if_true, List.append_assoc, List.nil_append]
  have e2 : searched_span false
      (marker ++ [0, 2, 24, 32, 0, 1, 0, 0, 0, 0, 0, 3] ++ Z ++ marker ++
        [0, 2, 28, 128, 0, 1, 0, 0, 0, 0, 0, 9]) =
      Z ++ marker ++ [0, 2, 28, 128, 0, 1, 0, 0, 0, 0, 0, 9] := by
    unfold searched_span
    simp only [Bool.false_eq_true, if_false]
    have hl : (marker ++ [0, 2, 24, 32, 0, 1, 0, 0, 0, 0, 0, 3] ++ Z ++ marker ++
        ([0, 2, 28, 128, 0, 1, 0, 0, 0, 0, 0, 9] : List U8)).length = 2026 := by
      simp [marker, hlen]
    have h26 : 2026 - min 2026 2000 = 26 := by decide
    rw [hl, h26]
    have ha : marker ++ [0, 2, 24, 32, 0, 1, 0, 0, 0, 0, 0, 3] ++ Z ++ marker ++
        ([0, 2, 28, 128, 0, 1, 0, 0, 0, 0, 0, 9] : List U8) =
        (marker ++ [0, 2, 24, 32, 0, 1, 0, 0, 0, 0, 0, 3]) ++
          (Z ++ marker ++ [0, 2, 28, 128, 0, 1, 0, 0, 0, 0, 0, 9]) := by
      simp only [List.append_assoc]
    rw [ha]
    exact List.drop_left' (by decide)
  have i1 := init_eq true (marker ++ [0, 2, 24, 32, 0, 1, 0, 0, 0, 0, 0, 3] ++ Z ++ marker ++
    [0, 2, 28, 128, 0, 1, 0, 0, 0, 0, 0, 9]) 5 0 true
  have i2 := init_eq false (marker ++ [0, 2, 24, 32, 0, 1, 0, 0, 0, 0, 0, 3] ++ Z ++ marker ++
    [0, 2, 28, 128, 0, 1, 0, 0, 0, 0, 0, 9]) 5 0 true
  have hno0 : ¬ marker <:+: [] ++ marker.dropLast := by decide
  simp only [e1, memmem_span [] _ hno0, read_metadata_span] at i1
  simp only [e2, memmem_span Z _ hno, read_metadata_span] at i2
  rw [i1, i2]
  refine ⟨?_, ?_, ?_, ?_⟩
  · simp [read_metadata, rd]
  · simp [read_metadata, rd]
  · simp [read_metadata, rd, metadata_of, toInt32]
    decide
  · simp [read_metadata, rd, metadata_of, toInt32]
    decide

end GeoIP2
